import Mathlib

/-!
# Legal document analyzer: the analysis pipeline of `backend/routes/analysis.js`

A shallow embedding of the Express routes of `backend/routes/analysis.js` and
`backend/routes/documents.js` over the Mongoose schema of
`backend/models/Document.js`.

Conventions of the embedding.

* The MongoDB collection is a list of `Document` records; the store is reliable
  (a database call fails only for the reasons the schema or the driver gives:
  an id that does not cast, a validator that rejects, a duplicate key).
* What the application gets from outside the repository is a parameter:
  the reasoning engine is an oracle `Engine` (reply of the n-th call), and the
  library functions the code calls (`JSON.parse`, the ObjectId cast of
  `findById`, the coercions Mongoose applies to a value that is not of the
  declared schema type, the PDF and DOCX extractors) are the fields of `Lib`.
* What `Document.js` declares is embedded as Mongoose documents it: `type`
  casts on assignment, `min`, `max`, `enum` and `required` are validators run by
  `save()` that reject the document, `default` fills a path that is absent when
  a document or subdocument is constructed or loaded. A value that does not
  cast records a cast error on its path and leaves the path unset; an object
  in the clause array is made a subdocument whatever its fields, so the cast
  error of a field does not keep the other clauses from the validators.
* A JSON number is the rational it denotes (every finite double is one), or an
  infinity (`1e999`); the routes compare numbers, they never compute with them.
* The `_id` Mongoose adds to every array subdocument and the version key
  `__v` are left out.
* The aggregations of `GET /stats/overview` are embedded as MongoDB documents
  them: `$match`, `$unwind` and `$group` with `$avg`, `$max`, `$min`, `$sum`;
  an accumulator skips a missing or `null` value and is `null` when it has seen
  no number. The double `$avg` computes from the numbers it has seen is the
  database's own, a field of `Lib`.
* Two requests in flight share the collection and the engine. Node runs one
  handler at a time and can switch to another only at an `await`, so a
  handler is embedded as the list of its stretches between `await`s and an
  interleaving as the order in which the stretches run. `save()` of a loaded
  document writes its modified paths under its `_id`: the assignment of the
  nested path `analysis` is a `$set` of that path, which carries no check of
  the version key.
-/

namespace LegalAnalyzer

/-! ## JSON values and schema slots -/

/-- A number as `JSON.parse` yields it. -/
inductive JNum where
  | fin (q : ℚ)
  | posInf
  | negInf
  deriving DecidableEq, Repr

/-- A value as `JSON.parse` yields it. An object is the list of its own
properties; a JavaScript object has no duplicate keys, and `get?` reads the
first binding of a key. -/
inductive JVal where
  | null
  | bool (b : Bool)
  | num (n : JNum)
  | str (s : String)
  | arr (xs : List JVal)
  | obj (kvs : List (String × JVal))

/-- The three states of a schema path in a stored document: no such key, the
value `null`, or a value of the declared type. -/
inductive Slot (α : Type) where
  | absent
  | null
  | val (a : α)
  deriving DecidableEq, Repr

/-- Property read `o[key]` on the object `{...v}`: the spread of a JSON object
has its properties; the spread of `null`, a boolean or a number has none, and
the spread of a string or an array has index keys only, none of which is a
path of the schema. -/
def JVal.get? (v : JVal) (key : String) : Option JVal :=
  match v with
  | .obj kvs => (kvs.find? (fun kv => kv.1 == key)).map Prod.snd
  | _ => none

/-! ## Text cleaning of `analyzeWithAI` (lines 55-57) -/

/-- The fence character U+0060. -/
def fenceChar : Char := Char.ofNat 96

/-- The three fence characters. -/
def fence : List Char := [fenceChar, fenceChar, fenceChar]

/-- The fence followed by the word json. -/
def fenceJson : List Char := fence ++ ['j', 's', 'o', 'n']

/-- Drops one line feed at the head, the `\n?` of the pattern. -/
def dropNewline : List Char → List Char
  | '\n' :: rest => rest
  | cs => cs

/-- One step of the global replace at the head of the remaining text: the text
left after a match of the pattern (first alternative: fence, json, optional
line feed; second alternative: fence, optional line feed), or `none`. -/
def matchFence (cs : List Char) : Option (List Char) :=
  if fenceJson.isPrefixOf cs then some (dropNewline (cs.drop 7))
  else if fence.isPrefixOf cs then some (dropNewline (cs.drop 3))
  else none

/-- The scan of `text.replace(pattern, '')` with the global flag: matches are
removed left to right, other characters are kept. The first argument bounds
the number of steps; `String.length` of the text always suffices. -/
def stripFencesAux : Nat → List Char → List Char
  | 0, _ => []
  | _ + 1, [] => []
  | n + 1, c :: cs =>
    match matchFence (c :: cs) with
    | some rest => stripFencesAux n rest
    | none => c :: stripFencesAux n cs

/-- White space and line terminators of ECMAScript, what `trim()` removes. -/
def isJsSpace (c : Char) : Bool :=
  let n := c.toNat
  n == 9 || n == 10 || n == 11 || n == 12 || n == 13 || n == 32 || n == 160
    || n == 5760 || (8192 ≤ n && n ≤ 8202) || n == 8232 || n == 8233
    || n == 8239 || n == 8287 || n == 12288 || n == 65279

/-- JavaScript `String.prototype.trim` on a character list. -/
def jsTrimChars (cs : List Char) : List Char :=
  ((cs.dropWhile isJsSpace).reverse.dropWhile isJsSpace).reverse

/-- JavaScript `String.prototype.trim`. -/
def jsTrim (s : String) : String := String.mk (jsTrimChars s.data)

/-- Line 56: the replace of the fence pattern followed by `trim()`. -/
def cleanText (text : String) : String :=
  String.mk (jsTrimChars (stripFencesAux (text.data.length + 1) text.data))

/-! ## The schema of `models/Document.js` -/

/-- An ObjectId, the value of `_id`. -/
abbrev ObjectId := Nat

/-- A date, in milliseconds. -/
abbrev Timestamp := Nat

/-- The `fileType` enum of the schema (lines 14-18). -/
inductive FileType where
  | pdf
  | docx
  | txt
  deriving DecidableEq, Repr

/-- A subdocument of `analysis.suspiciousClauses` (lines 29-38). -/
structure SuspiciousClause where
  clause : Slot String
  reason : Slot String
  severity : Slot String
  location : Slot String
  deriving DecidableEq, Repr

/-- An element of the stored `suspiciousClauses` array: a subdocument, or an
element the library left in the array without making a subdocument of it. -/
inductive ClauseEntry where
  | doc (c : SuspiciousClause)
  | other
  deriving DecidableEq, Repr

/-- The nested path `analysis` of the schema (lines 27-48). An element of a
string array is a string or `null` (`none`). -/
structure Analysis where
  summary : Slot String
  suspiciousClauses : Slot (List ClauseEntry)
  keyTerms : Slot (List (Option String))
  recommendations : Slot (List (Option String))
  riskScore : Slot JNum
  analyzedAt : Slot Timestamp
  deriving DecidableEq, Repr

/-- A stored document (lines 3-55); `createdAt` and `updatedAt` come from
`timestamps: true`. -/
structure Document where
  id : ObjectId
  filename : String
  originalName : String
  fileType : FileType
  content : String
  uploadedAt : Timestamp
  analysis : Analysis
  isAnalyzed : Bool
  createdAt : Timestamp
  updatedAt : Timestamp
  deriving DecidableEq, Repr

/-- The values of the `severity` enum (line 34). -/
def severityEnum : List String := ["low", "medium", "high"]

/-- The default of `severity` (line 35). -/
def severityDefault : String := "medium"

/-- The `min` of `riskScore` (line 43). -/
def riskScoreMin : ℚ := 0

/-- The `max` of `riskScore` (line 44). -/
def riskScoreMax : ℚ := 100

/-- The default of `riskScore` (line 45). -/
def riskScoreDefault : JNum := .fin 0

/-! ## What comes from outside the repository -/

/-- A reply of `model.generateContent` followed by `response.text()`: the call
throws (transport, quota, blocked content), or yields a text. -/
inductive EngineReply where
  | throws
  | text (t : String)
  deriving DecidableEq, Repr

/-- The external engine: the reply of call number `n` (counted from 0) for a
document content. The prompt of lines 15-49 is a fixed template around the
content, so the reply is a function of the content. -/
abbrev Engine := Nat → String → EngineReply

/-- The value of a `$group` accumulator over numbers: `null` when no document
contributes a number, a number, or NaN (the sum of both infinities). -/
inductive StatValue where
  | null
  | num (n : JNum)
  | nan
  deriving DecidableEq, Repr

/-- A failure `save()` reports, by kind, with the schema path. -/
inductive Issue where
  | cast (path : String)
  | min (path : String)
  | max (path : String)
  | enum (path : String)
  | required (path : String)
  deriving DecidableEq, Repr

/-- The library functions the routes rely on. `none` is a thrown error. The
cast fields are consulted only for a value that is not of the declared type;
what the library does with such a value is not fixed by the repository. -/
structure Lib where
  /-- `JSON.parse`. -/
  jsonParse : String → Option JVal
  /-- The cast of a route parameter to an ObjectId, as `findById` does it. -/
  castObjectId : String → Option ObjectId
  /-- Cast to `String` of a value that is neither a string nor `null`. -/
  castString : JVal → Option (Option String)
  /-- Cast to `Number` of a value that is neither a number nor `null`. -/
  castNumber : JVal → Option (Slot JNum)
  /-- Cast to `[String]` of a value that is not an array. -/
  castStringArray : JVal → Option (Slot (List (Option String)))
  /-- Cast to the clause array of a value that is not an array: the array that
  is set and the cast errors recorded on the paths of its subdocuments. -/
  castClauseArray : JVal → Option (Slot (List ClauseEntry) × List Issue)
  /-- Cast to an entry of the clause array of an element that is not an object:
  the entry and the cast errors recorded with it. -/
  castClauseEntry : JVal → Option (ClauseEntry × List Issue)
  /-- Whether the `enum` validator passes the value `null`. -/
  enumAcceptsNull : Bool
  /-- The text of a PDF, `pdfParse(buffer)`. -/
  pdfParse : List Nat → Option String
  /-- The raw text of a DOCX, `mammoth.extractRawText`. -/
  mammothExtract : List Nat → Option String
  /-- The decoding `buffer.toString` with encoding utf8. -/
  utf8Decode : List Nat → String
  /-- The value of the accumulator `$avg` of the database for the numbers it has
  seen, at least one: the double the database computes for their mean. How it
  sums and rounds is its own. -/
  average : List JNum → StatValue

/-! ## Casting an assigned value to the schema -/

/-- Cast of the value at a `String` path; `none` is a cast error. -/
def castStringPath (L : Lib) : Option JVal → Option (Slot String)
  | none => some .absent
  | some .null => some .null
  | some (.str s) => some (.val s)
  | some v =>
    match L.castString v with
    | none => none
    | some none => some .null
    | some (some s) => some (.val s)

/-- Cast of the value at a `Number` path; `none` is a cast error. -/
def castNumberPath (L : Lib) : Option JVal → Option (Slot JNum)
  | none => some .absent
  | some .null => some .null
  | some (.num n) => some (.val n)
  | some v => L.castNumber v

/-- Casts every element of an array; an element whose cast throws makes the
cast of the whole array throw. -/
def castAll {α β : Type} (f : α → Option β) : List α → Option (List β)
  | [] => some []
  | x :: xs =>
    match f x, castAll f xs with
    | some y, some ys => some (y :: ys)
    | _, _ => none

/-- Cast of one element of a `[String]` array. -/
def castStringElem (L : Lib) : JVal → Option (Option String)
  | .null => some none
  | .str s => some (some s)
  | v => L.castString v

/-- Cast of the value at a `[String]` path (lines 39-40). -/
def castStringArrayPath (L : Lib) : Option JVal → Option (Slot (List (Option String)))
  | none => some .absent
  | some (.arr xs) => (castAll (castStringElem L) xs).map Slot.val
  | some v => L.castStringArray v

/-- The default of `severity` is applied when the subdocument is constructed
and the key is absent. -/
def applySeverityDefault : Slot String → Slot String
  | .absent => .val severityDefault
  | s => s

/-- A cast result as the assigned value and the cast errors recorded on the
document: a path whose cast fails is left unset. -/
def orCastIssue {α : Type} (path : String) : Option (Slot α) → Slot α × List Issue
  | some s => (s, [])
  | none => (.absent, [.cast path])

/-- Construction of a clause subdocument from an object (lines 29-38). Each of
the four paths is cast on its own: a value that does not cast leaves its path
unset and records a cast error on that path, and the subdocument is
constructed all the same. The default of `severity` fills the path when it is
unset. -/
def castClause (L : Lib) (o : JVal) : SuspiciousClause × List Issue :=
  let clause := orCastIssue "analysis.suspiciousClauses.clause"
    (castStringPath L (o.get? "clause"))
  let reason := orCastIssue "analysis.suspiciousClauses.reason"
    (castStringPath L (o.get? "reason"))
  let severity := orCastIssue "analysis.suspiciousClauses.severity"
    (castStringPath L (o.get? "severity"))
  let location := orCastIssue "analysis.suspiciousClauses.location"
    (castStringPath L (o.get? "location"))
  ({ clause := clause.1, reason := reason.1, severity := applySeverityDefault severity.1,
     location := location.1 },
   clause.2 ++ reason.2 ++ severity.2 ++ location.2)

/-- Cast of one element of the clause array: the entry and the cast errors
recorded on the paths of its subdocument. An object always becomes a
subdocument; `none` is an element the library makes no entry of, which makes
the cast of the array throw. -/
def castClauseElem (L : Lib) : JVal → Option (ClauseEntry × List Issue)
  | .obj kvs => some (.doc (castClause L (.obj kvs)).1, (castClause L (.obj kvs)).2)
  | v => L.castClauseEntry v

/-- Cast of the value at `analysis.suspiciousClauses`: the array, and the cast
errors recorded on the paths of its subdocuments; `none` when the cast of the
array throws. -/
def castClauseArrayPath (L : Lib) :
    Option JVal → Option (Slot (List ClauseEntry) × List Issue)
  | none => some (.absent, [])
  | some (.arr xs) =>
    (castAll (castClauseElem L) xs).map
      (fun ys => (.val (ys.map Prod.fst), ys.flatMap Prod.snd))
  | some v => L.castClauseArray v

/-- The assignment of `analysis.suspiciousClauses`: the array that is set with
the cast errors of its subdocuments, or, when the cast of the array throws,
the path left unset with the cast error of the array. -/
def assignClauses (L : Lib) (v : Option JVal) : Slot (List ClauseEntry) × List Issue :=
  match castClauseArrayPath L v with
  | some r => r
  | none => (.absent, [.cast "analysis.suspiciousClauses"])

/-- Lines 85-88, the assignment
`document.analysis = { ...analysis, analyzedAt: new Date() }`: the nested path
is overwritten, each key of the schema is cast, keys outside the schema are
dropped (strict mode), and `analyzedAt` is the date of the call whatever the
engine sent under that key. Returns the new `analysis` and the cast errors. -/
def assignAnalysis (L : Lib) (v : JVal) (now : Timestamp) : Analysis × List Issue :=
  let summary := orCastIssue "analysis.summary" (castStringPath L (v.get? "summary"))
  let clauses := assignClauses L (v.get? "suspiciousClauses")
  let keyTerms := orCastIssue "analysis.keyTerms" (castStringArrayPath L (v.get? "keyTerms"))
  let recs := orCastIssue "analysis.recommendations"
    (castStringArrayPath L (v.get? "recommendations"))
  let risk := orCastIssue "analysis.riskScore" (castNumberPath L (v.get? "riskScore"))
  ({ summary := summary.1, suspiciousClauses := clauses.1, keyTerms := keyTerms.1,
     recommendations := recs.1, riskScore := risk.1, analyzedAt := .val now },
   summary.2 ++ clauses.2 ++ keyTerms.2 ++ recs.2 ++ risk.2)

/-! ## Validation and persistence -/

/-- The `min` and `max` validators of `riskScore` (lines 43-44); they pass
`null` and an absent value. -/
def riskScoreIssues : Slot JNum → List Issue
  | .val (.fin q) =>
    (if q < riskScoreMin then [Issue.min "analysis.riskScore"] else [])
      ++ (if riskScoreMax < q then [Issue.max "analysis.riskScore"] else [])
  | .val .posInf => [Issue.max "analysis.riskScore"]
  | .val .negInf => [Issue.min "analysis.riskScore"]
  | _ => []

/-- The `enum` validator of `severity` (line 34). -/
def severityIssues (L : Lib) : Slot String → List Issue
  | .val s =>
    if s ∈ severityEnum then [] else [Issue.enum "analysis.suspiciousClauses.severity"]
  | .null =>
    if L.enumAcceptsNull then [] else [Issue.enum "analysis.suspiciousClauses.severity"]
  | .absent => []

/-- Validation of one element of the clause array. -/
def clauseEntryIssues (L : Lib) : ClauseEntry → List Issue
  | .doc c => severityIssues L c.severity
  | .other => []

/-- Validation of the clause array. -/
def clausesIssues (L : Lib) : Slot (List ClauseEntry) → List Issue
  | .val cs => cs.flatMap (clauseEntryIssues L)
  | _ => []

/-- The `required` validator of a `String` path: the empty string fails. -/
def requiredIssues (path : String) (s : String) : List Issue :=
  if s = "" then [Issue.required path] else []

/-- The validators `save()` runs on a document of this schema. -/
def validate (L : Lib) (d : Document) : List Issue :=
  requiredIssues "filename" d.filename ++ requiredIssues "originalName" d.originalName
    ++ requiredIssues "content" d.content
    ++ clausesIssues L d.analysis.suspiciousClauses
    ++ riskScoreIssues d.analysis.riskScore

/-- Replaces the first stored document that has the id of `d`. -/
def updateFirst (d : Document) : List Document → List Document
  | [] => []
  | e :: rest => if e.id = d.id then d :: rest else e :: updateFirst d rest

/-- The call `document.save()` on a loaded document: the cast errors recorded
by the assignments and the validators decide; on success the document is
written with a fresh `updatedAt`, on failure nothing is written. -/
def save (L : Lib) (store : List Document) (d : Document) (castIssues : List Issue)
    (savedAt : Timestamp) : Except (List Issue) (Document × List Document) :=
  match castIssues ++ validate L d with
  | [] =>
    let written := { d with updatedAt := savedAt }
    .ok (written, updateFirst written store)
  | issues => .error issues

/-- Defaults filled in when a clause subdocument is loaded. -/
def hydrateEntry : ClauseEntry → ClauseEntry
  | .doc c => .doc { c with severity := applySeverityDefault c.severity }
  | .other => .other

/-- Defaults of an array path: an absent array is loaded as the empty array. -/
def arrayDefault {α : Type} : Slot (List α) → Slot (List α)
  | .absent => .val []
  | s => s

/-- Defaults of the `analysis` paths, filled in when a document is loaded or
constructed: arrays, `riskScore` (line 45), `severity` (line 35). -/
def hydrateAnalysis (a : Analysis) : Analysis :=
  { a with
    suspiciousClauses :=
      match arrayDefault a.suspiciousClauses with
      | .val cs => .val (cs.map hydrateEntry)
      | s => s
    keyTerms := arrayDefault a.keyTerms
    recommendations := arrayDefault a.recommendations
    riskScore :=
      match a.riskScore with
      | .absent => .val riskScoreDefault
      | s => s }

/-- A stored document as Mongoose hands it to the route. -/
def hydrate (d : Document) : Document := { d with analysis := hydrateAnalysis d.analysis }

/-- The call `Document.findById` for an id that cast. -/
def findById (store : List Document) (oid : ObjectId) : Option Document :=
  (store.find? (fun d => d.id == oid)).map hydrate

/-! ## The values of the statistics -/

/-- The object `riskStatistics` of the response. `groupId` tells whether it is
the group of the aggregation, which carries its `_id: null`, or the literal of
line 199. -/
structure RiskStatistics where
  groupId : Bool
  avgRiskScore : StatValue
  maxRiskScore : StatValue
  minRiskScore : StatValue
  deriving DecidableEq, Repr

/-- The body of the statistics response (lines 195-204). An object with
counters as values is the list of its properties. -/
structure Overview where
  totalDocuments : Nat
  analyzedDocuments : Nat
  pendingAnalysis : Int
  riskStatistics : RiskStatistics
  suspiciousClausesBySeverity : List (String × Nat)
  deriving DecidableEq, Repr

/-! ## Responses -/

/-- The `details` of an error response, `error.message`: a message the source
writes itself, or the message of a library error, kept by kind. -/
inductive Detail where
  | message (s : String)
  | validation (issues : List Issue)
  | objectIdCast
  | duplicateKey
  | extraction
  deriving DecidableEq, Repr

/-- The JSON body of a response. -/
inductive Body where
  | analysis (message : String) (analysis : Analysis)
  | error (error : String)
  | errorDetails (error : String) (details : Detail)
  | uploaded (message : String) (documentId : ObjectId) (filename : String)
      (fileType : FileType) (contentLength : Nat)
  | message (message : String)
  | middlewareError (message : String)
  | overview (o : Overview)
  deriving DecidableEq, Repr

/-- An HTTP response. -/
structure Response where
  status : Nat
  body : Body
  deriving DecidableEq, Repr

/-- The state the routes act on: the collection, and the number of calls made
to the external engine so far. -/
structure World where
  store : List Document
  engineCalls : Nat
  deriving DecidableEq, Repr

/-! ## `routes/analysis.js` -/

/-- The message of the error `analyzeWithAI` throws (line 61). -/
def aiFailureMessage : String := "Failed to analyze document with AI"

/-- The function `analyzeWithAI` (lines 11-63): one call of the engine; the reply is
cleaned and parsed; a thrown call and a parse error both become the error of
line 61. Returns the result and the new number of engine calls. -/
def analyzeWithAI (L : Lib) (E : Engine) (calls : Nat) (content : String) :
    Except String JVal × Nat :=
  match E calls content with
  | .throws => (.error aiFailureMessage, calls + 1)
  | .text t =>
    match L.jsonParse (cleanText t) with
    | none => (.error aiFailureMessage, calls + 1)
    | some v => (.ok v, calls + 1)

/-- Lines 81-104 and 141-163, shared by both routes: analyse, assign, save,
respond. `failure` and `success` are the messages of the route. -/
def runAnalysis (L : Lib) (E : Engine) (w : World) (document : Document)
    (now savedAt : Timestamp) (success failure : String) : Response × World :=
  match analyzeWithAI L E w.engineCalls document.content with
  | (.error msg, calls) =>
    (⟨500, .errorDetails failure (.message msg)⟩, { w with engineCalls := calls })
  | (.ok analysis, calls) =>
    let assigned := assignAnalysis L analysis now
    let document' := { document with analysis := assigned.1, isAnalyzed := true }
    match save L w.store document' assigned.2 savedAt with
    | .error issues =>
      (⟨500, .errorDetails failure (.validation issues)⟩, { w with engineCalls := calls })
    | .ok (saved, store') =>
      (⟨200, .analysis success saved.analysis⟩, { store := store', engineCalls := calls })

/-- The route `POST /:id/analyze` (lines 66-105). `now` is the date of line 87,
`savedAt` the date `save()` stamps. -/
def analyze (L : Lib) (E : Engine) (w : World) (id : String) (now savedAt : Timestamp) :
    Response × World :=
  match L.castObjectId id with
  | none => (⟨500, .errorDetails "Failed to analyze document" .objectIdCast⟩, w)
  | some oid =>
    match findById w.store oid with
    | none => (⟨404, .error "Document not found"⟩, w)
    | some document =>
      if document.isAnalyzed then
        (⟨200, .analysis "Document already analyzed" document.analysis⟩, w)
      else
        runAnalysis L E w document now savedAt "Document analyzed successfully"
          "Failed to analyze document"

/-- The route `POST /:id/re-analyze` (lines 133-164). -/
def reAnalyze (L : Lib) (E : Engine) (w : World) (id : String) (now savedAt : Timestamp) :
    Response × World :=
  match L.castObjectId id with
  | none => (⟨500, .errorDetails "Failed to re-analyze document" .objectIdCast⟩, w)
  | some oid =>
    match findById w.store oid with
    | none => (⟨404, .error "Document not found"⟩, w)
    | some document =>
      runAnalysis L E w document now savedAt "Document re-analyzed successfully"
        "Failed to re-analyze document"

/-- The call `Document.countDocuments(filter)`. -/
def countDocuments (store : List Document) (filter : Document → Bool) : Nat :=
  store.countP filter

/-- The stage `$match: { isAnalyzed: true }` (lines 173 and 185). -/
def matchAnalyzed (store : List Document) : List Document :=
  store.filter (fun d => d.isAnalyzed)

/-- The numbers the accumulators of lines 177-179 see: the `analysis.riskScore`
of the matched documents; a document whose risk score is absent or `null`
contributes nothing. -/
def riskScores (docs : List Document) : List JNum :=
  docs.filterMap (fun d =>
    match d.analysis.riskScore with
    | .val n => some n
    | _ => none)

/-- The rational of a finite number, 0 for an infinity. -/
def JNum.toRat : JNum → ℚ
  | .fin q => q
  | _ => 0

/-- The order of numbers. -/
def JNum.le : JNum → JNum → Bool
  | .negInf, _ => true
  | _, .posInf => true
  | .fin a, .fin b => decide (a ≤ b)
  | _, _ => false

/-- The greater of two numbers. -/
def JNum.max (a b : JNum) : JNum := if a.le b then b else a

/-- The smaller of two numbers. -/
def JNum.min (a b : JNum) : JNum := if a.le b then a else b

/-- The accumulator `$avg` (line 177): `null` when it sees no number,
otherwise the double the database computes for the mean of the numbers it
sees. -/
def avgAcc (L : Lib) : List JNum → StatValue
  | [] => .null
  | n :: ns => L.average (n :: ns)

/-- The accumulator `$max` (line 178). -/
def maxAcc : List JNum → StatValue
  | [] => .null
  | n :: ns => .num (ns.foldl JNum.max n)

/-- The accumulator `$min` (line 179). -/
def minAcc : List JNum → StatValue
  | [] => .null
  | n :: ns => .num (ns.foldl JNum.min n)

/-- Lines 172-182 and 199: the group of the first aggregation when a document
is matched, the literal with three zeros when none is. -/
def riskStatistics (L : Lib) (store : List Document) : RiskStatistics :=
  match matchAnalyzed store with
  | [] => { groupId := false, avgRiskScore := .num (.fin 0), maxRiskScore := .num (.fin 0),
            minRiskScore := .num (.fin 0) }
  | docs => { groupId := true, avgRiskScore := avgAcc L (riskScores docs),
              maxRiskScore := maxAcc (riskScores docs), minRiskScore := minAcc (riskScores docs) }

/-- The value of `$analysis.suspiciousClauses.severity` on an unwound element:
the severity string, or nothing. -/
def severityKey : ClauseEntry → Option String
  | .doc c =>
    match c.severity with
    | .val s => some s
    | _ => none
  | .other => none

/-- The elements `$unwind` makes of the clause array of a document: none when
the array is absent, `null` or empty. -/
def clauseEntries (d : Document) : List ClauseEntry :=
  match d.analysis.suspiciousClauses with
  | .val cs => cs
  | _ => []

/-- The stages `$match` and `$unwind` of the second aggregation (lines
185-186): the clause elements of the matched documents. -/
def unwound (store : List Document) : List ClauseEntry :=
  (matchAnalyzed store).flatMap clauseEntries

/-- The group key of every unwound element. -/
def unwoundSeverities (store : List Document) : List (Option String) :=
  (unwound store).map severityKey

/-- The stage `$group` with `count: { $sum: 1 }` (lines 187-192): one item per
distinct key, with the number of elements that have it. The order of the
items is the one the database chooses. -/
def groupBySeverity (keys : List (Option String)) : List (Option String × Nat) :=
  keys.dedup.map (fun k => (k, keys.count k))

/-- The property name JavaScript makes of a group key in `acc[item._id]`. -/
def propertyName : Option String → String
  | none => "null"
  | some s => s

/-- The assignment `acc[key] = n` on an object. -/
def setKey (acc : List (String × Nat)) (key : String) (n : Nat) : List (String × Nat) :=
  if acc.any (fun p => p.1 == key) then
    acc.map (fun p => if p.1 == key then (key, n) else p)
  else acc ++ [(key, n)]

/-- The property read `acc[key]`. -/
def getKey (acc : List (String × Nat)) (key : String) : Option Nat :=
  (acc.find? (fun p => p.1 == key)).map Prod.snd

/-- Lines 200-203: the `reduce` over the items of the second aggregation, from
the object with the three keys at 0. -/
def suspiciousClausesBySeverity (store : List Document) : List (String × Nat) :=
  (groupBySeverity (unwoundSeverities store)).foldl
    (fun acc item => setKey acc (propertyName item.1) item.2)
    [("low", 0), ("medium", 0), ("high", 0)]

/-- The route `GET /stats/overview` (lines 167-210). -/
def statsOverview (L : Lib) (w : World) : Response :=
  let totalDocuments := countDocuments w.store (fun _ => true)
  let analyzedDocuments := countDocuments w.store (fun d => d.isAnalyzed)
  ⟨200, .overview
    { totalDocuments := totalDocuments
      analyzedDocuments := analyzedDocuments
      pendingAnalysis := (totalDocuments : Int) - (analyzedDocuments : Int)
      riskStatistics := riskStatistics L w.store
      suspiciousClausesBySeverity := suspiciousClausesBySeverity w.store }⟩

/-! ## `routes/documents.js` -/

/-- The file multer hands to the route, `req.file`. -/
structure UploadedFile where
  mimetype : String
  originalname : String
  buffer : List Nat
  deriving DecidableEq, Repr

/-- The MIME type of a DOCX file (line 17). -/
def docxMime : String :=
  "application/vnd.openxmlformats-officedocument.wordprocessingml.document"

/-- The list `allowedTypes` of the file filter (line 17). -/
def allowedTypes : List String := ["application/pdf", docxMime, "text/plain"]

/-- The limit `fileSize` of multer (line 14). -/
def fileSizeLimit : Nat := 10 * 1024 * 1024

/-- The function `extractTextFromFile` (lines 27-45): the text and the file type for a MIME
type; `none` is an error thrown by an extractor. The last branch is the one
the source leaves with an empty text and an empty file type. -/
def extractTextFromFile (L : Lib) (file : UploadedFile) : Option (String × Option FileType) :=
  if file.mimetype = "application/pdf" then
    (L.pdfParse file.buffer).map (fun t => (t, some FileType.pdf))
  else if file.mimetype = docxMime then
    (L.mammothExtract file.buffer).map (fun t => (t, some FileType.docx))
  else if file.mimetype = "text/plain" then
    some (L.utf8Decode file.buffer, some FileType.txt)
  else some ("", none)

/-- The `length` of a JavaScript string, in UTF-16 code units. -/
def jsLength (s : String) : Nat :=
  (s.data.map (fun c => if 65536 ≤ c.toNat then 2 else 1)).sum

/-- The `analysis` of a document constructed without one: the defaults of the
schema. -/
def defaultAnalysis : Analysis :=
  { summary := .absent, suspiciousClauses := .val [], keyTerms := .val [],
    recommendations := .val [], riskScore := .val riskScoreDefault, analyzedAt := .absent }

/-- Lines 60-65, the document constructed for a file whose text was extracted:
the `trim` setter applies to both names, the defaults of the schema fill the
rest. -/
def newDocument (f : UploadedFile) (ft : FileType) (text : String) (newId : ObjectId)
    (now savedAt : Timestamp) : Document :=
  { id := newId, filename := jsTrim f.originalname, originalName := jsTrim f.originalname,
    fileType := ft, content := text, uploadedAt := now, analysis := defaultAnalysis,
    isAnalyzed := false, createdAt := savedAt, updatedAt := savedAt }

/-- The call `document.save()` on a new document (line 67): the validators
decide, then the unique index on `_id`. -/
def saveNew (L : Lib) (w : World) (document : Document) : Except Detail World :=
  match validate L document with
  | [] =>
    if w.store.any (fun d => d.id == document.id) then .error .duplicateKey
    else .ok { w with store := w.store ++ [document] }
  | issues => .error (.validation issues)

/-- The route `POST /upload` (lines 48-84) behind the multer middleware
(lines 11-24). `newId` is the ObjectId the constructor draws, `now` the date
of the `uploadedAt` default, `savedAt` the date `save()` stamps. An error of
the middleware goes to the error handler of Express, here its default one. -/
def upload (L : Lib) (w : World) (file : Option UploadedFile) (newId : ObjectId)
    (now savedAt : Timestamp) : Response × World :=
  match file with
  | none => (⟨400, .error "No file uploaded"⟩, w)
  | some f =>
    if f.mimetype ∉ allowedTypes then
      (⟨500, .middlewareError "Invalid file type. Only PDF, DOCX, and TXT files are allowed."⟩, w)
    else if fileSizeLimit < f.buffer.length then
      (⟨500, .middlewareError "File too large"⟩, w)
    else
      match extractTextFromFile L f with
      | none => (⟨500, .errorDetails "Failed to upload document" .extraction⟩, w)
      | some (text, fileType) =>
        if jsTrim text = "" then
          (⟨400, .error "Could not extract text from the document"⟩, w)
        else
          match fileType with
          | none =>
            (⟨500, .errorDetails "Failed to upload document"
              (.validation [Issue.required "fileType"])⟩, w)
          | some ft =>
            match saveNew L w (newDocument f ft text newId now savedAt) with
            | .error e => (⟨500, .errorDetails "Failed to upload document" e⟩, w)
            | .ok w' =>
              (⟨201, .uploaded "Document uploaded successfully" newId (jsTrim f.originalname) ft
                (jsLength text)⟩, w')

/-- Removes the first stored document with the id. -/
def removeFirst (oid : ObjectId) : List Document → List Document
  | [] => []
  | e :: rest => if e.id = oid then rest else e :: removeFirst oid rest

/-- The route `DELETE /:id` (lines 132-145). -/
def delete (L : Lib) (w : World) (id : String) : Response × World :=
  match L.castObjectId id with
  | none => (⟨500, .error "Failed to delete document"⟩, w)
  | some oid =>
    match findById w.store oid with
    | none => (⟨404, .error "Document not found"⟩, w)
    | some _ =>
      (⟨200, .message "Document deleted successfully"⟩,
        { w with store := removeFirst oid w.store })

/-! ## Histories -/

/-- A request to one of the four state-changing routes. -/
inductive Op where
  | upload (file : Option UploadedFile) (newId : ObjectId) (now savedAt : Timestamp)
  | analyze (id : String) (now savedAt : Timestamp)
  | reAnalyze (id : String) (now savedAt : Timestamp)
  | delete (id : String)

/-- The response and the next state of a request. -/
def step (L : Lib) (E : Engine) (w : World) : Op → Response × World
  | .upload file newId now savedAt => upload L w file newId now savedAt
  | .analyze id now savedAt => analyze L E w id now savedAt
  | .reAnalyze id now savedAt => reAnalyze L E w id now savedAt
  | .delete id => delete L w id

/-- The state after a sequence of requests. -/
def run (L : Lib) (E : Engine) (w : World) : List Op → World
  | [] => w
  | op :: ops => run L E (step L E w op).2 ops

/-- The empty collection, before any call of the engine. -/
def World.empty : World := { store := [], engineCalls := 0 }

/-- The states reachable from the empty collection. -/
def Reachable (L : Lib) (E : Engine) (w : World) : Prop :=
  ∃ ops : List Op, run L E World.empty ops = w

/-! ## Notions used to state the properties -/

/-- The value `analyzeWithAI` returns for call number `n` on `content`, when it
returns one: the engine replied with a text whose cleaning parses. -/
def parsedReply (L : Lib) (E : Engine) (n : Nat) (content : String) : Option JVal :=
  match E n content with
  | .throws => none
  | .text t => L.jsonParse (cleanText t)

/-- The loaded document after the assignments of lines 85-89. -/
def assigned (L : Lib) (document : Document) (v : JVal) (now : Timestamp) : Document :=
  { document with analysis := (assignAnalysis L v now).1, isAnalyzed := true }

/-- The document `save()` writes when it accepts the assigned output. -/
def written (L : Lib) (document : Document) (v : JVal) (now savedAt : Timestamp) : Document :=
  { assigned L document v now with updatedAt := savedAt }

/-- Everything `save()` holds against the loaded document once the engine
output `v` is assigned to it; the output is accepted when this is empty. -/
def issuesOf (L : Lib) (document : Document) (v : JVal) (now : Timestamp) : List Issue :=
  (assignAnalysis L v now).2 ++ validate L (assigned L document v now)

/-- The part of `issuesOf` that does not come from `riskScore`. -/
def otherIssues (L : Lib) (document : Document) (v : JVal) : List Issue :=
  (orCastIssue "analysis.summary" (castStringPath L (v.get? "summary"))).2
    ++ (assignClauses L (v.get? "suspiciousClauses")).2
    ++ (orCastIssue "analysis.keyTerms" (castStringArrayPath L (v.get? "keyTerms"))).2
    ++ (orCastIssue "analysis.recommendations"
          (castStringArrayPath L (v.get? "recommendations"))).2
    ++ requiredIssues "filename" document.filename
    ++ requiredIssues "originalName" document.originalName
    ++ requiredIssues "content" document.content
    ++ clausesIssues L (assignClauses L (v.get? "suspiciousClauses")).1

/-- A stored risk score that is a number is finite and within the bounds of
the schema. -/
def RiskScoreInRange (d : Document) : Prop :=
  ∀ n, d.analysis.riskScore = .val n → ∃ q, n = .fin q ∧ 0 ≤ q ∧ q ≤ 100

/-- Every stored clause subdocument whose severity is a string has one of the
strings of the enum. -/
def SeverityInEnum (d : Document) : Prop :=
  ∀ cs, d.analysis.suspiciousClauses = .val cs → ∀ c, ClauseEntry.doc c ∈ cs →
    ∀ s, c.severity = .val s → s ∈ severityEnum

/-- The stored document with an id, as it is in the collection (no defaults
filled in). -/
def stored (w : World) (oid : ObjectId) : Option Document :=
  w.store.find? (fun d => d.id == oid)

/-- A suspicious clause in the format the prompt asks for (lines 21-26). -/
structure EngineClause where
  clause : String
  reason : String
  severity : String
  location : String
  deriving DecidableEq, Repr

/-- The JSON object of a clause in that format. -/
def EngineClause.toJson (c : EngineClause) : JVal :=
  .obj [("clause", .str c.clause), ("reason", .str c.reason), ("severity", .str c.severity),
        ("location", .str c.location)]

/-- The subdocument that holds the four strings of a clause. -/
def EngineClause.toStored (c : EngineClause) : SuspiciousClause :=
  { clause := .val c.clause, reason := .val c.reason, severity := .val c.severity,
    location := .val c.location }

/-- The number 50.5. -/
def fiftyAndHalf : ℚ := Rat.mk' 101 2 (by decide) (by decide)

/-! ## Clause objects with optional keys -/

/-- A clause object as an engine may send it: any of the four keys may be
missing. -/
structure PartialClause where
  clause : Option String
  reason : Option String
  severity : Option String
  location : Option String
  deriving DecidableEq, Repr

/-- The property list of a key that may be missing. -/
def optField (key : String) : Option String → List (String × JVal)
  | none => []
  | some s => [(key, .str s)]

/-- The JSON object of a partial clause: the keys that are present. -/
def PartialClause.toJson (c : PartialClause) : JVal :=
  .obj (optField "clause" c.clause ++ optField "reason" c.reason
    ++ optField "severity" c.severity ++ optField "location" c.location)

/-- The slot of a key that may be missing. -/
def slotOf : Option String → Slot String
  | none => .absent
  | some s => .val s

/-- The subdocument constructed from a partial clause: the strings that were
sent, and the default of line 35 for a missing severity. -/
def PartialClause.toStored (c : PartialClause) : SuspiciousClause :=
  { clause := slotOf c.clause, reason := slotOf c.reason,
    severity := .val (c.severity.getD severityDefault), location := slotOf c.location }

/-- The part of `issuesOf` that does not come from `suspiciousClauses`. -/
def nonClauseIssues (L : Lib) (document : Document) (v : JVal) : List Issue :=
  (orCastIssue "analysis.summary" (castStringPath L (v.get? "summary"))).2
    ++ (orCastIssue "analysis.keyTerms" (castStringArrayPath L (v.get? "keyTerms"))).2
    ++ (orCastIssue "analysis.recommendations"
          (castStringArrayPath L (v.get? "recommendations"))).2
    ++ (orCastIssue "analysis.riskScore" (castNumberPath L (v.get? "riskScore"))).2
    ++ requiredIssues "filename" document.filename
    ++ requiredIssues "originalName" document.originalName
    ++ requiredIssues "content" document.content
    ++ riskScoreIssues (orCastIssue "analysis.riskScore"
          (castNumberPath L (v.get? "riskScore"))).1

/-- A text between an opening fence line with the word json and a closing
fence line. -/
def wrapJsonFence (t : String) : String :=
  String.mk fenceJson ++ "\n" ++ t ++ "\n" ++ String.mk fence

/-- A text between a bare opening fence line and a closing fence line. -/
def wrapBareFence (t : String) : String :=
  String.mk fence ++ "\n" ++ t ++ "\n" ++ String.mk fence

/-- The analysis assigned from an output that holds a risk score and nothing
else: the four other paths are absent. -/
def scoreOnlyAnalysis (r : ℚ) (now : Timestamp) : Analysis :=
  { summary := .absent, suspiciousClauses := .absent, keyTerms := .absent,
    recommendations := .absent, riskScore := .val (.fin r), analyzedAt := .val now }

/-- The same analysis as it is loaded: the arrays get their default. -/
def scoreOnlyLoaded (r : ℚ) (now : Timestamp) : Analysis :=
  { summary := .absent, suspiciousClauses := .val [], keyTerms := .val [],
    recommendations := .val [], riskScore := .val (.fin r), analyzedAt := .val now }

/-- Whether a stored clause element is a subdocument with the severity `k`. -/
def hasSeverity (k : String) : ClauseEntry → Bool
  | .doc c => decide (c.severity = .val k)
  | .other => false

/-- The content of a document is the text an extraction returned for a file,
with the file type of that extraction, and it is not blank. -/
def ContentExtracted (L : Lib) (d : Document) : Prop :=
  jsTrim d.content ≠ ""
    ∧ ∃ f : UploadedFile, extractTextFromFile L f = some (d.content, some d.fileType)

/-- The flag `isAnalyzed` is set exactly when the analysis has its date. -/
def FlagAgrees (d : Document) : Prop :=
  d.isAnalyzed = true ↔ ∃ t, d.analysis.analyzedAt = .val t

/-- Whether a request is an analysis or a re-analysis. -/
def Op.isAnalysis : Op → Bool
  | .analyze _ _ _ => true
  | .reAnalyze _ _ _ => true
  | _ => false

/-- A stored document after an accepted write: the analysis, the flag and
`updatedAt` are new, the rest is as before. -/
def withAnalysis (e : Document) (a : Analysis) (savedAt : Timestamp) : Document :=
  { e with analysis := a, isAnalyzed := true, updatedAt := savedAt }

/-- The fields of a document that the analysis routes never write. -/
def SameUpload (e e' : Document) : Prop :=
  e'.id = e.id ∧ e'.filename = e.filename ∧ e'.originalName = e.originalName
    ∧ e'.fileType = e.fileType ∧ e'.content = e.content ∧ e'.uploadedAt = e.uploadedAt
    ∧ e'.createdAt = e.createdAt

/-- The analysis assigned from an engine output that has none of the keys of
the schema: only the date of the call. -/
def dateOnlyAnalysis (now : Timestamp) : Analysis :=
  { summary := .absent, suspiciousClauses := .absent, keyTerms := .absent,
    recommendations := .absent, riskScore := .absent, analyzedAt := .val now }

/-! ## A concrete library and sample engine replies, for the examples -/

/-- The value of a hexadecimal digit. -/
def hexDigit? (c : Char) : Option Nat :=
  let n := c.toNat
  if 48 ≤ n ∧ n ≤ 57 then some (n - 48)
  else if 97 ≤ n ∧ n ≤ 102 then some (n - 87)
  else if 65 ≤ n ∧ n ≤ 70 then some (n - 55)
  else none

/-- The number a string of hexadecimal digits denotes. -/
def hexValue? : List Char → Nat → Option Nat
  | [], acc => some acc
  | c :: cs, acc =>
    match hexDigit? c with
    | some d => hexValue? cs (acc * 16 + d)
    | none => none

/-- An ObjectId from its 24 hexadecimal digits; any other string fails. -/
def parseObjectId (s : String) : Option ObjectId :=
  if s.data.length = 24 then hexValue? s.data 0 else none

/-- A full engine output. -/
def sampleFull : JVal :=
  .obj [("summary", .str "A lease"),
        ("suspiciousClauses", .arr [.obj [("clause", .str "Tenant pays all fees"),
          ("reason", .str "Open-ended cost"), ("severity", .str "high"),
          ("location", .str "Section 4")]]),
        ("keyTerms", .arr [.str "lease", .str "fees"]),
        ("recommendations", .arr [.str "Ask for a cap"]),
        ("riskScore", .num (.fin 40))]

/-- A later engine output, without key terms. -/
def sampleSecond : JVal :=
  .obj [("summary", .str "Second opinion"), ("riskScore", .num (.fin 10))]

/-- The text of `sampleSecond`. -/
def sampleSecondText : String := "\x7b\"summary\":\"Second opinion\",\"riskScore\":10\x7d"

/-- An engine output without a risk score. -/
def sampleNoScore : JVal := .obj [("summary", .str "No score")]

/-- The text of `sampleNoScore`. -/
def sampleNoScoreText : String := "\x7b\"summary\":\"No score\"\x7d"

/-- An engine output whose risk score is a word. -/
def sampleWordScore : JVal := .obj [("riskScore", .str "high")]

/-- The text of `sampleWordScore`. -/
def sampleWordScoreText : String := "\x7b\"riskScore\":\"high\"\x7d"

/-- An engine output with the risk score 150. -/
def sampleTooHigh : JVal := .obj [("riskScore", .num (.fin 150))]

/-- The text of `sampleTooHigh`. -/
def sampleTooHighText : String := "\x7b\"riskScore\":150\x7d"

/-- An engine output with the risk score -5. -/
def sampleNegative : JVal := .obj [("riskScore", .num (.fin (-5)))]

/-- The text of `sampleNegative`. -/
def sampleNegativeText : String := "\x7b\"riskScore\":-5\x7d"

/-- An engine output with the risk score 50.5. -/
def sampleHalf : JVal := .obj [("riskScore", .num (.fin fiftyAndHalf))]

/-- The text of `sampleHalf`. -/
def sampleHalfText : String := "\x7b\"riskScore\":50.5\x7d"

/-- The clause of `sampleExtreme`, with a severity outside the enum. -/
def extremeClause : EngineClause :=
  { clause := "c", reason := "r", severity := "extreme", location := "l" }

/-- An engine output with `extremeClause`. -/
def sampleExtreme : JVal :=
  .obj [("suspiciousClauses", .arr [extremeClause.toJson]), ("riskScore", .num (.fin 30))]

/-- The text of `sampleExtreme`. -/
def sampleExtremeText : String :=
  "\x7b\"suspiciousClauses\":[\x7b\"clause\":\"c\",\"reason\":\"r\",\"severity\":\"extreme\",\"location\":\"l\"\x7d],\"riskScore\":30\x7d"

/-- An engine output with `extremeClause` and an element that is no object. -/
def sampleExtremeAndFive : JVal :=
  .obj [("suspiciousClauses", .arr [extremeClause.toJson, .num (.fin 5)])]

/-- The text of `sampleExtremeAndFive`. -/
def sampleExtremeAndFiveText : String :=
  "\x7b\"suspiciousClauses\":[\x7b\"clause\":\"c\",\"reason\":\"r\",\"severity\":\"extreme\",\"location\":\"l\"\x7d,5]\x7d"

/-- A clause sent without a severity. -/
def renewalClause : PartialClause :=
  { clause := some "Renews every year", reason := some "Silent renewal", severity := none,
    location := some "Section 9" }

/-- A clause sent with the severity `low`. -/
def noticeClause : PartialClause :=
  { clause := some "Notice by post", reason := some "Slow", severity := some "low",
    location := some "Section 2" }

/-- An engine output with `renewalClause` and `noticeClause`. -/
def sampleMixed : JVal :=
  .obj [("suspiciousClauses", .arr [renewalClause.toJson, noticeClause.toJson]),
        ("riskScore", .num (.fin 20))]

/-- The text of `sampleMixed`. -/
def sampleMixedText : String :=
  "\x7b\"suspiciousClauses\":[\x7b\"clause\":\"Renews every year\",\"reason\":\"Silent renewal\",\"location\":\"Section 9\"\x7d,\x7b\"clause\":\"Notice by post\",\"reason\":\"Slow\",\"severity\":\"low\",\"location\":\"Section 2\"\x7d],\"riskScore\":20\x7d"

/-- A clause sent without a clause text and with an empty reason. -/
def bareClause : PartialClause :=
  { clause := none, reason := some "", severity := some "high", location := none }

/-- An engine output with `bareClause`. -/
def sampleBare : JVal :=
  .obj [("suspiciousClauses", .arr [bareClause.toJson]), ("riskScore", .num (.fin 20))]

/-- The text of `sampleBare`. -/
def sampleBareText : String :=
  "\x7b\"suspiciousClauses\":[\x7b\"reason\":\"\",\"severity\":\"high\"\x7d],\"riskScore\":20\x7d"

/-- An engine output with a risk score and nothing else. -/
def sampleScoreOnly : JVal := .obj [("riskScore", .num (.fin 35))]

/-- The text of `sampleScoreOnly`. -/
def sampleScoreOnlyText : String := "\x7b\"riskScore\":35\x7d"

/-- The start of an engine output whose summary holds a fence. -/
def fencedHead : String := "\x7b\"summary\":\"See "

/-- The end of that engine output. -/
def fencedTail : String := "clause 4\",\"riskScore\":10\x7d"

/-- The text of an engine output whose summary holds a fence. -/
def fencedSummaryText : String := fencedHead ++ String.mk fence ++ fencedTail

/-- The summary the engine sent in `fencedSummaryText`. -/
def fencedSummary : String := "See " ++ String.mk fence ++ "clause 4"

/-- The value `JSON.parse` gives for `fencedSummaryText` itself. -/
def sampleFencedSent : JVal :=
  .obj [("summary", .str fencedSummary), ("riskScore", .num (.fin 10))]

/-- The value `JSON.parse` gives for `fencedSummaryText` without its fence. -/
def sampleFencedCleaned : JVal :=
  .obj [("summary", .str "See clause 4"), ("riskScore", .num (.fin 10))]

/-- The text of `sampleFull`, without a fence. -/
def sampleFullJson : String :=
  "\x7b\"summary\":\"A lease\",\"suspiciousClauses\":[\x7b\"clause\":\"Tenant pays all fees\",\"reason\":\"Open-ended cost\",\"severity\":\"high\",\"location\":\"Section 4\"\x7d],\"keyTerms\":[\"lease\",\"fees\"],\"recommendations\":[\"Ask for a cap\"],\"riskScore\":40\x7d"

/-- The text of `sampleFull`, wrapped in a fence as engines do. -/
def sampleFullText : String :=
  String.mk fenceJson ++ "\n" ++ sampleFullJson ++ "\n" ++ String.mk fence

/-- The only texts the sample parser knows, with the value `JSON.parse` gives
for each. -/
def sampleTexts : List (String × JVal) :=
  [ (sampleFullJson, sampleFull), (sampleSecondText, sampleSecond),
    (sampleNoScoreText, sampleNoScore), (sampleTooHighText, sampleTooHigh),
    (sampleNegativeText, sampleNegative), (sampleHalfText, sampleHalf),
    (sampleExtremeText, sampleExtreme), (sampleWordScoreText, sampleWordScore),
    (sampleMixedText, sampleMixed), (sampleBareText, sampleBare),
    (sampleScoreOnlyText, sampleScoreOnly), (fencedSummaryText, sampleFencedSent),
    (fencedHead ++ fencedTail, sampleFencedCleaned), ("null", .null),
    ("42", .num (.fin 42)), ("\"ok\"", .str "ok"),
    (sampleExtremeAndFiveText, sampleExtremeAndFive) ]

/-- The function `JSON.parse` on the sample texts; any other text is taken as a syntax
error. -/
def sampleParse (t : String) : Option JVal :=
  (sampleTexts.find? (fun p => p.1 == t)).map Prod.snd

/-- The mean of numbers as a rational, without rounding: the value of `$avg`
for numbers whose sum and mean are doubles, as those of the examples are. -/
def exactMean (ns : List JNum) : StatValue :=
  if JNum.posInf ∈ ns ∧ JNum.negInf ∈ ns then .nan
  else if JNum.posInf ∈ ns then .num .posInf
  else if JNum.negInf ∈ ns then .num .negInf
  else .num (.fin ((ns.map JNum.toRat).sum / ns.length))

/-- A library for the examples: it parses the sample texts, casts 24
hexadecimal digits to an ObjectId, decodes ASCII, rejects every value that is
not of the declared type, and averages without rounding. The examples use
values of the declared type, one risk score that is a word, which no cast
makes a number, and risk scores whose mean is a double. -/
def sampleLib : Lib :=
  { jsonParse := sampleParse
    castObjectId := parseObjectId
    castString := fun _ => none
    castNumber := fun _ => none
    castStringArray := fun _ => none
    castClauseArray := fun _ => none
    castClauseEntry := fun _ => none
    enumAcceptsNull := true
    pdfParse := fun _ => none
    mammothExtract := fun _ => none
    utf8Decode := fun bytes => String.mk (bytes.map Char.ofNat)
    average := exactMean }

/-- An unanalyzed document as `upload` stores it. -/
def sampleDoc : Document :=
  { id := 1, filename := "lease.txt", originalName := "lease.txt", fileType := .txt,
    content := "The tenant pays.", uploadedAt := 5, analysis := defaultAnalysis,
    isAnalyzed := false, createdAt := 5, updatedAt := 5 }

/-- The route parameter that casts to the id of `sampleDoc`. -/
def sampleId : String := "000000000000000000000001"

/-- A state holding `sampleDoc` only. -/
def sampleWorld : World := { store := [sampleDoc], engineCalls := 0 }

/-- An engine that replies with `sampleFullText` to its first call and with
`sampleSecondText` afterwards. -/
def twoReplies : Engine := fun n _ =>
  if n = 0 then .text sampleFullText else .text sampleSecondText

/-- An uploaded text file with the content of `sampleDoc`. -/
def sampleFile : UploadedFile :=
  { mimetype := "text/plain", originalname := "lease.txt",
    buffer := "The tenant pays.".data.map Char.toNat }

/-- A history: the sample file is uploaded, then analyzed. -/
def sampleHistory : List Op :=
  [.upload (some sampleFile) 1 5 5, .analyze sampleId 9 10]

/-- An engine that always replies with the given text. -/
def constEngine (t : String) : Engine := fun _ _ => .text t

/-- The clause of `sampleFull` as it is stored. -/
def sampleClause : SuspiciousClause :=
  { clause := .val "Tenant pays all fees", reason := .val "Open-ended cost",
    severity := .val "high", location := .val "Section 4" }

/-- The analysis of `sampleFull` assigned at date 9. -/
def sampleAnalysis : Analysis :=
  { summary := .val "A lease", suspiciousClauses := .val [.doc sampleClause],
    keyTerms := .val [some "lease", some "fees"],
    recommendations := .val [some "Ask for a cap"], riskScore := .val (.fin 40),
    analyzedAt := .val 9 }

/-- The sample document after a successful analysis at date 9, saved at 10. -/
def analyzedDoc : Document :=
  { id := 1, filename := "lease.txt", originalName := "lease.txt", fileType := .txt,
    content := "The tenant pays.", uploadedAt := 5, analysis := sampleAnalysis,
    isAnalyzed := true, createdAt := 5, updatedAt := 10 }

/-- A state holding `analyzedDoc` only, after one call of the engine. -/
def analyzedWorld : World := { store := [analyzedDoc], engineCalls := 1 }

/-- An analyzed document with a risk score and one clause per given severity. -/
def scoredDoc (id : ObjectId) (score : ℚ) (severities : List String) : Document :=
  { id := id, filename := "contract.txt", originalName := "contract.txt", fileType := .txt,
    content := "Terms.", uploadedAt := 5,
    analysis :=
      { summary := .val "Summary",
        suspiciousClauses :=
          .val (severities.map (fun s => ClauseEntry.doc ⟨.val "c", .val "r", .val s, .val "l"⟩)),
        keyTerms := .val [], recommendations := .val [], riskScore := .val (.fin score),
        analyzedAt := .val 9 },
    isAnalyzed := true, createdAt := 5, updatedAt := 10 }

/-- Three documents: two analyzed, with the risk scores 20 and 80, and the
unanalyzed sample document. -/
def statsWorld : World :=
  { store := [scoredDoc 2 20 ["medium", "high", "high"], sampleDoc, scoredDoc 3 80 ["medium"]],
    engineCalls := 2 }

/-- An uploaded file that declares an image type. -/
def imageFile : UploadedFile :=
  { mimetype := "image/png", originalname := "scan.png", buffer := [137, 80, 78, 71] }

/-- An uploaded text file whose content has white space around it. -/
def paddedFile : UploadedFile :=
  { mimetype := "text/plain", originalname := "note.txt",
    buffer := "  Pay on time.\n".data.map Char.toNat }

/-- An uploaded text file whose content is white space only. -/
def blankFile : UploadedFile :=
  { mimetype := "text/plain", originalname := "blank.txt",
    buffer := " \n\t ".data.map Char.toNat }

/-! ## Two analyze requests in flight -/

/-- The parameters of one `POST /:id/analyze`. -/
structure AnalyzeCall where
  id : String
  now : Timestamp
  savedAt : Timestamp
  deriving DecidableEq, Repr

/-- The point a running `POST /:id/analyze` has reached. The handler runs
without interruption between its `await`s (lines 68, 82 and 91), so another
request can only run before the document is loaded, between the load and the
reply of the engine, or between that reply and the save. -/
inductive Pending where
  | start
  | loaded (document : Document)
  | replied (document : Document) (v : JVal)
  | done (r : Response)

/-- One stretch of the handler of lines 66-105: from the start to the loaded
document and the check of line 74; from there to the result of
`analyzeWithAI`; from there through the assignment and `save()` to the
response. A handler that has responded does nothing more. -/
def advance (L : Lib) (E : Engine) (c : AnalyzeCall) (w : World) : Pending → Pending × World
  | .start =>
    match L.castObjectId c.id with
    | none => (.done ⟨500, .errorDetails "Failed to analyze document" .objectIdCast⟩, w)
    | some oid =>
      match findById w.store oid with
      | none => (.done ⟨404, .error "Document not found"⟩, w)
      | some document =>
        if document.isAnalyzed then
          (.done ⟨200, .analysis "Document already analyzed" document.analysis⟩, w)
        else (.loaded document, w)
  | .loaded document =>
    match analyzeWithAI L E w.engineCalls document.content with
    | (.error msg, calls) =>
      (.done ⟨500, .errorDetails "Failed to analyze document" (.message msg)⟩,
        { w with engineCalls := calls })
    | (.ok v, calls) => (.replied document v, { w with engineCalls := calls })
  | .replied document v =>
    let assigned := assignAnalysis L v c.now
    let document' := { document with analysis := assigned.1, isAnalyzed := true }
    match save L w.store document' assigned.2 c.savedAt with
    | .error issues =>
      (.done ⟨500, .errorDetails "Failed to analyze document" (.validation issues)⟩, w)
    | .ok (saved, store') =>
      (.done ⟨200, .analysis "Document analyzed successfully" saved.analysis⟩,
        { w with store := store' })
  | .done r => (.done r, w)

/-- Two handlers and the state they share. -/
structure InFlight where
  first : Pending
  second : Pending
  world : World

/-- An interleaving of two requests: at each step the first (`false`) or the
second (`true`) handler runs its next stretch. -/
def runPair (L : Lib) (E : Engine) (c₁ c₂ : AnalyzeCall) : List Bool → InFlight → InFlight
  | [], s => s
  | false :: rest, s =>
    runPair L E c₁ c₂ rest
      { first := (advance L E c₁ s.world s.first).1, second := s.second,
        world := (advance L E c₁ s.world s.first).2 }
  | true :: rest, s =>
    runPair L E c₁ c₂ rest
      { first := s.first, second := (advance L E c₂ s.world s.second).1,
        world := (advance L E c₂ s.world s.second).2 }

/-- Whether a handler has responded. -/
def Pending.isDone : Pending → Bool
  | .done _ => true
  | _ => false

/-- The response of a handler that has responded. -/
def Pending.response? : Pending → Option Response
  | .done r => some r
  | _ => none

/-- The engine calls a handler past its load still has to make. -/
def Pending.callsLeft : Pending → Nat
  | .loaded _ => 1
  | _ => 0

/-- Both requests arrive before anything else happens. -/
def InFlight.arrived (w : World) : InFlight := { first := .start, second := .start, world := w }

/-- The interleaving in which the handlers take turns. -/
def alternating : List Bool := [false, true, false, true, false, true]

/-- The interleaving in which the first handler responds before the second
starts. -/
def oneAfterTheOther : List Bool := [false, false, false, true, true, true]

/-- A first request for the sample document. -/
def firstCall : AnalyzeCall := { id := sampleId, now := 9, savedAt := 10 }

/-- A second request for the sample document. -/
def secondCall : AnalyzeCall := { id := sampleId, now := 11, savedAt := 12 }

/-! ## Lemmas on the analysis step -/

theorem analyzeWithAI_eq (L : Lib) (E : Engine) (n : Nat) (content : String) :
    analyzeWithAI L E n content =
      (match parsedReply L E n content with
        | some v => Except.ok v
        | none => Except.error aiFailureMessage, n + 1) := by
  unfold analyzeWithAI parsedReply
  cases E n content with
  | throws => rfl
  | text t =>
    dsimp only
    cases L.jsonParse (cleanText t) <;> rfl

theorem save_eq (L : Lib) (store : List Document) (d : Document) (ci : List Issue)
    (savedAt : Timestamp) :
    save L store d ci savedAt =
      if ci ++ validate L d = [] then
        Except.ok ({ d with updatedAt := savedAt }, updateFirst { d with updatedAt := savedAt } store)
      else Except.error (ci ++ validate L d) := by
  unfold save
  cases h : ci ++ validate L d with
  | nil => simp
  | cons i is => simp

theorem runAnalysis_unparsed (L : Lib) (E : Engine) (w : World) (document : Document)
    (now savedAt : Timestamp) (success failure : String)
    (h : parsedReply L E w.engineCalls document.content = none) :
    runAnalysis L E w document now savedAt success failure =
      (⟨500, .errorDetails failure (.message aiFailureMessage)⟩,
        { w with engineCalls := w.engineCalls + 1 }) := by
  unfold runAnalysis
  rw [analyzeWithAI_eq, h]

theorem runAnalysis_rejected (L : Lib) (E : Engine) (w : World) (document : Document)
    (now savedAt : Timestamp) (success failure : String) (v : JVal)
    (h : parsedReply L E w.engineCalls document.content = some v)
    (hi : issuesOf L document v now ≠ []) :
    runAnalysis L E w document now savedAt success failure =
      (⟨500, .errorDetails failure (.validation (issuesOf L document v now))⟩,
        { w with engineCalls := w.engineCalls + 1 }) := by
  unfold runAnalysis
  rw [analyzeWithAI_eq, h]
  simp only [save_eq]
  unfold issuesOf assigned at hi
  rw [if_neg hi]
  rfl

theorem runAnalysis_accepted (L : Lib) (E : Engine) (w : World) (document : Document)
    (now savedAt : Timestamp) (success failure : String) (v : JVal)
    (h : parsedReply L E w.engineCalls document.content = some v)
    (hi : issuesOf L document v now = []) :
    runAnalysis L E w document now savedAt success failure =
      (⟨200, .analysis success (assignAnalysis L v now).1⟩,
        { store := updateFirst (written L document v now savedAt) w.store,
          engineCalls := w.engineCalls + 1 }) := by
  unfold runAnalysis
  rw [analyzeWithAI_eq, h]
  simp only [save_eq]
  unfold issuesOf assigned at hi
  rw [if_pos hi]
  rfl

/-- The engine is called exactly once by the analysis step, whatever comes of it. -/
theorem runAnalysis_calls (L : Lib) (E : Engine) (w : World) (document : Document)
    (now savedAt : Timestamp) (success failure : String) :
    (runAnalysis L E w document now savedAt success failure).2.engineCalls
      = w.engineCalls + 1 := by
  cases h : parsedReply L E w.engineCalls document.content with
  | none => rw [runAnalysis_unparsed L E w document now savedAt success failure h]
  | some v =>
    by_cases hi : issuesOf L document v now = []
    · rw [runAnalysis_accepted L E w document now savedAt success failure v h hi]
    · rw [runAnalysis_rejected L E w document now savedAt success failure v h hi]

/-! ## Lemmas on the collection -/

theorem findById_eq_some {store : List Document} {oid : ObjectId} {document : Document}
    (h : findById store oid = some document) :
    ∃ d, store.find? (fun d => d.id == oid) = some d ∧ document = hydrate d ∧ d.id = oid := by
  unfold findById at h
  cases hf : store.find? (fun d => d.id == oid) with
  | none => rw [hf] at h; cases h
  | some d =>
    rw [hf] at h
    refine ⟨d, rfl, ?_, ?_⟩
    · simpa using h.symm
    · have := List.find?_some hf
      simpa using this

theorem findById_id {store : List Document} {oid : ObjectId} {document : Document}
    (h : findById store oid = some document) : document.id = oid := by
  obtain ⟨d, _, rfl, hid⟩ := findById_eq_some h
  exact hid

theorem find_updateFirst (d : Document) (oid : ObjectId) (hd : d.id = oid) :
    ∀ (store : List Document) (e : Document),
      store.find? (fun x => x.id == oid) = some e →
      (updateFirst d store).find? (fun x => x.id == oid) = some d
  | [], e, h => by simp at h
  | x :: rest, e, h => by
    by_cases hx : x.id = oid
    · have : x.id = d.id := by rw [hx, hd]
      simp [updateFirst, this, hd]
    · have hne : ¬ x.id = d.id := by rw [hd]; exact hx
      have hb : (x.id == oid) = false := by simpa using hx
      have hrest : rest.find? (fun x => x.id == oid) = some e := by
        rw [List.find?_cons, hb] at h
        exact h
      rw [updateFirst, if_neg hne, List.find?_cons, hb]
      exact find_updateFirst d oid hd rest e hrest

theorem mem_updateFirst {d m : Document} :
    ∀ {store : List Document}, m ∈ updateFirst d store → m = d ∨ m ∈ store
  | [], h => by simp [updateFirst] at h
  | x :: rest, h => by
    by_cases hx : x.id = d.id
    · simp [updateFirst, hx] at h
      rcases h with h | h
      · exact Or.inl h
      · exact Or.inr (List.mem_cons_of_mem _ h)
    · simp [updateFirst, hx] at h
      rcases h with h | h
      · exact Or.inr (by simp [h])
      · rcases mem_updateFirst h with h | h
        · exact Or.inl h
        · exact Or.inr (List.mem_cons_of_mem _ h)

theorem mem_removeFirst {oid : ObjectId} {m : Document} :
    ∀ {store : List Document}, m ∈ removeFirst oid store → m ∈ store
  | [], h => by simp [removeFirst] at h
  | x :: rest, h => by
    by_cases hx : x.id = oid
    · simp [removeFirst, hx] at h
      exact List.mem_cons_of_mem _ h
    · simp [removeFirst, hx] at h
      rcases h with h | h
      · simp [h]
      · exact List.mem_cons_of_mem _ (mem_removeFirst h)

theorem analyze_unanalyzed (L : Lib) (E : Engine) (w : World) (id : String) (oid : ObjectId)
    (document : Document) (now savedAt : Timestamp)
    (hid : L.castObjectId id = some oid) (hfind : findById w.store oid = some document)
    (hun : document.isAnalyzed = false) :
    analyze L E w id now savedAt =
      runAnalysis L E w document now savedAt "Document analyzed successfully"
        "Failed to analyze document" := by
  unfold analyze
  rw [hid]
  dsimp only
  rw [hfind]
  dsimp only
  rw [hun]
  rfl

theorem reAnalyze_found (L : Lib) (E : Engine) (w : World) (id : String) (oid : ObjectId)
    (document : Document) (now savedAt : Timestamp)
    (hid : L.castObjectId id = some oid) (hfind : findById w.store oid = some document) :
    reAnalyze L E w id now savedAt =
      runAnalysis L E w document now savedAt "Document re-analyzed successfully"
        "Failed to re-analyze document" := by
  unfold reAnalyze
  rw [hid]
  dsimp only
  rw [hfind]

theorem findById_after_save (w : World) (oid : ObjectId) (document written : Document)
    (hfind : findById w.store oid = some document) (hid : written.id = oid) :
    findById (updateFirst written w.store) oid = some (hydrate written) := by
  obtain ⟨d, hd, _, _⟩ := findById_eq_some hfind
  unfold findById
  rw [find_updateFirst written oid hid w.store d hd]
  rfl

/-- The branch of lines 74-79. -/
theorem analyze_short_circuit (L : Lib) (E : Engine) (w : World) (id : String)
    (oid : ObjectId) (document : Document) (now savedAt : Timestamp)
    (hid : L.castObjectId id = some oid) (hfind : findById w.store oid = some document)
    (han : document.isAnalyzed = true) :
    analyze L E w id now savedAt =
      (⟨200, .analysis "Document already analyzed" document.analysis⟩, w) := by
  unfold analyze
  rw [hid]
  dsimp only
  rw [hfind]
  dsimp only
  rw [han]
  rfl

/-! ## The claims -/

/-- C1. When the document an id denotes is already analyzed, `POST /:id/analyze`
answers 200 with the analysis of that document as it is loaded, and the state
is the same afterwards: the collection is unchanged and the engine has not
been called (the answer does not depend on the engine at all). -/
theorem analyze_already_analyzed (L : Lib) (E : Engine) (w : World) (id : String)
    (oid : ObjectId) (document : Document) (now savedAt : Timestamp)
    (hid : L.castObjectId id = some oid) (hfind : findById w.store oid = some document)
    (han : document.isAnalyzed = true) :
    analyze L E w id now savedAt =
      (⟨200, .analysis "Document already analyzed" document.analysis⟩, w) := by
  have h := analyze_short_circuit L E w id oid document now savedAt hid hfind han
  rw [h]

set_option maxRecDepth 1000000 in
/-- C1, on the analyzed sample document and an engine that would throw. -/
theorem analyze_already_analyzed_witness :
    sampleLib.castObjectId sampleId = some 1
      ∧ findById analyzedWorld.store 1 = some analyzedDoc
      ∧ analyze sampleLib (fun _ _ => .throws) analyzedWorld sampleId 20 21 =
          (⟨200, .analysis "Document already analyzed" analyzedDoc.analysis⟩, analyzedWorld) :=
  ⟨by decide, by decide,
    analyze_already_analyzed sampleLib (fun _ _ => .throws) analyzedWorld sampleId 1
      analyzedDoc 20 21 (by decide) (by decide) (by decide)⟩

/-- C2. On an unanalyzed document whose first engine output is accepted, two
`POST /:id/analyze` in sequence call the engine exactly once in total; the
first stores its result `a` and marks the document analyzed, and the second
leaves the state as the first left it and answers with the stored `a` as it is
loaded from the collection. -/
theorem analyze_twice_calls_engine_once (L : Lib) (E : Engine) (w : World) (id : String)
    (oid : ObjectId) (document : Document) (now₁ saved₁ now₂ saved₂ : Timestamp)
    (hid : L.castObjectId id = some oid) (hfind : findById w.store oid = some document)
    (hun : document.isAnalyzed = false)
    (hacc : (analyze L E w id now₁ saved₁).1.status = 200) :
    (analyze L E (analyze L E w id now₁ saved₁).2 id now₂ saved₂).2.engineCalls
        = w.engineCalls + 1
      ∧ (analyze L E (analyze L E w id now₁ saved₁).2 id now₂ saved₂).2
        = (analyze L E w id now₁ saved₁).2
      ∧ ∃ a d, (analyze L E w id now₁ saved₁).1
            = ⟨200, .analysis "Document analyzed successfully" a⟩
          ∧ stored (analyze L E w id now₁ saved₁).2 oid = some d
          ∧ d.analysis = a ∧ d.isAnalyzed = true
          ∧ (analyze L E (analyze L E w id now₁ saved₁).2 id now₂ saved₂).1
            = ⟨200, .analysis "Document already analyzed" (hydrate d).analysis⟩ := by
  rw [analyze_unanalyzed L E w id oid document now₁ saved₁ hid hfind hun] at hacc ⊢
  cases hp : parsedReply L E w.engineCalls document.content with
  | none =>
    rw [runAnalysis_unparsed L E w document now₁ saved₁ _ _ hp] at hacc
    simp at hacc
  | some v =>
    by_cases hi : issuesOf L document v now₁ = []
    · rw [runAnalysis_accepted L E w document now₁ saved₁ _ _ v hp hi]
      have hwid : (written L document v now₁ saved₁).id = oid :=
        (findById_id hfind : document.id = oid)
      have hfind2 := findById_after_save w oid document
        (written L document v now₁ saved₁) hfind hwid
      obtain ⟨e, he, _, _⟩ := findById_eq_some hfind
      have hst : (updateFirst (written L document v now₁ saved₁)
          w.store).find? (fun x => x.id == oid) = some (written L document v now₁ saved₁) :=
        find_updateFirst _ oid hwid w.store e he
      have h2 := analyze_short_circuit L E
        { store := updateFirst (written L document v now₁ saved₁) w.store,
          engineCalls := w.engineCalls + 1 } id oid
        (hydrate (written L document v now₁ saved₁)) now₂ saved₂ hid hfind2 rfl
      rw [h2]
      exact ⟨rfl, rfl, (assignAnalysis L v now₁).1, written L document v now₁ saved₁, rfl, hst,
        rfl, rfl, rfl⟩
    · rw [runAnalysis_rejected L E w document now₁ saved₁ _ _ v hp hi] at hacc
      simp at hacc

set_option maxRecDepth 1000000 in
/-- C2, on the sample document and the fenced sample reply. -/
theorem analyze_twice_calls_engine_once_witness :
    (analyze sampleLib (constEngine sampleFullText) sampleWorld sampleId 9 10).1.status = 200
      ∧ (analyze sampleLib (constEngine sampleFullText)
          (analyze sampleLib (constEngine sampleFullText) sampleWorld sampleId 9 10).2
          sampleId 20 21).2.engineCalls = 1 :=
  ⟨by decide,
    (analyze_twice_calls_engine_once sampleLib (constEngine sampleFullText) sampleWorld sampleId
      1 sampleDoc 9 10 20 21 (by decide) (by decide) (by decide) (by decide)).1⟩

theorem issuesOf_congr (L : Lib) (d₁ d₂ : Document) (v : JVal) (now : Timestamp)
    (hf : d₁.filename = d₂.filename) (ho : d₁.originalName = d₂.originalName)
    (hc : d₁.content = d₂.content) : issuesOf L d₁ v now = issuesOf L d₂ v now := by
  simp [issuesOf, validate, assigned, hf, ho, hc]

/-- After the analysis step on a loaded document, the id still denotes a
document, with the same file name, original name and content. -/
theorem runAnalysis_keeps (L : Lib) (E : Engine) (w : World) (oid : ObjectId)
    (document : Document) (now savedAt : Timestamp) (success failure : String)
    (hfind : findById w.store oid = some document) :
    ∃ document₁,
      findById (runAnalysis L E w document now savedAt success failure).2.store oid
          = some document₁
        ∧ document₁.filename = document.filename
        ∧ document₁.originalName = document.originalName
        ∧ document₁.content = document.content := by
  cases hp : parsedReply L E w.engineCalls document.content with
  | none =>
    rw [runAnalysis_unparsed L E w document now savedAt success failure hp]
    exact ⟨document, hfind, rfl, rfl, rfl⟩
  | some v =>
    by_cases hi : issuesOf L document v now = []
    · rw [runAnalysis_accepted L E w document now savedAt success failure v hp hi]
      exact ⟨hydrate (written L document v now savedAt),
        findById_after_save w oid document _ hfind (findById_id hfind : document.id = oid),
        rfl, rfl, rfl⟩
    · rw [runAnalysis_rejected L E w document now savedAt success failure v hp hi]
      exact ⟨document, hfind, rfl, rfl, rfl⟩

/-- A re-analysis whose engine output is accepted: the answer and the next
state. -/
theorem reAnalyze_accepted (L : Lib) (E : Engine) (w : World) (id : String) (oid : ObjectId)
    (document : Document) (now savedAt : Timestamp) (v : JVal)
    (hid : L.castObjectId id = some oid) (hfind : findById w.store oid = some document)
    (hp : parsedReply L E w.engineCalls document.content = some v)
    (hi : issuesOf L document v now = []) :
    reAnalyze L E w id now savedAt =
        (⟨200, .analysis "Document re-analyzed successfully" (assignAnalysis L v now).1⟩,
          { store := updateFirst (written L document v now savedAt) w.store,
            engineCalls := w.engineCalls + 1 })
      ∧ stored (reAnalyze L E w id now savedAt).2 oid = some (written L document v now savedAt) := by
  have h := reAnalyze_found L E w id oid document now savedAt hid hfind
  rw [runAnalysis_accepted L E w document now savedAt _ _ v hp hi] at h
  refine ⟨h, ?_⟩
  rw [h]
  obtain ⟨e, he, _, _⟩ := findById_eq_some hfind
  exact find_updateFirst (written L document v now savedAt) oid
    (findById_id hfind : document.id = oid) w.store e he

theorem assignAnalysis_absent_keyTerms (L : Lib) (v : JVal) (now : Timestamp)
    (h : v.get? "keyTerms" = none) : (assignAnalysis L v now).1.keyTerms = .absent := by
  simp [assignAnalysis, h, castStringArrayPath, orCastIssue]

/-- C3. On an existing document, analyzed or not, `POST /:id/re-analyze`
calls the engine each time: after two calls in sequence the engine has been
called twice. Whatever the first call did, when the output `v₂` of the second
engine call is accepted the second call answers 200 and the stored analysis is
the assignment of `v₂` alone, with the document marked analyzed: nothing of the
earlier analysis is kept, and `keyTerms` is absent when `v₂` has none. -/
theorem reAnalyze_twice_replaces (L : Lib) (E : Engine) (w : World) (id : String)
    (oid : ObjectId) (document : Document) (now₁ saved₁ now₂ saved₂ : Timestamp)
    (hid : L.castObjectId id = some oid) (hfind : findById w.store oid = some document) :
    (reAnalyze L E w id now₁ saved₁).2.engineCalls = w.engineCalls + 1
      ∧ (reAnalyze L E (reAnalyze L E w id now₁ saved₁).2 id now₂ saved₂).2.engineCalls
          = w.engineCalls + 2
      ∧ ∀ v₂, parsedReply L E (w.engineCalls + 1) document.content = some v₂ →
          issuesOf L document v₂ now₂ = [] →
          (reAnalyze L E (reAnalyze L E w id now₁ saved₁).2 id now₂ saved₂).1
              = ⟨200, .analysis "Document re-analyzed successfully" (assignAnalysis L v₂ now₂).1⟩
            ∧ ∃ d, stored (reAnalyze L E (reAnalyze L E w id now₁ saved₁).2 id now₂ saved₂).2 oid
                  = some d
                ∧ d.analysis = (assignAnalysis L v₂ now₂).1 ∧ d.isAnalyzed = true
                ∧ (v₂.get? "keyTerms" = none → d.analysis.keyTerms = .absent) := by
  have h1 := reAnalyze_found L E w id oid document now₁ saved₁ hid hfind
  have hc1 : (reAnalyze L E w id now₁ saved₁).2.engineCalls = w.engineCalls + 1 := by
    rw [h1]; exact runAnalysis_calls L E w document now₁ saved₁ _ _
  obtain ⟨document₁, hfind₁, hf, ho, hc⟩ := runAnalysis_keeps L E w oid document now₁ saved₁
    "Document re-analyzed successfully" "Failed to re-analyze document" hfind
  rw [← h1] at hfind₁
  have h2 := reAnalyze_found L E (reAnalyze L E w id now₁ saved₁).2 id oid document₁ now₂ saved₂
    hid hfind₁
  refine ⟨hc1, ?_, ?_⟩
  · rw [h2, runAnalysis_calls, hc1]
  · intro v₂ hp hi
    rw [← hc, ← hc1] at hp
    rw [issuesOf_congr L document document₁ v₂ now₂ hf.symm ho.symm hc.symm] at hi
    obtain ⟨hr, hs⟩ := reAnalyze_accepted L E (reAnalyze L E w id now₁ saved₁).2 id oid
      document₁ now₂ saved₂ v₂ hid hfind₁ hp hi
    refine ⟨by rw [hr], written L document₁ v₂ now₂ saved₂, hs, rfl, rfl, ?_⟩
    intro hk
    exact assignAnalysis_absent_keyTerms L v₂ now₂ hk

set_option maxRecDepth 1000000 in
/-- C3, on the sample document: the first re-analysis stores key terms, the
second output has none, and none is stored afterwards. -/
theorem reAnalyze_twice_replaces_witness :
    sampleLib.castObjectId sampleId = some 1
      ∧ findById sampleWorld.store 1 = some sampleDoc
      ∧ (stored (reAnalyze sampleLib twoReplies sampleWorld sampleId 9 10).2 1).map
          (fun d => d.analysis.keyTerms) = some (.val [some "lease", some "fees"])
      ∧ (assignAnalysis sampleLib sampleSecond 20).1.keyTerms = .absent
      ∧ (reAnalyze sampleLib twoReplies
          (reAnalyze sampleLib twoReplies sampleWorld sampleId 9 10).2 sampleId 20 21).1
        = ⟨200, .analysis "Document re-analyzed successfully"
            (assignAnalysis sampleLib sampleSecond 20).1⟩ :=
  ⟨by decide, by decide, by decide, by decide,
    ((reAnalyze_twice_replaces sampleLib twoReplies sampleWorld sampleId 1 sampleDoc 9 10 20 21
      (by decide) (by decide)).2.2 sampleSecond rfl (by decide)).1⟩

theorem castAll_str (L : Lib) :
    ∀ ks : List String, castAll (castStringElem L) (ks.map JVal.str) = some (ks.map some)
  | [] => rfl
  | k :: ks => by
    simp [castAll, castStringElem, castAll_str L ks]

theorem castClauseElem_toJson (L : Lib) (c : EngineClause) :
    castClauseElem L c.toJson = some (.doc c.toStored, []) := by
  simp [castClauseElem, EngineClause.toJson, castClause, JVal.get?, castStringPath,
    applySeverityDefault, EngineClause.toStored, orCastIssue]

theorem castAll_toJson (L : Lib) :
    ∀ cs : List EngineClause,
      castAll (castClauseElem L) (cs.map EngineClause.toJson)
        = some (cs.map (fun c => (ClauseEntry.doc c.toStored, ([] : List Issue))))
  | [] => rfl
  | c :: cs => by
    simp [castAll, castClauseElem_toJson, castAll_toJson L cs]

theorem assignClauses_toJson (L : Lib) (cs : List EngineClause) :
    assignClauses L (some (.arr (cs.map EngineClause.toJson)))
      = (.val (cs.map (fun c => ClauseEntry.doc c.toStored)), []) := by
  simp [assignClauses, castClauseArrayPath, castAll_toJson, Function.comp_def]

/-- What the assignment of lines 85-88 stores for the keys of an engine output
that hold a value of the declared type: the value itself. -/
theorem assignAnalysis_verbatim (L : Lib) (v : JVal) (now : Timestamp) :
    (assignAnalysis L v now).1.analyzedAt = .val now
      ∧ (∀ s, v.get? "summary" = some (.str s) → (assignAnalysis L v now).1.summary = .val s)
      ∧ (∀ n, v.get? "riskScore" = some (.num n) →
          (assignAnalysis L v now).1.riskScore = .val n)
      ∧ (∀ ks : List String, v.get? "keyTerms" = some (.arr (ks.map .str)) →
          (assignAnalysis L v now).1.keyTerms = .val (ks.map some))
      ∧ (∀ rs : List String, v.get? "recommendations" = some (.arr (rs.map .str)) →
          (assignAnalysis L v now).1.recommendations = .val (rs.map some))
      ∧ (∀ cs : List EngineClause,
          v.get? "suspiciousClauses" = some (.arr (cs.map EngineClause.toJson)) →
          (assignAnalysis L v now).1.suspiciousClauses
            = .val (cs.map (fun c => ClauseEntry.doc c.toStored))) := by
  refine ⟨rfl, ?_, ?_, ?_, ?_, ?_⟩
  · intro s h
    simp [assignAnalysis, h, castStringPath, orCastIssue]
  · intro n h
    simp [assignAnalysis, h, castNumberPath, orCastIssue]
  · intro ks h
    simp [assignAnalysis, h, castStringArrayPath, orCastIssue, castAll_str]
  · intro rs h
    simp [assignAnalysis, h, castStringArrayPath, orCastIssue, castAll_str]
  · intro cs h
    simp [assignAnalysis, h, assignClauses_toJson]

/-- C4. On an unanalyzed document whose engine output `v` is accepted,
`POST /:id/analyze` answers 200 with the analysis assigned from `v`, and the
stored document is then marked analyzed and holds exactly that analysis: its
`analyzedAt` is the date of the call, and its summary, risk score, key terms,
recommendations and clauses are those of `v` wherever `v` holds a value of the
declared type. One engine call is made. -/
theorem analyze_stores_engine_output (L : Lib) (E : Engine) (w : World) (id : String)
    (oid : ObjectId) (document : Document) (now savedAt : Timestamp) (v : JVal)
    (hid : L.castObjectId id = some oid) (hfind : findById w.store oid = some document)
    (hun : document.isAnalyzed = false)
    (hp : parsedReply L E w.engineCalls document.content = some v)
    (hi : issuesOf L document v now = []) :
    ∃ d, analyze L E w id now savedAt =
          (⟨200, .analysis "Document analyzed successfully" d.analysis⟩,
            { store := updateFirst d w.store, engineCalls := w.engineCalls + 1 })
      ∧ stored (analyze L E w id now savedAt).2 oid = some d
      ∧ d.isAnalyzed = true
      ∧ d.analysis.analyzedAt = .val now
      ∧ (∀ s, v.get? "summary" = some (.str s) → d.analysis.summary = .val s)
      ∧ (∀ n, v.get? "riskScore" = some (.num n) → d.analysis.riskScore = .val n)
      ∧ (∀ ks : List String, v.get? "keyTerms" = some (.arr (ks.map .str)) →
          d.analysis.keyTerms = .val (ks.map some))
      ∧ (∀ rs : List String, v.get? "recommendations" = some (.arr (rs.map .str)) →
          d.analysis.recommendations = .val (rs.map some))
      ∧ (∀ cs : List EngineClause,
          v.get? "suspiciousClauses" = some (.arr (cs.map EngineClause.toJson)) →
          d.analysis.suspiciousClauses = .val (cs.map (fun c => ClauseEntry.doc c.toStored))) := by
  have h := analyze_unanalyzed L E w id oid document now savedAt hid hfind hun
  rw [runAnalysis_accepted L E w document now savedAt _ _ v hp hi] at h
  obtain ⟨e, he, _, _⟩ := findById_eq_some hfind
  refine ⟨written L document v now savedAt, h, ?_, rfl, assignAnalysis_verbatim L v now⟩
  rw [h]
  exact find_updateFirst (written L document v now savedAt) oid
    (findById_id hfind : document.id = oid) w.store e he

set_option maxRecDepth 1000000 in
/-- C4, on the sample document and the fenced sample reply: the stored document
is `analyzedDoc`. -/
theorem analyze_stores_engine_output_witness :
    sampleLib.castObjectId sampleId = some 1
      ∧ findById sampleWorld.store 1 = some sampleDoc
      ∧ sampleDoc.isAnalyzed = false
      ∧ issuesOf sampleLib sampleDoc sampleFull 9 = []
      ∧ analyze sampleLib (constEngine sampleFullText) sampleWorld sampleId 9 10
          = (⟨200, .analysis "Document analyzed successfully" sampleAnalysis⟩, analyzedWorld)
      ∧ ∃ d, stored (analyze sampleLib (constEngine sampleFullText) sampleWorld sampleId 9 10).2 1
            = some d ∧ d.isAnalyzed = true :=
  ⟨by decide, by decide, by decide, by decide, by decide,
    (analyze_stores_engine_output sampleLib (constEngine sampleFullText) sampleWorld sampleId 1
      sampleDoc 9 10 sampleFull (by decide) (by decide) (by decide) rfl (by decide)).elim
      (fun d h => ⟨d, h.2.1, h.2.2.1⟩)⟩

/-- C5 as stated fails: the route parameter `abc` denotes no document (the
collection is even empty), `findById` throws on it because it does not cast to
an ObjectId, and both routes answer 500 from their `catch`, not 404. -/
theorem not_found_counterexample :
    sampleLib.castObjectId "abc" = none
      ∧ (analyze sampleLib (constEngine "") World.empty "abc" 1 2).1
          = ⟨500, .errorDetails "Failed to analyze document" .objectIdCast⟩
      ∧ (reAnalyze sampleLib (constEngine "") World.empty "abc" 1 2).1
          = ⟨500, .errorDetails "Failed to re-analyze document" .objectIdCast⟩ := by
  decide

/-- C5, amended. For an id that denotes no document of the collection, both
routes leave the state as it is (collection and number of engine calls); they
answer 404 `Document not found` when the id casts to an ObjectId, and 500 when
it does not. -/
theorem not_found_no_effect (L : Lib) (E : Engine) (w : World) (id : String)
    (now savedAt : Timestamp)
    (h : ∀ oid, L.castObjectId id = some oid → findById w.store oid = none) :
    (analyze L E w id now savedAt).2 = w
      ∧ (reAnalyze L E w id now savedAt).2 = w
      ∧ (∀ oid, L.castObjectId id = some oid →
          (analyze L E w id now savedAt).1 = ⟨404, .error "Document not found"⟩
            ∧ (reAnalyze L E w id now savedAt).1 = ⟨404, .error "Document not found"⟩)
      ∧ (L.castObjectId id = none →
          (analyze L E w id now savedAt).1
              = ⟨500, .errorDetails "Failed to analyze document" .objectIdCast⟩
            ∧ (reAnalyze L E w id now savedAt).1
              = ⟨500, .errorDetails "Failed to re-analyze document" .objectIdCast⟩) := by
  unfold analyze reAnalyze
  cases hc : L.castObjectId id with
  | none => simp
  | some oid => simp [h oid hc]

set_option maxRecDepth 1000000 in
/-- C5 amended, on the sample collection and a well-formed id that is not in it. -/
theorem not_found_no_effect_witness :
    (∀ oid, sampleLib.castObjectId "000000000000000000000002" = some oid →
        findById sampleWorld.store oid = none)
      ∧ (analyze sampleLib (constEngine sampleFullText) sampleWorld
          "000000000000000000000002" 9 10)
        = (⟨404, .error "Document not found"⟩, sampleWorld) :=
  have h : ∀ oid, sampleLib.castObjectId "000000000000000000000002" = some oid →
      findById sampleWorld.store oid = none := by
    intro oid ho
    have h2 : sampleLib.castObjectId "000000000000000000000002" = some 2 := by decide
    rw [h2] at ho
    cases ho
    decide
  ⟨h, by
    have t := not_found_no_effect sampleLib (constEngine sampleFullText) sampleWorld
      "000000000000000000000002" 9 10 h
    exact Prod.ext (t.2.2.1 2 (by decide)).1 t.1⟩

/-- The analysis step answers 500 and writes nothing when the engine throws,
when its text does not parse, or when `save()` rejects the assigned output. -/
theorem runAnalysis_failure (L : Lib) (E : Engine) (w : World) (document : Document)
    (now savedAt : Timestamp) (success failure : String)
    (hfail : E w.engineCalls document.content = .throws
      ∨ (∃ t, E w.engineCalls document.content = .text t ∧ L.jsonParse (cleanText t) = none)
      ∨ (∃ v, parsedReply L E w.engineCalls document.content = some v
          ∧ issuesOf L document v now ≠ [])) :
    (runAnalysis L E w document now savedAt success failure).1.status = 500
      ∧ (runAnalysis L E w document now savedAt success failure).2.store = w.store := by
  rcases hfail with h | ⟨t, ht, hn⟩ | ⟨v, hv, hi⟩
  · have hp : parsedReply L E w.engineCalls document.content = none := by
      simp [parsedReply, h]
    rw [runAnalysis_unparsed L E w document now savedAt success failure hp]
    exact ⟨rfl, rfl⟩
  · have hp : parsedReply L E w.engineCalls document.content = none := by
      simp [parsedReply, ht, hn]
    rw [runAnalysis_unparsed L E w document now savedAt success failure hp]
    exact ⟨rfl, rfl⟩
  · rw [runAnalysis_rejected L E w document now savedAt success failure v hv hi]
    exact ⟨rfl, rfl⟩

/-- C6. For a document the id denotes: when the engine call throws, or its
text does not parse, or the parsed output is rejected by `save()`, then
`POST /:id/re-analyze`, and `POST /:id/analyze` on an unanalyzed document (the
case in which it calls the engine), answer with the failure status 500 and the
collection is exactly what it was before the call. -/
theorem failure_leaves_store_unchanged (L : Lib) (E : Engine) (w : World) (id : String)
    (oid : ObjectId) (document : Document) (now savedAt : Timestamp)
    (hid : L.castObjectId id = some oid) (hfind : findById w.store oid = some document)
    (hfail : E w.engineCalls document.content = .throws
      ∨ (∃ t, E w.engineCalls document.content = .text t ∧ L.jsonParse (cleanText t) = none)
      ∨ (∃ v, parsedReply L E w.engineCalls document.content = some v
          ∧ issuesOf L document v now ≠ [])) :
    (document.isAnalyzed = false →
        (analyze L E w id now savedAt).1.status = 500
          ∧ (analyze L E w id now savedAt).2.store = w.store)
      ∧ (reAnalyze L E w id now savedAt).1.status = 500
      ∧ (reAnalyze L E w id now savedAt).2.store = w.store := by
  refine ⟨fun hun => ?_, ?_⟩
  · rw [analyze_unanalyzed L E w id oid document now savedAt hid hfind hun]
    exact runAnalysis_failure L E w document now savedAt _ _ hfail
  · rw [reAnalyze_found L E w id oid document now savedAt hid hfind]
    exact runAnalysis_failure L E w document now savedAt _ _ hfail

set_option maxRecDepth 1000000 in
/-- C6, on the analyzed sample document and a text that does not parse: the
re-analysis fails and the stored analysis is still there. -/
theorem failure_leaves_store_unchanged_witness :
    sampleLib.castObjectId sampleId = some 1
      ∧ findById analyzedWorld.store 1 = some analyzedDoc
      ∧ sampleLib.jsonParse (cleanText "I cannot help with that.") = none
      ∧ (reAnalyze sampleLib (constEngine "I cannot help with that.") analyzedWorld sampleId
          20 21).1.status = 500
      ∧ (reAnalyze sampleLib (constEngine "I cannot help with that.") analyzedWorld sampleId
          20 21).2.store = [analyzedDoc] :=
  ⟨by decide, by decide, rfl,
    (failure_leaves_store_unchanged sampleLib (constEngine "I cannot help with that.")
      analyzedWorld sampleId 1 analyzedDoc 20 21 (by decide) (by decide)
      (Or.inr (Or.inl ⟨"I cannot help with that.", rfl, rfl⟩))).2⟩

/-- An output is accepted when nothing but `riskScore` is held against it, its
`riskScore` casts, and the cast value passes `min` and `max`. -/
theorem issuesOf_eq_nil_iff (L : Lib) (document : Document) (v : JVal) (now : Timestamp) :
    issuesOf L document v now = [] ↔
      otherIssues L document v = []
        ∧ (orCastIssue "analysis.riskScore" (castNumberPath L (v.get? "riskScore"))).2 = []
        ∧ riskScoreIssues
            (orCastIssue "analysis.riskScore" (castNumberPath L (v.get? "riskScore"))).1 = [] := by
  simp only [issuesOf, otherIssues, assignAnalysis, validate, assigned, List.append_eq_nil]
  tauto

theorem analyze_accepted (L : Lib) (E : Engine) (w : World) (id : String) (oid : ObjectId)
    (document : Document) (now savedAt : Timestamp) (v : JVal)
    (hid : L.castObjectId id = some oid) (hfind : findById w.store oid = some document)
    (hun : document.isAnalyzed = false)
    (hp : parsedReply L E w.engineCalls document.content = some v)
    (hi : issuesOf L document v now = []) :
    analyze L E w id now savedAt =
        (⟨200, .analysis "Document analyzed successfully" (assignAnalysis L v now).1⟩,
          { store := updateFirst (written L document v now savedAt) w.store,
            engineCalls := w.engineCalls + 1 })
      ∧ stored (analyze L E w id now savedAt).2 oid = some (written L document v now savedAt) := by
  have h := analyze_unanalyzed L E w id oid document now savedAt hid hfind hun
  rw [runAnalysis_accepted L E w document now savedAt _ _ v hp hi] at h
  refine ⟨h, ?_⟩
  rw [h]
  obtain ⟨e, he, _, _⟩ := findById_eq_some hfind
  exact find_updateFirst (written L document v now savedAt) oid
    (findById_id hfind : document.id = oid) w.store e he

theorem analyze_rejected (L : Lib) (E : Engine) (w : World) (id : String) (oid : ObjectId)
    (document : Document) (now savedAt : Timestamp) (v : JVal)
    (hid : L.castObjectId id = some oid) (hfind : findById w.store oid = some document)
    (hun : document.isAnalyzed = false)
    (hp : parsedReply L E w.engineCalls document.content = some v)
    (hi : issuesOf L document v now ≠ []) :
    analyze L E w id now savedAt =
      (⟨500, .errorDetails "Failed to analyze document" (.validation (issuesOf L document v now))⟩,
        { w with engineCalls := w.engineCalls + 1 }) := by
  rw [analyze_unanalyzed L E w id oid document now savedAt hid hfind hun]
  exact runAnalysis_rejected L E w document now savedAt _ _ v hp hi

set_option maxRecDepth 1000000 in
/-- C7 as stated fails: the engine output is the JSON object with a summary
and no `riskScore`; `POST /:id/analyze` on the unanalyzed sample document
answers 200 and the document is stored as analyzed. -/
theorem missing_risk_score_counterexample :
    parsedReply sampleLib (constEngine sampleNoScoreText) 0 sampleDoc.content
        = some sampleNoScore
      ∧ (sampleNoScore.get? "riskScore").isNone = true
      ∧ (analyze sampleLib (constEngine sampleNoScoreText) sampleWorld sampleId 9 10).1.status
          = 200
      ∧ (stored (analyze sampleLib (constEngine sampleNoScoreText) sampleWorld sampleId 9 10).2
          1).map (fun d => d.isAnalyzed) = some true :=
  ⟨rfl, by decide, by decide, by decide⟩

/-- C7, amended. On an unanalyzed document and a parsed engine output `v`:
when the `riskScore` of `v` does not cast to a number, `POST /:id/analyze`
answers 500 `Failed to analyze document` with a validation error that holds a
cast error on `analysis.riskScore`, and the collection is unchanged, so the
document remains unanalyzed; when `v` has no `riskScore` and nothing else is
held against it, the route answers 200, the document is stored as analyzed
without a `riskScore`, and the default 0 is what is read back. -/
theorem risk_score_cast_or_absent (L : Lib) (E : Engine) (w : World) (id : String)
    (oid : ObjectId) (document : Document) (now savedAt : Timestamp) (v : JVal)
    (hid : L.castObjectId id = some oid) (hfind : findById w.store oid = some document)
    (hun : document.isAnalyzed = false)
    (hp : parsedReply L E w.engineCalls document.content = some v) :
    (castNumberPath L (v.get? "riskScore") = none →
        (analyze L E w id now savedAt).1
            = ⟨500, .errorDetails "Failed to analyze document"
                (.validation (issuesOf L document v now))⟩
          ∧ Issue.cast "analysis.riskScore" ∈ issuesOf L document v now
          ∧ (analyze L E w id now savedAt).2.store = w.store)
      ∧ (v.get? "riskScore" = none → otherIssues L document v = [] →
          (analyze L E w id now savedAt).1.status = 200
            ∧ ∃ d, stored (analyze L E w id now savedAt).2 oid = some d
                ∧ d.isAnalyzed = true ∧ d.analysis.riskScore = .absent
                ∧ (hydrate d).analysis.riskScore = .val (.fin 0)) := by
  constructor
  · intro hc
    have hmem : Issue.cast "analysis.riskScore" ∈ issuesOf L document v now := by
      simp [issuesOf, assignAnalysis, hc, orCastIssue]
    have hi : issuesOf L document v now ≠ [] := List.ne_nil_of_mem hmem
    rw [analyze_rejected L E w id oid document now savedAt v hid hfind hun hp hi]
    exact ⟨rfl, hmem, rfl⟩
  · intro hn ho
    have hi : issuesOf L document v now = [] := by
      rw [issuesOf_eq_nil_iff]
      simp [ho, hn, castNumberPath, orCastIssue, riskScoreIssues]
    obtain ⟨hr, hs⟩ := analyze_accepted L E w id oid document now savedAt v hid hfind hun hp hi
    refine ⟨by rw [hr], written L document v now savedAt, hs, rfl, ?_, ?_⟩
    · simp [written, assigned, assignAnalysis, hn, castNumberPath, orCastIssue]
    · simp [hydrate, hydrateAnalysis, written, assigned, assignAnalysis, hn, castNumberPath,
        orCastIssue, riskScoreDefault]

set_option maxRecDepth 1000000 in
/-- C7 amended, on the sample document: the output without a risk score is
stored, the output whose risk score is a word is rejected by a library that
does not cast words to numbers. -/
theorem risk_score_cast_or_absent_witness :
    sampleLib.castObjectId sampleId = some 1
      ∧ findById sampleWorld.store 1 = some sampleDoc
      ∧ sampleDoc.isAnalyzed = false
      ∧ otherIssues sampleLib sampleDoc sampleNoScore = []
      ∧ (analyze sampleLib (constEngine sampleNoScoreText) sampleWorld sampleId 9 10).1.status
          = 200
      ∧ (analyze sampleLib (constEngine sampleWordScoreText) sampleWorld sampleId 9 10).2.store
          = sampleWorld.store :=
  ⟨by decide, by decide, by decide, by decide,
    ((risk_score_cast_or_absent sampleLib (constEngine sampleNoScoreText) sampleWorld sampleId 1
      sampleDoc 9 10 sampleNoScore (by decide) (by decide) (by decide) rfl).2 rfl
        (by decide)).1,
    ((risk_score_cast_or_absent sampleLib (constEngine sampleWordScoreText) sampleWorld sampleId
      1 sampleDoc 9 10 sampleWordScore (by decide) (by decide) (by decide) rfl).1 rfl).2.2⟩

set_option maxRecDepth 1000000 in
/-- C8 as stated fails: for the engine outputs with `riskScore` 150 and -5,
`POST /:id/analyze` on the unanalyzed sample document answers 500 with the
`max` (resp. `min`) validation error and the collection is unchanged: the
stored risk score is neither 100 nor 0 from a clamp, the document is still
the unanalyzed one. -/
theorem risk_score_clamp_counterexample :
    parsedReply sampleLib (constEngine sampleTooHighText) 0 sampleDoc.content
        = some sampleTooHigh
      ∧ analyze sampleLib (constEngine sampleTooHighText) sampleWorld sampleId 9 10
        = (⟨500, .errorDetails "Failed to analyze document"
              (.validation [Issue.max "analysis.riskScore"])⟩,
            { store := [sampleDoc], engineCalls := 1 })
      ∧ parsedReply sampleLib (constEngine sampleNegativeText) 0 sampleDoc.content
        = some sampleNegative
      ∧ analyze sampleLib (constEngine sampleNegativeText) sampleWorld sampleId 9 10
        = (⟨500, .errorDetails "Failed to analyze document"
              (.validation [Issue.min "analysis.riskScore"])⟩,
            { store := [sampleDoc], engineCalls := 1 }) :=
  ⟨rfl, by decide, rfl, by decide⟩

/-- C8, amended. On an unanalyzed document and a parsed engine output whose
`riskScore` is the number `r`: when `r < 0` or `100 < r`, `POST /:id/analyze`
answers 500 with a validation error that holds the `min` or the `max` error on
`analysis.riskScore`, and the collection is unchanged; when `0 ≤ r ≤ 100` and
nothing else is held against the output, the route answers 200 and the stored
document is analyzed with `riskScore` equal to `r`. -/
theorem risk_score_validated_not_clamped (L : Lib) (E : Engine) (w : World) (id : String)
    (oid : ObjectId) (document : Document) (now savedAt : Timestamp) (v : JVal) (r : ℚ)
    (hid : L.castObjectId id = some oid) (hfind : findById w.store oid = some document)
    (hun : document.isAnalyzed = false)
    (hp : parsedReply L E w.engineCalls document.content = some v)
    (hr : v.get? "riskScore" = some (.num (.fin r))) :
    (r < 0 ∨ 100 < r →
        (analyze L E w id now savedAt).1
            = ⟨500, .errorDetails "Failed to analyze document"
                (.validation (issuesOf L document v now))⟩
          ∧ (Issue.min "analysis.riskScore" ∈ issuesOf L document v now
              ∨ Issue.max "analysis.riskScore" ∈ issuesOf L document v now)
          ∧ (analyze L E w id now savedAt).2.store = w.store)
      ∧ (0 ≤ r → r ≤ 100 → otherIssues L document v = [] →
          (analyze L E w id now savedAt).1.status = 200
            ∧ ∃ d, stored (analyze L E w id now savedAt).2 oid = some d
                ∧ d.isAnalyzed = true ∧ d.analysis.riskScore = .val (.fin r)) := by
  have hrisk : (assignAnalysis L v now).1.riskScore = .val (.fin r) := by
    simp [assignAnalysis, hr, castNumberPath, orCastIssue]
  constructor
  · intro hout
    have hmem : Issue.min "analysis.riskScore" ∈ issuesOf L document v now
        ∨ Issue.max "analysis.riskScore" ∈ issuesOf L document v now := by
      rcases hout with hlt | hgt
      · left
        simp [issuesOf, validate, assigned, hrisk, riskScoreIssues, riskScoreMin, hlt]
      · right
        simp [issuesOf, validate, assigned, hrisk, riskScoreIssues, riskScoreMax, hgt]
    have hi : issuesOf L document v now ≠ [] := by
      rcases hmem with h | h <;> exact List.ne_nil_of_mem h
    rw [analyze_rejected L E w id oid document now savedAt v hid hfind hun hp hi]
    exact ⟨rfl, hmem, rfl⟩
  · intro h0 h100 ho
    have hi : issuesOf L document v now = [] := by
      rw [issuesOf_eq_nil_iff]
      simp [ho, hr, castNumberPath, orCastIssue, riskScoreIssues, riskScoreMin, riskScoreMax,
        not_lt.mpr h0, not_lt.mpr h100]
    obtain ⟨hres, hs⟩ := analyze_accepted L E w id oid document now savedAt v hid hfind hun hp hi
    exact ⟨by rw [hres], written L document v now savedAt, hs, rfl, hrisk⟩

set_option maxRecDepth 1000000 in
/-- C8 amended, on the sample document: 40 is stored as 40, 150 is rejected. -/
theorem risk_score_validated_not_clamped_witness :
    sampleLib.castObjectId sampleId = some 1
      ∧ findById sampleWorld.store 1 = some sampleDoc
      ∧ sampleDoc.isAnalyzed = false
      ∧ otherIssues sampleLib sampleDoc sampleFull = []
      ∧ (analyze sampleLib (constEngine sampleFullText) sampleWorld sampleId 9 10).1.status = 200
      ∧ (analyze sampleLib (constEngine sampleTooHighText) sampleWorld sampleId 9 10).2.store
          = sampleWorld.store :=
  ⟨by decide, by decide, by decide, by decide,
    ((risk_score_validated_not_clamped sampleLib (constEngine sampleFullText) sampleWorld
      sampleId 1 sampleDoc 9 10 sampleFull 40 (by decide) (by decide) (by decide) rfl rfl).2
        (by norm_num) (by norm_num) (by decide)).1,
    ((risk_score_validated_not_clamped sampleLib (constEngine sampleTooHighText) sampleWorld
      sampleId 1 sampleDoc 9 10 sampleTooHigh 150 (by decide) (by decide) (by decide) rfl rfl).1
        (Or.inr (by norm_num))).2.2⟩

/-! ## How the collection evolves -/

/-- A document of the collection after the analysis step was there before, or
is the document written for an accepted engine output. -/
theorem mem_runAnalysis_store (L : Lib) (E : Engine) (w : World) (document : Document)
    (now savedAt : Timestamp) (success failure : String) (m : Document)
    (hm : m ∈ (runAnalysis L E w document now savedAt success failure).2.store) :
    m ∈ w.store ∨ ∃ v, issuesOf L document v now = [] ∧ m = written L document v now savedAt := by
  cases hp : parsedReply L E w.engineCalls document.content with
  | none =>
    rw [runAnalysis_unparsed L E w document now savedAt success failure hp] at hm
    exact Or.inl hm
  | some v =>
    by_cases hi : issuesOf L document v now = []
    · rw [runAnalysis_accepted L E w document now savedAt success failure v hp hi] at hm
      rcases mem_updateFirst hm with h | h
      · exact Or.inr ⟨v, hi, h⟩
      · exact Or.inl h
    · rw [runAnalysis_rejected L E w document now savedAt success failure v hp hi] at hm
      exact Or.inl hm

/-- A document of the collection after `POST /:id/analyze` was there before, or
is the document written for an accepted output over a loaded document. -/
theorem mem_analyze_store (L : Lib) (E : Engine) (w : World) (id : String)
    (now savedAt : Timestamp) (m : Document)
    (hm : m ∈ (analyze L E w id now savedAt).2.store) :
    m ∈ w.store ∨ ∃ e v, e ∈ w.store ∧ issuesOf L (hydrate e) v now = []
      ∧ m = written L (hydrate e) v now savedAt := by
  unfold analyze at hm
  cases hc : L.castObjectId id with
  | none => rw [hc] at hm; exact Or.inl hm
  | some oid =>
    rw [hc] at hm
    dsimp only at hm
    cases hf : findById w.store oid with
    | none => rw [hf] at hm; exact Or.inl hm
    | some document =>
      rw [hf] at hm
      dsimp only at hm
      obtain ⟨e, he, rfl, _⟩ := findById_eq_some hf
      by_cases ha : (hydrate e).isAnalyzed = true
      · rw [if_pos ha] at hm; exact Or.inl hm
      · rw [if_neg ha] at hm
        rcases mem_runAnalysis_store L E w (hydrate e) now savedAt _ _ m hm with h | ⟨v, hi, h⟩
        · exact Or.inl h
        · exact Or.inr ⟨e, v, List.mem_of_find?_eq_some he, hi, h⟩

/-- The same for `POST /:id/re-analyze`. -/
theorem mem_reAnalyze_store (L : Lib) (E : Engine) (w : World) (id : String)
    (now savedAt : Timestamp) (m : Document)
    (hm : m ∈ (reAnalyze L E w id now savedAt).2.store) :
    m ∈ w.store ∨ ∃ e v, e ∈ w.store ∧ issuesOf L (hydrate e) v now = []
      ∧ m = written L (hydrate e) v now savedAt := by
  unfold reAnalyze at hm
  cases hc : L.castObjectId id with
  | none => rw [hc] at hm; exact Or.inl hm
  | some oid =>
    rw [hc] at hm
    dsimp only at hm
    cases hf : findById w.store oid with
    | none => rw [hf] at hm; exact Or.inl hm
    | some document =>
      rw [hf] at hm
      dsimp only at hm
      obtain ⟨e, he, rfl, _⟩ := findById_eq_some hf
      rcases mem_runAnalysis_store L E w (hydrate e) now savedAt _ _ m hm with h | ⟨v, hi, h⟩
      · exact Or.inl h
      · exact Or.inr ⟨e, v, List.mem_of_find?_eq_some he, hi, h⟩

theorem mem_saveNew (L : Lib) (w w' : World) (document m : Document)
    (h : saveNew L w document = .ok w') (hm : m ∈ w'.store) : m ∈ w.store ∨ m = document := by
  unfold saveNew at h
  split at h
  · split at h
    · cases h
    · cases h
      simpa using hm
  · cases h

/-- A document of the collection after `POST /upload` was there before, or is
the document constructed for the uploaded file, whose extracted text is not
blank. -/
theorem mem_upload_store (L : Lib) (w : World) (file : Option UploadedFile) (newId : ObjectId)
    (now savedAt : Timestamp) (m : Document)
    (hm : m ∈ (upload L w file newId now savedAt).2.store) :
    m ∈ w.store ∨ ∃ f ft text, file = some f
      ∧ extractTextFromFile L f = some (text, some ft) ∧ jsTrim text ≠ ""
      ∧ m = newDocument f ft text newId now savedAt := by
  cases file with
  | none => exact Or.inl hm
  | some f =>
    unfold upload at hm
    dsimp only at hm
    by_cases h1 : f.mimetype ∉ allowedTypes
    · rw [if_pos h1] at hm; exact Or.inl hm
    · rw [if_neg h1] at hm
      by_cases h2 : fileSizeLimit < f.buffer.length
      · rw [if_pos h2] at hm; exact Or.inl hm
      · rw [if_neg h2] at hm
        cases hx : extractTextFromFile L f with
        | none => rw [hx] at hm; exact Or.inl hm
        | some r =>
          obtain ⟨text, fileType⟩ := r
          rw [hx] at hm
          dsimp only at hm
          by_cases h3 : jsTrim text = ""
          · rw [if_pos h3] at hm; exact Or.inl hm
          · rw [if_neg h3] at hm
            cases fileType with
            | none => exact Or.inl hm
            | some ft =>
              dsimp only at hm
              cases hs : saveNew L w (newDocument f ft text newId now savedAt) with
              | error e => rw [hs] at hm; exact Or.inl hm
              | ok w' =>
                rw [hs] at hm
                rcases mem_saveNew L w w' _ m hs hm with h | h
                · exact Or.inl h
                · exact Or.inr ⟨f, ft, text, rfl, hx, h3, h⟩

/-- A document of the collection after `DELETE /:id` was there before. -/
theorem mem_delete_store (L : Lib) (w : World) (id : String) (m : Document)
    (hm : m ∈ (delete L w id).2.store) : m ∈ w.store := by
  unfold delete at hm
  split at hm
  · exact hm
  · split at hm
    · exact hm
    · exact mem_removeFirst hm

/-- Induction over histories: a property of documents that holds of every
constructed document and is kept by every accepted write holds of every
document of every reachable collection. -/
theorem reachable_all (L : Lib) (E : Engine) (P : Document → Prop)
    (hnew : ∀ f ft text newId now savedAt, extractTextFromFile L f = some (text, some ft) →
      jsTrim text ≠ "" → P (newDocument f ft text newId now savedAt))
    (hwrite : ∀ e v now savedAt, P e → issuesOf L (hydrate e) v now = [] →
      P (written L (hydrate e) v now savedAt)) :
    ∀ w, Reachable L E w → ∀ d ∈ w.store, P d := by
  have hstep : ∀ (w : World) (op : Op), (∀ d ∈ w.store, P d) →
      ∀ d ∈ (step L E w op).2.store, P d := by
    intro w op hw d hd
    cases op with
    | upload file newId now savedAt =>
      rcases mem_upload_store L w file newId now savedAt d hd with h | ⟨f, ft, text, _, hx, ht, rfl⟩
      · exact hw d h
      · exact hnew f ft text newId now savedAt hx ht
    | analyze id now savedAt =>
      rcases mem_analyze_store L E w id now savedAt d hd with h | ⟨e, v, he, hi, rfl⟩
      · exact hw d h
      · exact hwrite e v now savedAt (hw e he) hi
    | reAnalyze id now savedAt =>
      rcases mem_reAnalyze_store L E w id now savedAt d hd with h | ⟨e, v, he, hi, rfl⟩
      · exact hw d h
      · exact hwrite e v now savedAt (hw e he) hi
    | delete id => exact hw d (mem_delete_store L w id d hd)
  have hrun : ∀ (ops : List Op) (w : World), (∀ d ∈ w.store, P d) →
      ∀ d ∈ (run L E w ops).store, P d := by
    intro ops
    induction ops with
    | nil => intro w hw; exact hw
    | cons op ops ih => intro w hw; exact ih _ (hstep w op hw)
  intro w ⟨ops, hops⟩
  rw [← hops]
  exact hrun ops World.empty (by intro d hd; simp [World.empty] at hd)

theorem riskScoreIssues_eq_nil {s : Slot JNum} (h : riskScoreIssues s = []) :
    ∀ n, s = .val n → ∃ q, n = .fin q ∧ 0 ≤ q ∧ q ≤ 100 := by
  intro n hn
  subst hn
  cases n with
  | fin q =>
    simp only [riskScoreIssues, riskScoreMin, riskScoreMax, List.append_eq_nil] at h
    refine ⟨q, rfl, ?_, ?_⟩
    · by_contra hq
      have := h.1
      simp [not_le.mp hq] at this
    · by_contra hq
      have := h.2
      simp [not_le.mp hq] at this
  | posInf => simp [riskScoreIssues] at h
  | negInf => simp [riskScoreIssues] at h

theorem written_riskScoreInRange (L : Lib) (document : Document) (v : JVal)
    (now savedAt : Timestamp) (hi : issuesOf L document v now = []) :
    RiskScoreInRange (written L document v now savedAt) := by
  have h := ((issuesOf_eq_nil_iff L document v now).mp hi).2.2
  intro n hn
  refine riskScoreIssues_eq_nil h n ?_
  simpa [written, assigned, assignAnalysis] using hn

set_option maxRecDepth 1000000 in
/-- C9 as stated fails: after the sample file is uploaded and analyzed by an
engine that answers with `riskScore` 50.5, the stored risk score is 50.5,
which is no integer; and after an engine output without `riskScore` the stored
analysis has no risk score at all. -/
theorem risk_score_integer_counterexample :
    Reachable sampleLib (constEngine sampleHalfText)
        (run sampleLib (constEngine sampleHalfText) World.empty sampleHistory)
      ∧ (run sampleLib (constEngine sampleHalfText) World.empty sampleHistory).store.map
          (fun d => d.analysis.riskScore) = [.val (.fin fiftyAndHalf)]
      ∧ (¬ ∃ k : ℤ, fiftyAndHalf = (k : ℚ))
      ∧ Reachable sampleLib (constEngine sampleNoScoreText)
        (run sampleLib (constEngine sampleNoScoreText) World.empty sampleHistory)
      ∧ (run sampleLib (constEngine sampleNoScoreText) World.empty sampleHistory).store.map
          (fun d => d.analysis.riskScore) = [.absent] := by
  refine ⟨⟨sampleHistory, rfl⟩, by decide, ?_, ⟨sampleHistory, rfl⟩, by decide⟩
  rintro ⟨k, hk⟩
  have hden := congrArg Rat.den hk
  simp [fiftyAndHalf] at hden

/-- C9, amended. In every state reachable from the empty collection by
uploads, analyses, re-analyses and deletions, whatever the engine answers,
every stored risk score that is a number is finite and lies in the closed
interval from 0 to 100. -/
theorem stored_risk_score_in_range (L : Lib) (E : Engine) (w : World)
    (hw : Reachable L E w) (d : Document) (hd : d ∈ w.store) (n : JNum)
    (hn : d.analysis.riskScore = .val n) : ∃ q, n = .fin q ∧ 0 ≤ q ∧ q ≤ 100 := by
  have hall := reachable_all L E RiskScoreInRange
    (by
      intro f ft text newId now savedAt _ _ m hm
      simp only [newDocument, defaultAnalysis, riskScoreDefault] at hm
      cases hm
      exact ⟨0, rfl, le_refl _, by norm_num⟩)
    (by
      intro e v now savedAt _ hi
      exact written_riskScoreInRange L (hydrate e) v now savedAt hi)
  exact hall w hw d hd n hn

set_option maxRecDepth 1000000 in
/-- C9 amended, on the history that uploads the sample file and analyzes it
with the full sample reply. -/
theorem stored_risk_score_in_range_witness :
    Reachable sampleLib (constEngine sampleFullText) analyzedWorld
      ∧ analyzedDoc ∈ analyzedWorld.store
      ∧ analyzedDoc.analysis.riskScore = .val (.fin 40)
      ∧ ∃ q, JNum.fin 40 = .fin q ∧ 0 ≤ q ∧ q ≤ 100 :=
  have hr : Reachable sampleLib (constEngine sampleFullText) analyzedWorld :=
    ⟨sampleHistory, by decide⟩
  ⟨hr, by decide, by decide,
    stored_risk_score_in_range sampleLib (constEngine sampleFullText) analyzedWorld hr
      analyzedDoc (by decide) (.fin 40) (by decide)⟩

theorem castAll_mem {α β : Type} (f : α → Option β) :
    ∀ (xs : List α) (ys : List β), castAll f xs = some ys →
      ∀ x ∈ xs, ∃ y ∈ ys, f x = some y
  | [], _, _, x, hx => by cases hx
  | a :: as, ys, h, x, hx => by
    unfold castAll at h
    cases ha : f a with
    | none => rw [ha] at h; cases h
    | some b =>
      cases has : castAll f as with
      | none => rw [ha, has] at h; cases h
      | some bs =>
        rw [ha, has] at h
        cases h
        rcases List.mem_cons.mp hx with rfl | hx
        · exact ⟨b, List.mem_cons_self _ _, ha⟩
        · obtain ⟨y, hy, hfy⟩ := castAll_mem f as bs has x hx
          exact ⟨y, List.mem_cons_of_mem _ hy, hfy⟩

theorem castAll_of_isSome {α β : Type} (f : α → Option β) :
    ∀ xs : List α, (∀ x ∈ xs, (f x).isSome = true) → ∃ ys, castAll f xs = some ys
  | [], _ => ⟨[], rfl⟩
  | a :: as, h => by
    obtain ⟨ys, hys⟩ := castAll_of_isSome f as (fun x hx => h x (List.mem_cons_of_mem _ hx))
    obtain ⟨y, hy⟩ := Option.isSome_iff_exists.mp (h a (List.mem_cons_self _ _))
    exact ⟨y :: ys, by simp only [castAll, hy, hys]⟩

theorem castClauseElem_severity (L : Lib) (kvs : List (String × JVal)) (s : String)
    (e : ClauseEntry × List Issue) (hs : (JVal.obj kvs).get? "severity" = some (.str s))
    (he : castClauseElem L (.obj kvs) = some e) :
    ∃ c, e.1 = .doc c ∧ c.severity = .val s := by
  simp only [castClauseElem, Option.some.injEq] at he
  subst he
  exact ⟨_, rfl, by simp [castClause, hs, castStringPath, orCastIssue, applySeverityDefault]⟩

theorem clausesIssues_ne_nil (L : Lib) (cs : List ClauseEntry) (c : SuspiciousClause)
    (s : String) (hc : ClauseEntry.doc c ∈ cs) (hs : c.severity = .val s)
    (hn : s ∉ severityEnum) : clausesIssues L (.val cs) ≠ [] := by
  intro h
  simp only [clausesIssues, List.flatMap_eq_nil_iff] at h
  have := h _ hc
  simp [clauseEntryIssues, severityIssues, hs, hn] at this

theorem mem_clausesIssues_enum (L : Lib) (cs : List ClauseEntry) (c : SuspiciousClause)
    (s : String) (hc : ClauseEntry.doc c ∈ cs) (hs : c.severity = .val s)
    (hn : s ∉ severityEnum) :
    Issue.enum "analysis.suspiciousClauses.severity" ∈ clausesIssues L (.val cs) := by
  simp only [clausesIssues, List.mem_flatMap]
  exact ⟨_, hc, by simp [clauseEntryIssues, severityIssues, hs, hn]⟩

theorem mem_issuesOf_of_cast (L : Lib) (document : Document) (v : JVal) (now : Timestamp)
    (i : Issue) (h : i ∈ (assignClauses L (v.get? "suspiciousClauses")).2) :
    i ∈ issuesOf L document v now := by
  simp only [issuesOf, assignAnalysis, List.mem_append]
  tauto

theorem mem_issuesOf_of_clauses (L : Lib) (document : Document) (v : JVal) (now : Timestamp)
    (i : Issue) (h : i ∈ clausesIssues L (assignClauses L (v.get? "suspiciousClauses")).1) :
    i ∈ issuesOf L document v now := by
  simp only [issuesOf, assignAnalysis, validate, assigned, List.mem_append]
  tauto

/-- What `save()` holds against an output with a clause whose severity string
is outside the enum: the `enum` error of the severity when an entry is made
of every element of the array, the cast error of the array otherwise. -/
theorem issuesOf_of_severity (L : Lib) (document : Document) (v : JVal)
    (now : Timestamp) (xs : List JVal) (kvs : List (String × JVal)) (s : String)
    (hx : v.get? "suspiciousClauses" = some (.arr xs)) (hmem : JVal.obj kvs ∈ xs)
    (hsev : (JVal.obj kvs).get? "severity" = some (.str s)) (hs : s ∉ severityEnum) :
    ((∀ x ∈ xs, (castClauseElem L x).isSome = true) →
        Issue.enum "analysis.suspiciousClauses.severity" ∈ issuesOf L document v now)
      ∧ ((∃ x ∈ xs, castClauseElem L x = none) →
        Issue.cast "analysis.suspiciousClauses" ∈ issuesOf L document v now) := by
  constructor
  · intro hall
    obtain ⟨ys, hys⟩ := castAll_of_isSome (castClauseElem L) xs hall
    obtain ⟨y, hy, hfy⟩ := castAll_mem _ xs ys hys _ hmem
    obtain ⟨c, hyc, hc⟩ := castClauseElem_severity L kvs s y hsev hfy
    apply mem_issuesOf_of_clauses
    have ha : (assignClauses L (v.get? "suspiciousClauses")).1 = .val (ys.map Prod.fst) := by
      simp [assignClauses, castClauseArrayPath, hx, hys]
    rw [ha]
    exact mem_clausesIssues_enum L _ c s (hyc ▸ List.mem_map_of_mem Prod.fst hy) hc hs
  · rintro ⟨x, hxm, hnone⟩
    apply mem_issuesOf_of_cast
    have hall : castAll (castClauseElem L) xs = none := by
      cases h : castAll (castClauseElem L) xs with
      | none => rfl
      | some ys =>
        obtain ⟨y, _, hfy⟩ := castAll_mem _ xs ys h x hxm
        rw [hnone] at hfy
        cases hfy
    simp [assignClauses, castClauseArrayPath, hx, hall]

theorem castClauseElem_isSome_iff (L : Lib) (x : JVal) :
    (castClauseElem L x).isSome = true
      ↔ (∃ kvs, x = JVal.obj kvs) ∨ (L.castClauseEntry x).isSome = true := by
  cases x <;> simp [castClauseElem]

theorem castClauseElem_eq_none_iff (L : Lib) (x : JVal) :
    castClauseElem L x = none ↔ (∀ kvs, x ≠ JVal.obj kvs) ∧ L.castClauseEntry x = none := by
  cases x <;> simp [castClauseElem]

/-- An output with a clause whose severity string is outside the enum is not
accepted. -/
theorem issuesOf_ne_nil_of_severity (L : Lib) (document : Document) (v : JVal)
    (now : Timestamp) (xs : List JVal) (kvs : List (String × JVal)) (s : String)
    (hx : v.get? "suspiciousClauses" = some (.arr xs)) (hmem : JVal.obj kvs ∈ xs)
    (hsev : (JVal.obj kvs).get? "severity" = some (.str s)) (hs : s ∉ severityEnum) :
    issuesOf L document v now ≠ [] := by
  obtain ⟨h1, h2⟩ := issuesOf_of_severity L document v now xs kvs s hx hmem hsev hs
  by_cases hall : ∀ x ∈ xs, (castClauseElem L x).isSome = true
  · exact List.ne_nil_of_mem (h1 hall)
  · refine List.ne_nil_of_mem (h2 ?_)
    push_neg at hall
    obtain ⟨x, hxm, hx'⟩ := hall
    exact ⟨x, hxm, by simpa using hx'⟩

theorem written_severityInEnum (L : Lib) (document : Document) (v : JVal)
    (now savedAt : Timestamp) (hi : issuesOf L document v now = []) :
    SeverityInEnum (written L document v now savedAt) := by
  intro cs hcs c hc s hs
  by_contra hn
  have ho := ((issuesOf_eq_nil_iff L document v now).mp hi).1
  simp only [otherIssues, List.append_eq_nil] at ho
  have hval := ho.2
  have hcs2 : (assignClauses L (v.get? "suspiciousClauses")).1 = .val cs := by
    simpa [written, assigned, assignAnalysis] using hcs
  rw [hcs2] at hval
  exact clausesIssues_ne_nil L cs c s hc hs hn hval

set_option maxRecDepth 1000000 in
/-- C10 as stated fails: for the engine output whose clause has severity
`extreme`, `POST /:id/analyze` on the unanalyzed sample document answers 500
with the `enum` validation error and the collection is unchanged: the clause
is not stored with severity `medium`, it is not stored. -/
theorem severity_coercion_counterexample :
    parsedReply sampleLib (constEngine sampleExtremeText) 0 sampleDoc.content
        = some sampleExtreme
      ∧ analyze sampleLib (constEngine sampleExtremeText) sampleWorld sampleId 9 10
        = (⟨500, .errorDetails "Failed to analyze document"
              (.validation [Issue.enum "analysis.suspiciousClauses.severity"])⟩,
            { store := [sampleDoc], engineCalls := 1 }) :=
  ⟨rfl, by decide⟩

/-- C10, amended. On an unanalyzed document and a parsed engine output with a
clause object whose severity is a string outside `low`, `medium`, `high`,
`POST /:id/analyze` answers 500 with the validation error of `save()` and the
collection is unchanged. When every element of the clause array is an object,
or a value the library makes an array entry of, that error holds the `enum`
error of the severity; when an element is neither, it holds the cast error of
the array. Consequently, in every reachable state every stored clause
subdocument whose severity is a string has it among `low`, `medium`,
`high`. -/
theorem severity_validated_not_coerced (L : Lib) (E : Engine) :
    (∀ (w : World) (id : String) (oid : ObjectId) (document : Document)
        (now savedAt : Timestamp) (v : JVal) (xs : List JVal) (kvs : List (String × JVal))
        (s : String),
        L.castObjectId id = some oid → findById w.store oid = some document →
        document.isAnalyzed = false →
        parsedReply L E w.engineCalls document.content = some v →
        v.get? "suspiciousClauses" = some (.arr xs) → JVal.obj kvs ∈ xs →
        (JVal.obj kvs).get? "severity" = some (.str s) → s ∉ severityEnum →
        (analyze L E w id now savedAt).1.status = 500
          ∧ (analyze L E w id now savedAt).2.store = w.store
          ∧ (analyze L E w id now savedAt).1.body
            = .errorDetails "Failed to analyze document"
                (.validation (issuesOf L document v now))
          ∧ ((∀ x ∈ xs, (∃ kvs', x = JVal.obj kvs') ∨ (L.castClauseEntry x).isSome = true) →
              Issue.enum "analysis.suspiciousClauses.severity" ∈ issuesOf L document v now)
          ∧ ((∃ x ∈ xs, (∀ kvs', x ≠ JVal.obj kvs') ∧ L.castClauseEntry x = none) →
              Issue.cast "analysis.suspiciousClauses" ∈ issuesOf L document v now))
      ∧ (∀ w, Reachable L E w → ∀ d ∈ w.store, ∀ cs,
          d.analysis.suspiciousClauses = .val cs → ∀ c, ClauseEntry.doc c ∈ cs →
          ∀ s, c.severity = .val s → s ∈ severityEnum) := by
  constructor
  · intro w id oid document now savedAt v xs kvs s hid hfind hun hp hx hmem hsev hs
    have hi := issuesOf_ne_nil_of_severity L document v now xs kvs s hx hmem hsev hs
    obtain ⟨henum, hcast⟩ := issuesOf_of_severity L document v now xs kvs s hx hmem hsev hs
    rw [analyze_rejected L E w id oid document now savedAt v hid hfind hun hp hi]
    refine ⟨rfl, rfl, rfl, ?_, ?_⟩
    · intro hall
      exact henum (fun x hxm => (castClauseElem_isSome_iff L x).mpr (hall x hxm))
    · rintro ⟨x, hxm, hx'⟩
      exact hcast ⟨x, hxm, (castClauseElem_eq_none_iff L x).mpr hx'⟩
  · exact reachable_all L E SeverityInEnum
      (by
        intro f ft text newId now savedAt _ _ cs hcs c hc
        simp only [newDocument, defaultAnalysis] at hcs
        cases hcs
        cases hc)
      (by
        intro e v now savedAt _ hi
        exact written_severityInEnum L (hydrate e) v now savedAt hi)

set_option maxRecDepth 1000000 in
/-- C10 amended, on the sample document: the output with severity `extreme`
leaves the collection as it was and the error holds the `enum` error; the
output with that clause and the element 5, of which the sample library makes
no entry, leaves the collection as it was and the error holds the cast error
of the array; and the stored clause of the analyzed sample document has
severity `high`. -/
theorem severity_validated_not_coerced_witness :
    sampleLib.castObjectId sampleId = some 1
      ∧ findById sampleWorld.store 1 = some sampleDoc
      ∧ sampleDoc.isAnalyzed = false
      ∧ "extreme" ∉ severityEnum
      ∧ (analyze sampleLib (constEngine sampleExtremeText) sampleWorld sampleId 9 10).2.store
          = sampleWorld.store
      ∧ Issue.enum "analysis.suspiciousClauses.severity"
          ∈ issuesOf sampleLib sampleDoc sampleExtreme 9
      ∧ (analyze sampleLib (constEngine sampleExtremeAndFiveText) sampleWorld sampleId 9
          10).2.store = sampleWorld.store
      ∧ Issue.cast "analysis.suspiciousClauses"
          ∈ issuesOf sampleLib sampleDoc sampleExtremeAndFive 9
      ∧ Reachable sampleLib (constEngine sampleFullText) analyzedWorld
      ∧ "high" ∈ severityEnum :=
  have hr : Reachable sampleLib (constEngine sampleFullText) analyzedWorld :=
    ⟨sampleHistory, by decide⟩
  have h₁ := (severity_validated_not_coerced sampleLib (constEngine sampleExtremeText)).1
    sampleWorld sampleId 1 sampleDoc 9 10 sampleExtreme [extremeClause.toJson]
    [("clause", .str "c"), ("reason", .str "r"), ("severity", .str "extreme"),
      ("location", .str "l")] "extreme" (by decide) (by decide) (by decide) rfl rfl
    (List.mem_singleton.mpr rfl) rfl (by decide)
  have h₂ := (severity_validated_not_coerced sampleLib
    (constEngine sampleExtremeAndFiveText)).1
    sampleWorld sampleId 1 sampleDoc 9 10 sampleExtremeAndFive
    [extremeClause.toJson, .num (.fin 5)]
    [("clause", .str "c"), ("reason", .str "r"), ("severity", .str "extreme"),
      ("location", .str "l")] "extreme" (by decide) (by decide) (by decide) rfl rfl
    (List.mem_cons_self _ _) rfl (by decide)
  ⟨by decide, by decide, by decide, by decide, h₁.2.1,
    h₁.2.2.2.1 (fun x hx => Or.inl ⟨_, List.mem_singleton.mp hx⟩),
    h₂.2.1,
    h₂.2.2.2.2 ⟨.num (.fin 5), List.mem_cons_of_mem _ (List.mem_singleton.mpr rfl),
      ⟨fun _ h => JVal.noConfusion h, rfl⟩⟩,
    hr,
    (severity_validated_not_coerced sampleLib (constEngine sampleFullText)).2 analyzedWorld hr
      analyzedDoc (by decide) [.doc sampleClause] rfl sampleClause (by decide) "high" rfl⟩

/-! ## Lemmas on clause objects -/

theorem castClauseElem_partial (L : Lib) (c : PartialClause) :
    castClauseElem L c.toJson = some (.doc c.toStored, []) := by
  obtain ⟨cl, re, se, lo⟩ := c
  cases cl <;> cases re <;> cases se <;> cases lo <;>
    simp [castClauseElem, PartialClause.toJson, optField, castClause, JVal.get?, castStringPath,
      applySeverityDefault, PartialClause.toStored, slotOf, orCastIssue]

theorem castAll_partial (L : Lib) :
    ∀ cs : List PartialClause,
      castAll (castClauseElem L) (cs.map PartialClause.toJson)
        = some (cs.map (fun c => (ClauseEntry.doc c.toStored, ([] : List Issue))))
  | [] => rfl
  | c :: cs => by
    simp [castAll, castClauseElem_partial, castAll_partial L cs]

theorem assignClauses_partial (L : Lib) (cs : List PartialClause) :
    assignClauses L (some (.arr (cs.map PartialClause.toJson)))
      = (.val (cs.map (fun c => ClauseEntry.doc c.toStored)), []) := by
  simp [assignClauses, castClauseArrayPath, castAll_partial, Function.comp_def]

theorem clausesIssues_partial (L : Lib) (cs : List PartialClause)
    (hs : ∀ c ∈ cs, ∀ s, c.severity = some s → s ∈ severityEnum) :
    clausesIssues L (.val (cs.map (fun c => ClauseEntry.doc c.toStored))) = [] := by
  simp only [clausesIssues, List.flatMap_eq_nil_iff, List.mem_map]
  rintro e ⟨c, hc, rfl⟩
  cases hsev : c.severity with
  | none => simp [clauseEntryIssues, severityIssues, PartialClause.toStored, hsev,
      severityDefault, severityEnum]
  | some s =>
    have := hs c hc s hsev
    simp [clauseEntryIssues, severityIssues, PartialClause.toStored, hsev, this]

/-- An output is accepted when nothing but its clauses is held against it, the
clause array and the paths of its subdocuments cast, and the cast clauses pass
the `enum` validator. -/
theorem issuesOf_eq_nil_iff_clauses (L : Lib) (document : Document) (v : JVal)
    (now : Timestamp) :
    issuesOf L document v now = [] ↔
      nonClauseIssues L document v = []
        ∧ (assignClauses L (v.get? "suspiciousClauses")).2 = []
        ∧ clausesIssues L (assignClauses L (v.get? "suspiciousClauses")).1 = [] := by
  simp only [issuesOf, nonClauseIssues, assignAnalysis, validate, assigned, List.append_eq_nil]
  tauto

/-- An output whose clauses are partial clause objects with a severity that
is missing or in the enum, and against which nothing else is held, is accepted
and its clauses are stored as constructed. -/
theorem partial_clauses_accepted (L : Lib) (document : Document) (v : JVal) (now : Timestamp)
    (cs : List PartialClause)
    (hv : v.get? "suspiciousClauses" = some (.arr (cs.map PartialClause.toJson)))
    (hs : ∀ c ∈ cs, ∀ s, c.severity = some s → s ∈ severityEnum)
    (ho : nonClauseIssues L document v = []) :
    issuesOf L document v now = []
      ∧ (assignAnalysis L v now).1.suspiciousClauses
          = .val (cs.map (fun c => ClauseEntry.doc c.toStored)) := by
  have hc : assignClauses L (v.get? "suspiciousClauses")
      = (.val (cs.map (fun c => ClauseEntry.doc c.toStored)), []) := by
    rw [hv, assignClauses_partial]
  constructor
  · rw [issuesOf_eq_nil_iff_clauses, hc]
    exact ⟨ho, rfl, clausesIssues_partial L cs hs⟩
  · simp [assignAnalysis, hc]

/-- C11. On an unanalyzed document and a parsed engine output whose clauses
are clause objects, each with a severity that is missing or one of `low`,
`medium`, `high`, and against which nothing else is held, `POST /:id/analyze`
answers 200 and the stored document is analyzed with one subdocument per
clause: a clause sent without a severity is stored with severity `medium`, a
clause sent with `low`, `medium` or `high` is stored with the severity sent. -/
theorem missing_severity_stored_as_medium (L : Lib) (E : Engine) (w : World) (id : String)
    (oid : ObjectId) (document : Document) (now savedAt : Timestamp) (v : JVal)
    (cs : List PartialClause)
    (hid : L.castObjectId id = some oid) (hfind : findById w.store oid = some document)
    (hun : document.isAnalyzed = false)
    (hp : parsedReply L E w.engineCalls document.content = some v)
    (hv : v.get? "suspiciousClauses" = some (.arr (cs.map PartialClause.toJson)))
    (hs : ∀ c ∈ cs, ∀ s, c.severity = some s → s ∈ severityEnum)
    (ho : nonClauseIssues L document v = []) :
    (analyze L E w id now savedAt).1.status = 200
      ∧ ∃ d, stored (analyze L E w id now savedAt).2 oid = some d
          ∧ d.isAnalyzed = true
          ∧ d.analysis.suspiciousClauses = .val (cs.map (fun c => ClauseEntry.doc c.toStored))
          ∧ ∀ c ∈ cs, (c.severity = none → c.toStored.severity = .val "medium")
              ∧ (∀ s, c.severity = some s → c.toStored.severity = .val s) := by
  obtain ⟨hi, hcl⟩ := partial_clauses_accepted L document v now cs hv hs ho
  obtain ⟨hr, hst⟩ := analyze_accepted L E w id oid document now savedAt v hid hfind hun hp hi
  refine ⟨by rw [hr], written L document v now savedAt, hst, rfl, hcl, ?_⟩
  intro c _
  constructor
  · intro hn
    simp [PartialClause.toStored, hn, severityDefault]
  · intro s hsome
    simp [PartialClause.toStored, hsome]

set_option maxRecDepth 1000000 in
/-- C11, on the sample document and an output with one clause without a
severity and one clause with severity `low`. -/
theorem missing_severity_stored_as_medium_witness :
    sampleLib.castObjectId sampleId = some 1
      ∧ findById sampleWorld.store 1 = some sampleDoc
      ∧ sampleDoc.isAnalyzed = false
      ∧ nonClauseIssues sampleLib sampleDoc sampleMixed = []
      ∧ (stored (analyze sampleLib (constEngine sampleMixedText) sampleWorld sampleId 9 10).2
          1).map (fun d => d.analysis.suspiciousClauses)
        = some (.val [.doc ⟨.val "Renews every year", .val "Silent renewal", .val "medium",
              .val "Section 9"⟩,
            .doc ⟨.val "Notice by post", .val "Slow", .val "low", .val "Section 2"⟩])
      ∧ (analyze sampleLib (constEngine sampleMixedText) sampleWorld sampleId 9 10).1.status
          = 200 :=
  ⟨by decide, by decide, by decide, by decide, by decide,
    (missing_severity_stored_as_medium sampleLib (constEngine sampleMixedText) sampleWorld
      sampleId 1 sampleDoc 9 10 sampleMixed [renewalClause, noticeClause]
      (by decide) (by decide) (by decide) rfl rfl (by decide) (by decide)).1⟩

/-! ## Lemmas on the text cleaning -/

theorem matchFence_of_ne (c : Char) (cs : List Char) (hc : c ≠ fenceChar) :
    matchFence (c :: cs) = none := by
  have h : (fenceChar == c) = false := by simpa using fun h => hc h.symm
  simp [matchFence, fenceJson, fence, List.isPrefixOf, h]

theorem matchFence_fenceJson (xs : List Char) :
    matchFence (fenceJson ++ '\n' :: xs) = some xs := by
  simp [matchFence, fenceJson, fence, List.isPrefixOf, dropNewline]

theorem matchFence_fence_newline (xs : List Char) :
    matchFence (fence ++ '\n' :: xs) = some xs := by
  simp [matchFence, fenceJson, fence, List.isPrefixOf, dropNewline]

theorem matchFence_fence : matchFence fence = some [] := by
  simp [matchFence, fenceJson, fence, List.isPrefixOf, dropNewline]

theorem stripFencesAux_nil (n : Nat) : stripFencesAux n [] = [] := by
  cases n <;> rfl

/-- A text without the fence character is kept, and the scan goes on after it. -/
theorem stripFencesAux_append (t rest : List Char) (ht : fenceChar ∉ t) :
    ∀ n, stripFencesAux (n + t.length) (t ++ rest) = t ++ stripFencesAux n rest := by
  induction t with
  | nil => intro n; rfl
  | cons c cs ih =>
    intro n
    have hc : c ≠ fenceChar := fun h => ht (by simp [h])
    have hcs : fenceChar ∉ cs := fun h => ht (List.mem_cons_of_mem _ h)
    have hlen : n + (c :: cs).length = (n + cs.length) + 1 := by simp; omega
    rw [hlen, List.cons_append, stripFencesAux, matchFence_of_ne c _ hc]
    show c :: stripFencesAux (n + cs.length) (cs ++ rest) = c :: (cs ++ stripFencesAux n rest)
    rw [ih hcs n]

theorem isJsSpace_newline : isJsSpace '\n' = true := by decide

/-- A line feed at the end does not change what `trim()` returns. -/
theorem jsTrimChars_append_newline (t : List Char) :
    jsTrimChars (t ++ ['\n']) = jsTrimChars t := by
  unfold jsTrimChars
  by_cases hall : ∀ c ∈ t, isJsSpace c = true
  · have h1 : (t ++ ['\n']).dropWhile isJsSpace = [] := by
      rw [List.dropWhile_eq_nil_iff]
      intro c hc
      rcases List.mem_append.mp hc with h | h
      · exact hall c h
      · simp at h; subst h; exact isJsSpace_newline
    have h2 : t.dropWhile isJsSpace = [] := by
      rw [List.dropWhile_eq_nil_iff]; exact hall
    rw [h1, h2]
  · have hne : t.dropWhile isJsSpace ≠ [] := by
      intro h
      rw [List.dropWhile_eq_nil_iff] at h
      exact hall h
    have h1 : (t ++ ['\n']).dropWhile isJsSpace = t.dropWhile isJsSpace ++ ['\n'] := by
      clear hall
      induction t with
      | nil => exact absurd rfl hne
      | cons c cs ih =>
        by_cases hc : isJsSpace c = true
        · have hne2 : cs.dropWhile isJsSpace ≠ [] := by
            simpa [List.dropWhile_cons, hc] using hne
          simp only [List.cons_append, List.dropWhile_cons, hc, if_true]
          exact ih hne2
        · simp [List.dropWhile_cons, hc]
    rw [h1, List.reverse_append]
    simp [List.dropWhile_cons, isJsSpace_newline]

/-- The cleaning of a text without the fence character is its trimming. -/
theorem cleanText_plain (t : String) (ht : fenceChar ∉ t.data) : cleanText t = jsTrim t := by
  unfold cleanText jsTrim
  have h := stripFencesAux_append t.data [] ht 1
  rw [List.append_nil, stripFencesAux_nil, List.append_nil, Nat.add_comm] at h
  rw [h]

/-- The cleaning of a text wrapped between an opening fence line, either
alternative of the pattern, and a closing fence line. -/
theorem cleanText_wrapped (t : String) (ht : fenceChar ∉ t.data) :
    cleanText (String.mk fenceJson ++ "\n" ++ t ++ "\n" ++ String.mk fence) = jsTrim t
      ∧ cleanText (String.mk fence ++ "\n" ++ t ++ "\n" ++ String.mk fence) = jsTrim t := by
  have hend : ∀ k, stripFencesAux (k + 2) ('\n' :: fence) = ['\n'] := by
    intro k
    have hn : ('\n' : Char) ≠ fenceChar := by decide
    rw [stripFencesAux, matchFence_of_ne _ _ hn]
    simp only [List.cons.injEq, true_and]
    show stripFencesAux (k + 1) fence = []
    have hf : fence = fenceChar :: [fenceChar, fenceChar] := rfl
    rw [hf, stripFencesAux, ← hf, matchFence_fence]
    exact stripFencesAux_nil k
  have hbody : ∀ k, stripFencesAux (k + 2 + t.data.length) (t.data ++ '\n' :: fence)
      = t.data ++ ['\n'] := by
    intro k
    rw [stripFencesAux_append t.data _ ht (k + 2), hend]
  constructor
  · unfold cleanText jsTrim
    have hd : (String.mk fenceJson ++ "\n" ++ t ++ "\n" ++ String.mk fence).data
        = fenceJson ++ '\n' :: (t.data ++ '\n' :: fence) := by
      simp [String.data_append]
    rw [hd]
    have hl : (fenceJson ++ '\n' :: (t.data ++ '\n' :: fence)).length + 1
        = (10 + 2 + t.data.length) + 1 := by
      simp only [List.length_append, List.length_cons, fenceJson, fence, List.length_nil]
      omega
    have hj : fenceJson ++ '\n' :: (t.data ++ '\n' :: fence)
        = fenceChar :: ([fenceChar, fenceChar, 'j', 's', 'o', 'n'] ++ '\n' ::
            (t.data ++ '\n' :: fence)) := rfl
    rw [hl, hj, stripFencesAux, ← hj, matchFence_fenceJson]
    dsimp only
    rw [hbody, jsTrimChars_append_newline]
  · unfold cleanText jsTrim
    have hd : (String.mk fence ++ "\n" ++ t ++ "\n" ++ String.mk fence).data
        = fence ++ '\n' :: (t.data ++ '\n' :: fence) := by
      simp [String.data_append]
    rw [hd]
    have hl : (fence ++ '\n' :: (t.data ++ '\n' :: fence)).length + 1
        = (6 + 2 + t.data.length) + 1 := by
      simp only [List.length_append, List.length_cons, fence, List.length_nil]
      omega
    have hj : fence ++ '\n' :: (t.data ++ '\n' :: fence)
        = fenceChar :: ([fenceChar, fenceChar] ++ '\n' :: (t.data ++ '\n' :: fence)) := rfl
    rw [hl, hj, stripFencesAux, ← hj, matchFence_fence_newline]
    dsimp only
    rw [hbody, jsTrimChars_append_newline]

/-- C12. For a text `t` without the fence character, the cleaning of line 56
gives the trimmed `t` whether `t` stands alone, between an opening fence line
with the word json and a closing fence line, or between a bare opening fence
line and a closing fence line; so `JSON.parse` and `analyzeWithAI` see the
same text and return the same value for the wrapped and the plain reply. -/
theorem fence_wrapping_is_transparent (L : Lib) (t : String) (ht : fenceChar ∉ t.data) :
    cleanText t = jsTrim t
      ∧ cleanText (wrapJsonFence t) = jsTrim t
      ∧ cleanText (wrapBareFence t) = jsTrim t
      ∧ (∀ n content, parsedReply L (constEngine (wrapJsonFence t)) n content
          = parsedReply L (constEngine t) n content)
      ∧ (∀ n content, parsedReply L (constEngine (wrapBareFence t)) n content
          = parsedReply L (constEngine t) n content) := by
  have hp := cleanText_plain t ht
  obtain ⟨hj, hb⟩ := cleanText_wrapped t ht
  refine ⟨hp, hj, hb, ?_, ?_⟩
  · intro n content
    simp only [parsedReply, constEngine, wrapJsonFence, hj, hp]
  · intro n content
    simp only [parsedReply, constEngine, wrapBareFence, hb, hp]

set_option maxRecDepth 1000000 in
/-- C12, on the text of the full sample output, which is surrounded by white
space here. -/
theorem fence_wrapping_is_transparent_witness :
    fenceChar ∉ ("  " ++ sampleFullJson ++ "\n").data
      ∧ cleanText (wrapJsonFence ("  " ++ sampleFullJson ++ "\n")) = sampleFullJson
      ∧ cleanText (wrapJsonFence ("  " ++ sampleFullJson ++ "\n"))
          = jsTrim ("  " ++ sampleFullJson ++ "\n") :=
  ⟨by decide, by decide,
    (fence_wrapping_is_transparent sampleLib ("  " ++ sampleFullJson ++ "\n")
      (by decide)).2.1⟩

set_option maxRecDepth 1000000 in
/-- C13 as stated fails: for the engine output that holds `riskScore` 35 and
nothing else, `POST /:id/analyze` on the unanalyzed sample document answers
200, but the stored analysis has no summary (it is not the empty string) and
no arrays; when the document is loaded again the summary is still absent. -/
theorem missing_fields_counterexample :
    parsedReply sampleLib (constEngine sampleScoreOnlyText) 0 sampleDoc.content
        = some sampleScoreOnly
      ∧ (analyze sampleLib (constEngine sampleScoreOnlyText) sampleWorld sampleId 9 10).1.status
          = 200
      ∧ (stored (analyze sampleLib (constEngine sampleScoreOnlyText) sampleWorld sampleId 9
          10).2 1).map (fun d => d.analysis)
        = some (scoreOnlyAnalysis 35 9)
      ∧ (scoreOnlyAnalysis 35 9).summary = .absent
      ∧ (findById (analyze sampleLib (constEngine sampleScoreOnlyText) sampleWorld sampleId 9
          10).2.store 1).map (fun d => d.analysis.summary) = some .absent :=
  ⟨rfl, by decide, by decide, rfl, by decide⟩

/-- C13, amended. On an unanalyzed document with its required fields and a
parsed engine output that holds a `riskScore` number `r` with `0 ≤ r ≤ 100`
and none of `summary`, `suspiciousClauses`, `keyTerms`, `recommendations`,
`POST /:id/analyze` answers 200 and the document is stored as analyzed with
`riskScore` `r`, the date of the call, and the four other paths absent. When
it is loaded again the three arrays are empty and the summary is absent. -/
theorem missing_fields_stored_absent (L : Lib) (E : Engine) (w : World) (id : String)
    (oid : ObjectId) (document : Document) (now savedAt : Timestamp) (v : JVal) (r : ℚ)
    (hid : L.castObjectId id = some oid) (hfind : findById w.store oid = some document)
    (hun : document.isAnalyzed = false)
    (hp : parsedReply L E w.engineCalls document.content = some v)
    (hreq : document.filename ≠ "" ∧ document.originalName ≠ "" ∧ document.content ≠ "")
    (hr : v.get? "riskScore" = some (.num (.fin r))) (h0 : 0 ≤ r) (h100 : r ≤ 100)
    (hsum : v.get? "summary" = none) (hcl : v.get? "suspiciousClauses" = none)
    (hkt : v.get? "keyTerms" = none) (hrec : v.get? "recommendations" = none) :
    (analyze L E w id now savedAt).1.status = 200
      ∧ ∃ d, stored (analyze L E w id now savedAt).2 oid = some d
          ∧ d.isAnalyzed = true
          ∧ d.analysis = scoreOnlyAnalysis r now
          ∧ d.analysis.summary = .absent ∧ d.analysis.suspiciousClauses = .absent
          ∧ d.analysis.keyTerms = .absent ∧ d.analysis.recommendations = .absent
          ∧ d.analysis.riskScore = .val (.fin r)
          ∧ (hydrate d).analysis = scoreOnlyLoaded r now
          ∧ (hydrate d).analysis.summary = .absent
          ∧ (hydrate d).analysis.suspiciousClauses = .val []
          ∧ (hydrate d).analysis.keyTerms = .val []
          ∧ (hydrate d).analysis.recommendations = .val [] := by
  have ha : (assignAnalysis L v now).1 = scoreOnlyAnalysis r now := by
    simp [scoreOnlyAnalysis, assignAnalysis, hr, hsum, hcl, hkt, hrec, castStringPath,
      castClauseArrayPath, assignClauses, castStringArrayPath, castNumberPath, orCastIssue]
  have hi : issuesOf L document v now = [] := by
    rw [issuesOf_eq_nil_iff]
    simp [otherIssues, hr, hsum, hcl, hkt, hrec, castStringPath,
      castClauseArrayPath, assignClauses, castStringArrayPath, castNumberPath, orCastIssue, requiredIssues, hreq.1, hreq.2.1,
      hreq.2.2, clausesIssues, riskScoreIssues, riskScoreMin, riskScoreMax, not_lt.mpr h0,
      not_lt.mpr h100]
  obtain ⟨hres, hst⟩ := analyze_accepted L E w id oid document now savedAt v hid hfind hun hp hi
  have hd : (written L document v now savedAt).analysis = scoreOnlyAnalysis r now := ha
  have hl : (hydrate (written L document v now savedAt)).analysis = scoreOnlyLoaded r now := by
    show hydrateAnalysis (written L document v now savedAt).analysis = _
    rw [hd]
    rfl
  refine ⟨by rw [hres], written L document v now savedAt, hst, rfl, hd, ?_, ?_, ?_, ?_, ?_, hl,
    ?_, ?_, ?_, ?_⟩
  all_goals first
    | (rw [hd]; rfl)
    | (rw [hl]; rfl)

set_option maxRecDepth 1000000 in
/-- C13 amended, on the sample document and the output that holds `riskScore`
35 only. -/
theorem missing_fields_stored_absent_witness :
    sampleLib.castObjectId sampleId = some 1
      ∧ findById sampleWorld.store 1 = some sampleDoc
      ∧ sampleDoc.isAnalyzed = false
      ∧ (sampleDoc.filename ≠ "" ∧ sampleDoc.originalName ≠ "" ∧ sampleDoc.content ≠ "")
      ∧ (analyze sampleLib (constEngine sampleScoreOnlyText) sampleWorld sampleId 9 10).1.status
          = 200 :=
  ⟨by decide, by decide, by decide, by decide,
    (missing_fields_stored_absent sampleLib (constEngine sampleScoreOnlyText) sampleWorld
      sampleId 1 sampleDoc 9 10 sampleScoreOnly 35 (by decide) (by decide) (by decide) rfl
      (by decide) rfl (by norm_num) (by norm_num) rfl rfl rfl rfl).1⟩

/-- C15 as stated fails: on the unanalyzed sample document, the answer when
the engine call throws and the answer when the engine replies with a text that
does not parse are the same response. -/
theorem failure_kinds_counterexample :
    sampleLib.jsonParse (cleanText "Sorry, I cannot do that.") = none
      ∧ (analyze sampleLib (fun _ _ => .throws) sampleWorld sampleId 9 10).1
        = (analyze sampleLib (constEngine "Sorry, I cannot do that.") sampleWorld sampleId 9
            10).1 := by
  refine ⟨rfl, ?_⟩
  decide

/-- C15, amended. On an unanalyzed document, `POST /:id/analyze` reports a
thrown engine call and a reply that does not parse in the same way: status
500, error `Failed to analyze document`, details `Failed to analyze document
with AI`. Only an output rejected by `save()` is reported differently, with
the validation error as details. -/
theorem engine_and_parse_failures_coincide (L : Lib) (E₁ E₂ E₃ : Engine) (w : World)
    (id : String) (oid : ObjectId) (document : Document) (now savedAt : Timestamp)
    (t : String) (v : JVal)
    (hid : L.castObjectId id = some oid) (hfind : findById w.store oid = some document)
    (hun : document.isAnalyzed = false)
    (h₁ : E₁ w.engineCalls document.content = .throws)
    (h₂ : E₂ w.engineCalls document.content = .text t) (hparse : L.jsonParse (cleanText t) = none)
    (h₃ : parsedReply L E₃ w.engineCalls document.content = some v)
    (hrej : issuesOf L document v now ≠ []) :
    (analyze L E₁ w id now savedAt).1
        = ⟨500, .errorDetails "Failed to analyze document"
            (.message "Failed to analyze document with AI")⟩
      ∧ (analyze L E₂ w id now savedAt).1 = (analyze L E₁ w id now savedAt).1
      ∧ (analyze L E₃ w id now savedAt).1
        = ⟨500, .errorDetails "Failed to analyze document"
            (.validation (issuesOf L document v now))⟩
      ∧ (analyze L E₃ w id now savedAt).1 ≠ (analyze L E₁ w id now savedAt).1 := by
  have hp₁ : parsedReply L E₁ w.engineCalls document.content = none := by
    simp [parsedReply, h₁]
  have hp₂ : parsedReply L E₂ w.engineCalls document.content = none := by
    simp [parsedReply, h₂, hparse]
  have r₁ := analyze_unanalyzed L E₁ w id oid document now savedAt hid hfind hun
  have r₂ := analyze_unanalyzed L E₂ w id oid document now savedAt hid hfind hun
  rw [runAnalysis_unparsed L E₁ w document now savedAt _ _ hp₁] at r₁
  rw [runAnalysis_unparsed L E₂ w document now savedAt _ _ hp₂] at r₂
  have r₃ := analyze_rejected L E₃ w id oid document now savedAt v hid hfind hun h₃ hrej
  rw [r₁, r₂, r₃]
  refine ⟨rfl, rfl, rfl, ?_⟩
  simp

set_option maxRecDepth 1000000 in
/-- C15 amended, on the sample document: a throwing engine, a reply that does
not parse, and the reply with `riskScore` 150. -/
theorem engine_and_parse_failures_coincide_witness :
    sampleLib.castObjectId sampleId = some 1
      ∧ findById sampleWorld.store 1 = some sampleDoc
      ∧ sampleDoc.isAnalyzed = false
      ∧ issuesOf sampleLib sampleDoc sampleTooHigh 9 ≠ []
      ∧ (analyze sampleLib (constEngine "Sorry, I cannot do that.") sampleWorld sampleId 9
          10).1
        = (analyze sampleLib (fun _ _ => .throws) sampleWorld sampleId 9 10).1 :=
  ⟨by decide, by decide, by decide, by decide,
    (engine_and_parse_failures_coincide sampleLib (fun _ _ => .throws)
      (constEngine "Sorry, I cannot do that.") (constEngine sampleTooHighText) sampleWorld
      sampleId 1 sampleDoc 9 10 "Sorry, I cannot do that." sampleTooHigh (by decide) (by decide)
      (by decide) rfl rfl rfl rfl (by decide)).2.1⟩

set_option maxRecDepth 1000000 in
/-- C14 as stated fails: after the sample file is uploaded and analyzed by an
engine whose only clause has no `clause` key and an empty `reason`, the state
is reachable and the stored clause has no clause text and the empty string as
reason: the element was stored as given. -/
theorem clause_text_counterexample :
    parsedReply sampleLib (constEngine sampleBareText) 0 sampleDoc.content = some sampleBare
      ∧ Reachable sampleLib (constEngine sampleBareText)
          (run sampleLib (constEngine sampleBareText) World.empty sampleHistory)
      ∧ (run sampleLib (constEngine sampleBareText) World.empty sampleHistory).store.map
          (fun d => d.analysis.suspiciousClauses)
        = [.val [.doc ⟨.absent, .val "", .val "high", .absent⟩]] :=
  ⟨rfl, ⟨sampleHistory, rfl⟩, by decide⟩

/-- C14, amended. The schema puts no condition on `clause` and `reason`. On an
unanalyzed document and a parsed engine output whose clauses are clause
objects with a severity that is missing or in the enum, and against which
nothing else is held, `POST /:id/analyze` answers 200 and every clause is
stored as it was sent: a missing `clause` or `reason` is stored as absent, an
empty one as the empty string, any other string as itself. -/
theorem clause_and_reason_stored_as_sent (L : Lib) (E : Engine) (w : World) (id : String)
    (oid : ObjectId) (document : Document) (now savedAt : Timestamp) (v : JVal)
    (cs : List PartialClause)
    (hid : L.castObjectId id = some oid) (hfind : findById w.store oid = some document)
    (hun : document.isAnalyzed = false)
    (hp : parsedReply L E w.engineCalls document.content = some v)
    (hv : v.get? "suspiciousClauses" = some (.arr (cs.map PartialClause.toJson)))
    (hs : ∀ c ∈ cs, ∀ s, c.severity = some s → s ∈ severityEnum)
    (ho : nonClauseIssues L document v = []) :
    (analyze L E w id now savedAt).1.status = 200
      ∧ ∃ d, stored (analyze L E w id now savedAt).2 oid = some d
          ∧ d.analysis.suspiciousClauses = .val (cs.map (fun c => ClauseEntry.doc c.toStored))
          ∧ ∀ c ∈ cs,
              (c.clause = none → c.toStored.clause = .absent)
                ∧ (c.reason = none → c.toStored.reason = .absent)
                ∧ (∀ s, c.clause = some s → c.toStored.clause = .val s)
                ∧ (∀ s, c.reason = some s → c.toStored.reason = .val s) := by
  obtain ⟨hi, hcl⟩ := partial_clauses_accepted L document v now cs hv hs ho
  obtain ⟨hr, hst⟩ := analyze_accepted L E w id oid document now savedAt v hid hfind hun hp hi
  refine ⟨by rw [hr], written L document v now savedAt, hst, hcl, ?_⟩
  intro c _
  refine ⟨?_, ?_, ?_, ?_⟩
  · intro h; simp [PartialClause.toStored, h, slotOf]
  · intro h; simp [PartialClause.toStored, h, slotOf]
  · intro s h; simp [PartialClause.toStored, h, slotOf]
  · intro s h; simp [PartialClause.toStored, h, slotOf]

set_option maxRecDepth 1000000 in
/-- C14 amended, on the sample document and the output whose clause has no
`clause` key and an empty `reason`. -/
theorem clause_and_reason_stored_as_sent_witness :
    sampleLib.castObjectId sampleId = some 1
      ∧ findById sampleWorld.store 1 = some sampleDoc
      ∧ sampleDoc.isAnalyzed = false
      ∧ nonClauseIssues sampleLib sampleDoc sampleBare = []
      ∧ bareClause.toStored = ⟨.absent, .val "", .val "high", .absent⟩
      ∧ (analyze sampleLib (constEngine sampleBareText) sampleWorld sampleId 9 10).1.status
          = 200 :=
  ⟨by decide, by decide, by decide, by decide, by decide,
    (clause_and_reason_stored_as_sent sampleLib (constEngine sampleBareText) sampleWorld
      sampleId 1 sampleDoc 9 10 sampleBare [bareClause]
      (by decide) (by decide) (by decide) rfl rfl (by decide) (by decide)).1⟩

/-! ## Lemmas on the statistics -/

theorem matchAnalyzed_idem (store : List Document) :
    matchAnalyzed (matchAnalyzed store) = matchAnalyzed store := by
  simp [matchAnalyzed, List.filter_filter]

theorem foldl_max_fin :
    ∀ (qs : List ℚ) (q : ℚ), ∃ M, (qs.map JNum.fin).foldl JNum.max (.fin q) = .fin M
      ∧ M ∈ q :: qs ∧ ∀ x ∈ q :: qs, x ≤ M
  | [], q => ⟨q, rfl, by simp, by simp⟩
  | a :: rest, q => by
    have hstep : JNum.max (.fin q) (.fin a) = .fin (max q a) := by
      by_cases h : q ≤ a
      · simp [JNum.max, JNum.le, h, max_eq_right h]
      · simp [JNum.max, JNum.le, h, max_eq_left (le_of_not_le h)]
    obtain ⟨M, hM, hmem, hle⟩ := foldl_max_fin rest (max q a)
    refine ⟨M, ?_, ?_, ?_⟩
    · simp only [List.map_cons, List.foldl_cons, hstep]
      exact hM
    · rcases List.mem_cons.mp hmem with h | h
      · rcases max_choice q a with h2 | h2
        · rw [h, h2]; simp
        · rw [h, h2]; simp
      · simp [h]
    · intro x hx
      have hmax := hle (max q a) (List.mem_cons_self _ _)
      rcases List.mem_cons.mp hx with h | h
      · rw [h]; exact le_trans (le_max_left q a) hmax
      · rcases List.mem_cons.mp h with h | h
        · rw [h]; exact le_trans (le_max_right q a) hmax
        · exact hle x (List.mem_cons_of_mem _ h)

theorem foldl_min_fin :
    ∀ (qs : List ℚ) (q : ℚ), ∃ m, (qs.map JNum.fin).foldl JNum.min (.fin q) = .fin m
      ∧ m ∈ q :: qs ∧ ∀ x ∈ q :: qs, m ≤ x
  | [], q => ⟨q, rfl, by simp, by simp⟩
  | a :: rest, q => by
    have hstep : JNum.min (.fin q) (.fin a) = .fin (min q a) := by
      by_cases h : q ≤ a
      · simp [JNum.min, JNum.le, h, min_eq_left h]
      · simp [JNum.min, JNum.le, h, min_eq_right (le_of_not_le h)]
    obtain ⟨m, hm, hmem, hle⟩ := foldl_min_fin rest (min q a)
    refine ⟨m, ?_, ?_, ?_⟩
    · simp only [List.map_cons, List.foldl_cons, hstep]
      exact hm
    · rcases List.mem_cons.mp hmem with h | h
      · rcases min_choice q a with h2 | h2
        · rw [h, h2]; simp
        · rw [h, h2]; simp
      · simp [h]
    · intro x hx
      have hmin := hle (min q a) (List.mem_cons_self _ _)
      rcases List.mem_cons.mp hx with h | h
      · rw [h]; exact le_trans hmin (min_le_left q a)
      · rcases List.mem_cons.mp h with h | h
        · rw [h]; exact le_trans hmin (min_le_right q a)
        · exact hle x (List.mem_cons_of_mem _ h)

theorem avgAcc_of_ne_nil (L : Lib) (ns : List JNum) (hne : ns ≠ []) :
    avgAcc L ns = L.average ns := by
  cases ns with
  | nil => exact absurd rfl hne
  | cons n rest => rfl

theorem maxAcc_fin (qs : List ℚ) (hne : qs ≠ []) :
    ∃ M, maxAcc (qs.map JNum.fin) = .num (.fin M) ∧ M ∈ qs ∧ ∀ x ∈ qs, x ≤ M := by
  cases qs with
  | nil => exact absurd rfl hne
  | cons q rest =>
    obtain ⟨M, hM, hmem, hle⟩ := foldl_max_fin rest q
    exact ⟨M, by simp only [List.map_cons, maxAcc, hM], hmem, hle⟩

theorem minAcc_fin (qs : List ℚ) (hne : qs ≠ []) :
    ∃ m, minAcc (qs.map JNum.fin) = .num (.fin m) ∧ m ∈ qs ∧ ∀ x ∈ qs, m ≤ x := by
  cases qs with
  | nil => exact absurd rfl hne
  | cons q rest =>
    obtain ⟨m, hm, hmem, hle⟩ := foldl_min_fin rest q
    exact ⟨m, by simp only [List.map_cons, minAcc, hm], hmem, hle⟩

theorem riskStatistics_of_matched (L : Lib) (store : List Document)
    (h : matchAnalyzed store ≠ []) :
    riskStatistics L store =
      { groupId := true, avgRiskScore := avgAcc L (riskScores (matchAnalyzed store)),
        maxRiskScore := maxAcc (riskScores (matchAnalyzed store)),
        minRiskScore := minAcc (riskScores (matchAnalyzed store)) } := by
  unfold riskStatistics
  cases hm : matchAnalyzed store with
  | nil => exact absurd hm h
  | cons d ds => rfl

theorem length_filter_not_add (p : Document → Bool) :
    ∀ l : List Document,
      (l.filter (fun d => !p d)).length + (l.filter p).length = l.length
  | [] => rfl
  | d :: l => by
    have ih := length_filter_not_add p l
    cases hp : p d <;> simp [List.filter_cons, hp] <;> omega

/-- C16. In every state `GET /stats/overview` answers 200 with
`totalDocuments` the number of documents, `analyzedDocuments` the number of
documents with `isAnalyzed = true`, and `pendingAnalysis` their difference,
which is the number of unanalyzed documents; so
`0 ≤ analyzedDocuments ≤ totalDocuments`. -/
theorem overview_counts (L : Lib) (w : World) :
    ∃ o, statsOverview L w = ⟨200, .overview o⟩
      ∧ o.totalDocuments = w.store.length
      ∧ o.analyzedDocuments = (w.store.filter (fun d => d.isAnalyzed)).length
      ∧ o.pendingAnalysis = (o.totalDocuments : Int) - (o.analyzedDocuments : Int)
      ∧ o.pendingAnalysis = ((w.store.filter (fun d => !d.isAnalyzed)).length : Int)
      ∧ 0 ≤ o.analyzedDocuments ∧ o.analyzedDocuments ≤ o.totalDocuments := by
  refine ⟨_, rfl, ?_, ?_, rfl, ?_, Nat.zero_le _, ?_⟩
  · simp [countDocuments]
  · simp [countDocuments, List.countP_eq_length_filter]
  · have h := length_filter_not_add (fun d => d.isAnalyzed) w.store
    simp only [countDocuments, List.countP_true]
    simp only [List.countP_eq_length_filter]
    omega
  · simp only [countDocuments, List.countP_true]
    exact List.countP_le_length _

/-- What `GET /stats/overview` answers as `riskStatistics`. It is computed
from the documents with `isAnalyzed = true` alone. When there is none, the
three statistics are the zeros of line 199. When the risk scores stored in
them are the finite numbers `qs`, at least one, the average is what the
database computes for `qs` and the maximum and minimum are the greatest and
the smallest element of `qs`. When documents are analyzed and none stores a
number as risk score, the three statistics are `null`. -/
theorem riskStatistics_cases (L : Lib) (w : World) :
    (∃ o, statsOverview L w = ⟨200, .overview o⟩
        ∧ o.riskStatistics = riskStatistics L w.store)
      ∧ riskStatistics L w.store = riskStatistics L (matchAnalyzed w.store)
      ∧ (matchAnalyzed w.store = [] →
          riskStatistics L w.store
            = { groupId := false, avgRiskScore := .num (.fin 0), maxRiskScore := .num (.fin 0),
                minRiskScore := .num (.fin 0) })
      ∧ (∀ qs : List ℚ, qs ≠ [] → riskScores (matchAnalyzed w.store) = qs.map JNum.fin →
          (riskStatistics L w.store).avgRiskScore = L.average (qs.map JNum.fin)
            ∧ ∃ M m, (riskStatistics L w.store).maxRiskScore = .num (.fin M)
                ∧ (riskStatistics L w.store).minRiskScore = .num (.fin m)
                ∧ M ∈ qs ∧ m ∈ qs ∧ ∀ q ∈ qs, m ≤ q ∧ q ≤ M)
      ∧ (matchAnalyzed w.store ≠ [] → riskScores (matchAnalyzed w.store) = [] →
          riskStatistics L w.store
            = { groupId := true, avgRiskScore := .null, maxRiskScore := .null,
                minRiskScore := .null }) := by
  refine ⟨⟨_, rfl, rfl⟩, ?_, ?_, ?_, ?_⟩
  · unfold riskStatistics
    rw [matchAnalyzed_idem]
  · intro h
    unfold riskStatistics
    rw [h]
  · intro qs hne hqs
    have hm : matchAnalyzed w.store ≠ [] := by
      intro h
      rw [h] at hqs
      cases qs with
      | nil => exact hne rfl
      | cons q rest => simp [riskScores] at hqs
    rw [riskStatistics_of_matched L w.store hm, hqs]
    obtain ⟨M, hM, hMmem, hMle⟩ := maxAcc_fin qs hne
    obtain ⟨m, hmn, hmmem, hmle⟩ := minAcc_fin qs hne
    exact ⟨avgAcc_of_ne_nil L _ (by simpa using hne), M, m, hM, hmn, hMmem, hmmem,
      fun q hq => ⟨hmle q hq, hMle q hq⟩⟩
  · intro hm hs
    rw [riskStatistics_of_matched L w.store hm, hs]
    rfl

set_option maxRecDepth 1000000 in
/-- The example of the specification: of three documents two are analyzed,
with the risk scores 20 and 80; the average is 50, the maximum 80, the
minimum 20, and one document is pending. -/
theorem riskStatistics_statsWorld :
    riskScores (matchAnalyzed statsWorld.store) = [20, 80].map JNum.fin
      ∧ statsWorld.store.length = 3
      ∧ (riskStatistics sampleLib statsWorld.store).avgRiskScore = .num (.fin 50)
      ∧ (riskStatistics sampleLib statsWorld.store).maxRiskScore = .num (.fin 80)
      ∧ (riskStatistics sampleLib statsWorld.store).minRiskScore = .num (.fin 20)
      ∧ (∃ o, statsOverview sampleLib statsWorld = ⟨200, .overview o⟩
          ∧ o.pendingAnalysis = 1) := by
  have h := ((riskStatistics_cases sampleLib statsWorld).2.2.2.1 [20, 80] (by simp)
    (by decide)).1
  refine ⟨by decide, by decide, ?_, by decide, by decide, ⟨_, rfl, by decide⟩⟩
  rw [h]
  simp only [sampleLib, exactMean, List.map_cons, List.map_nil, JNum.toRat]
  norm_num
  decide

set_option maxRecDepth 1000000 in
/-- C17 fails on the code. After the sample file is uploaded and analyzed by
an engine whose output has no `riskScore`, the one document is analyzed and
is read with the risk score 0, the default of the schema; the stored document
holds no `riskScore`, the accumulators of lines 177-179 skip it, and
`GET /stats/overview` answers the three statistics as `null`, whatever the
database computes as an average, where the mean, the maximum and the minimum
of the risk score of the analyzed document are 0. -/
theorem risk_statistics_null_for_defaulted_score :
    Reachable sampleLib (constEngine sampleNoScoreText)
        (run sampleLib (constEngine sampleNoScoreText) World.empty sampleHistory)
      ∧ (run sampleLib (constEngine sampleNoScoreText) World.empty sampleHistory).store.map
          (fun d => d.isAnalyzed) = [true]
      ∧ (findById (run sampleLib (constEngine sampleNoScoreText) World.empty
            sampleHistory).store 1).map (fun d => d.analysis.riskScore)
          = some (.val (.fin 0))
      ∧ ∀ L : Lib,
          statsOverview L
              (run sampleLib (constEngine sampleNoScoreText) World.empty sampleHistory)
            = ⟨200, .overview
                { totalDocuments := 1, analyzedDocuments := 1, pendingAnalysis := 0,
                  riskStatistics :=
                    { groupId := true, avgRiskScore := .null, maxRiskScore := .null,
                      minRiskScore := .null },
                  suspiciousClausesBySeverity := [("low", 0), ("medium", 0), ("high", 0)] }⟩ :=
  ⟨⟨sampleHistory, rfl⟩, by decide, by decide, fun _ => rfl⟩

theorem find_map_setKey (key k : String) (n : Nat) :
    ∀ acc : List (String × Nat),
      ((acc.map (fun p => if p.1 == key then (key, n) else p)).find?
          (fun p => p.1 == k)).map Prod.snd
        = if k = key then (if acc.any (fun p => p.1 == key) then some n else none)
          else (acc.find? (fun p => p.1 == k)).map Prod.snd
  | [] => by by_cases hk : k = key <;> simp [hk]
  | p :: rest => by
    have ih := find_map_setKey key k n rest
    by_cases hp : p.1 = key
    · by_cases hk : k = key
      · simp [List.find?_cons, hp, hk]
      · have hne : ¬ key = k := fun h => hk h.symm
        have hpk : ¬ p.1 = k := fun h => hk (h.symm.trans hp)
        rw [if_neg hk] at ih ⊢
        simp only [List.map_cons, List.find?_cons, hp, beq_self_eq_true, if_true]
        have h1 : (key == k) = false := by simpa using hne
        have h2 : (p.1 == k) = false := by simpa using hpk
        rw [h1]
        rw [hp] at h2
        simp only [h2]
        exact ih
    · have hpb : (p.1 == key) = false := by simpa using hp
      simp only [List.map_cons, List.find?_cons, hpb, List.any_cons, Bool.false_or]
      by_cases hpk : p.1 = k
      · have hk : ¬ k = key := fun h => hp (hpk.trans h)
        have h2 : (p.1 == k) = true := by simpa using hpk
        simp [h2, hk]
      · have h2 : (p.1 == k) = false := by simpa using hpk
        simp only [h2, Bool.false_eq_true, if_false]
        exact ih

theorem getKey_setKey (acc : List (String × Nat)) (key k : String) (n : Nat) :
    getKey (setKey acc key n) k = if k = key then some n else getKey acc k := by
  unfold setKey getKey
  by_cases hany : acc.any (fun p => p.1 == key) = true
  · rw [if_pos hany, find_map_setKey, hany]
    simp
  · rw [if_neg hany]
    have hnone : ∀ p ∈ acc, ¬ p.1 = key := by
      intro p hp h
      exact hany (List.any_eq_true.mpr ⟨p, hp, by simpa using h⟩)
    by_cases hk : k = key
    · subst hk
      have hf : acc.find? (fun p => p.1 == k) = none := by
        rw [List.find?_eq_none]
        intro p hp
        simpa using hnone p hp
      simp [List.find?_append, hf]
    · have hne : ¬ key = k := fun h => hk h.symm
      rw [if_neg hk, List.find?_append]
      cases acc.find? (fun p => p.1 == k) with
      | none => simp [hne]
      | some x => simp

/-- Items whose property name is not `k` leave `acc[k]` as it is. -/
theorem getKey_foldl_of_not_mem (k : String) :
    ∀ (gs : List (Option String × Nat)) (acc : List (String × Nat)),
      (∀ g ∈ gs, propertyName g.1 ≠ k) →
      getKey (gs.foldl (fun acc item => setKey acc (propertyName item.1) item.2) acc) k
        = getKey acc k
  | [], _, _ => rfl
  | g :: gs, acc, h => by
    rw [List.foldl_cons, getKey_foldl_of_not_mem k gs _ (fun x hx => h x (List.mem_cons_of_mem _ hx)),
      getKey_setKey, if_neg (fun hk => h g (List.mem_cons_self _ _) hk.symm)]

/-- With distinct group keys, the item of the key `k` decides `acc[k]` when no
other key has the property name `k`. -/
theorem getKey_foldl_of_mem (k : String) (n : Nat)
    (hname : ∀ o : Option String, propertyName o = k → o = some k) :
    ∀ (gs : List (Option String × Nat)) (acc : List (String × Nat)),
      (gs.map Prod.fst).Nodup → (some k, n) ∈ gs →
      getKey (gs.foldl (fun acc item => setKey acc (propertyName item.1) item.2) acc) k = some n
  | [], _, _, h => by cases h
  | g :: gs, acc, hnd, hmem => by
    rw [List.map_cons, List.nodup_cons] at hnd
    rw [List.foldl_cons]
    rcases List.mem_cons.mp hmem with h | h
    · subst h
      have hrest : ∀ x ∈ gs, propertyName x.1 ≠ k := by
        intro x hx hpn
        have := hname x.1 hpn
        exact hnd.1 (List.mem_map.mpr ⟨x, hx, this⟩)
      rw [getKey_foldl_of_not_mem k gs _ hrest, getKey_setKey]
      simp [propertyName]
    · exact getKey_foldl_of_mem k n hname gs _ hnd.2 h

/-- The counter of a key of the initial object that is no other key's
property name: the number of unwound elements with that severity. -/
theorem getKey_bySeverity (store : List Document) (k : String)
    (hname : ∀ o : Option String, propertyName o = k → o = some k)
    (hinit : getKey [("low", 0), ("medium", 0), ("high", 0)] k = some 0) :
    getKey (suspiciousClausesBySeverity store) k
      = some ((unwound store).countP (fun e => severityKey e == some k)) := by
  have hcount : (unwoundSeverities store).count (some k)
      = (unwound store).countP (fun e => severityKey e == some k) := by
    simp only [unwoundSeverities, List.count, List.countP_map]
    rfl
  unfold suspiciousClausesBySeverity groupBySeverity
  by_cases hmem : some k ∈ unwoundSeverities store
  · have hg : (some k, (unwoundSeverities store).count (some k))
        ∈ (unwoundSeverities store).dedup.map
            (fun key => (key, (unwoundSeverities store).count key)) :=
      List.mem_map.mpr ⟨some k, List.mem_dedup.mpr hmem, rfl⟩
    have hnd : (((unwoundSeverities store).dedup.map
        (fun key => (key, (unwoundSeverities store).count key))).map Prod.fst).Nodup := by
      rw [List.map_map]
      have : (Prod.fst ∘ fun key => (key, (unwoundSeverities store).count key))
          = (id : Option String → Option String) := rfl
      rw [this, List.map_id]
      exact List.nodup_dedup _
    rw [getKey_foldl_of_mem k _ hname _ _ hnd hg, hcount]
  · have hnone : ∀ g ∈ (unwoundSeverities store).dedup.map
        (fun key => (key, (unwoundSeverities store).count key)), propertyName g.1 ≠ k := by
      intro g hg hpn
      obtain ⟨key, hkey, rfl⟩ := List.mem_map.mp hg
      have := hname key hpn
      exact hmem (this ▸ List.mem_dedup.mp hkey)
    rw [getKey_foldl_of_not_mem k _ _ hnone, hinit, ← hcount, List.count_eq_zero_of_not_mem hmem]

theorem severityKey_beq_iff (k : String) (e : ClauseEntry) :
    (severityKey e == some k) = hasSeverity k e := by
  cases e with
  | other => rfl
  | doc c =>
    cases hs : c.severity with
    | absent => simp [severityKey, hasSeverity, hs]
    | null => simp [severityKey, hasSeverity, hs]
    | val s =>
      simp only [severityKey, hasSeverity, hs]
      by_cases h : s = k <;> simp [h]

theorem countP_severityKey (k : String) (es : List ClauseEntry) :
    es.countP (fun e => severityKey e == some k) = es.countP (hasSeverity k) := by
  congr 1
  funext e
  exact severityKey_beq_iff k e

/-- C18. In every state the `suspiciousClausesBySeverity` of
`GET /stats/overview` has the keys `low`, `medium` and `high`, each with the
number of clause subdocuments of that severity among the clause elements of
the analyzed documents, 0 when there is none; the clause elements come from
the documents with `isAnalyzed = true` only. -/
theorem severity_histogram_complete (L : Lib) (w : World) :
    ∃ o, statsOverview L w = ⟨200, .overview o⟩
      ∧ getKey o.suspiciousClausesBySeverity "low"
          = some ((unwound w.store).countP (hasSeverity "low"))
      ∧ getKey o.suspiciousClausesBySeverity "medium"
          = some ((unwound w.store).countP (hasSeverity "medium"))
      ∧ getKey o.suspiciousClausesBySeverity "high"
          = some ((unwound w.store).countP (hasSeverity "high"))
      ∧ unwound w.store = (w.store.filter (fun d => d.isAnalyzed)).flatMap clauseEntries
      ∧ o.suspiciousClausesBySeverity = suspiciousClausesBySeverity (matchAnalyzed w.store) := by
  have hname : ∀ k : String, k ≠ "null" →
      ∀ o : Option String, propertyName o = k → o = some k := by
    intro k hk o ho
    cases o with
    | none => exact absurd ho.symm hk
    | some s => simpa [propertyName] using ho
  refine ⟨_, rfl, ?_, ?_, ?_, rfl, ?_⟩
  · show getKey (suspiciousClausesBySeverity w.store) "low" = _
    rw [getKey_bySeverity w.store "low" (hname "low" (by decide)) (by decide),
      countP_severityKey]
  · show getKey (suspiciousClausesBySeverity w.store) "medium" = _
    rw [getKey_bySeverity w.store "medium" (hname "medium" (by decide)) (by decide),
      countP_severityKey]
  · show getKey (suspiciousClausesBySeverity w.store) "high" = _
    rw [getKey_bySeverity w.store "high" (hname "high" (by decide)) (by decide),
      countP_severityKey]
  · show suspiciousClausesBySeverity w.store = _
    simp only [suspiciousClausesBySeverity, unwoundSeverities, unwound, matchAnalyzed_idem]

set_option maxRecDepth 1000000 in
/-- C18, on three documents of which two are analyzed, with clauses of
severity medium, high, high and medium: no `low`, the key is there with 0. -/
theorem severity_histogram_complete_witness :
    suspiciousClausesBySeverity statsWorld.store = [("low", 0), ("medium", 2), ("high", 2)]
      ∧ ∃ o, statsOverview sampleLib statsWorld = ⟨200, .overview o⟩
          ∧ getKey o.suspiciousClausesBySeverity "low"
              = some ((unwound statsWorld.store).countP (hasSeverity "low")) :=
  ⟨by decide,
    (severity_histogram_complete sampleLib statsWorld).elim (fun o h => ⟨o, h.1, h.2.1⟩)⟩

/-- C19. For every file whose declared MIME type is none of
`application/pdf`, the DOCX type and `text/plain`, whatever its bytes,
extraction fails: the upload, the only caller of `extractTextFromFile`, is
stopped by the file filter of lines 16-23 with its invalid-file-type error
before line 54 is reached, so no text and file type are returned and the
state is unchanged; the answer is the same for every content of the file and
for every library, so no parser has run on the bytes. -/
theorem unsupported_type_rejected_by_filter (L : Lib) (w : World) (f : UploadedFile)
    (newId : ObjectId) (now savedAt : Timestamp)
    (h : f.mimetype ≠ "application/pdf" ∧ f.mimetype ≠ docxMime ∧ f.mimetype ≠ "text/plain") :
    upload L w (some f) newId now savedAt
        = (⟨500, .middlewareError
            "Invalid file type. Only PDF, DOCX, and TXT files are allowed."⟩, w)
      ∧ (∀ (L' : Lib) (bytes : List Nat),
          upload L' w (some { f with buffer := bytes }) newId now savedAt
            = upload L w (some f) newId now savedAt) := by
  have hu : ∀ (K : Lib) (g : UploadedFile), g.mimetype = f.mimetype →
      upload K w (some g) newId now savedAt
        = (⟨500, .middlewareError
            "Invalid file type. Only PDF, DOCX, and TXT files are allowed."⟩, w) := by
    intro K g hg
    have hnot : g.mimetype ∉ allowedTypes := by
      simp [allowedTypes, hg, h.1, h.2.1, h.2.2]
    simp only [upload, hnot, not_false_eq_true, if_true]
  refine ⟨hu L f rfl, ?_⟩
  intro L' bytes
  rw [hu L f rfl]
  exact hu L' { f with buffer := bytes } rfl

set_option maxRecDepth 1000000 in
/-- C19, on a file that declares `image/png`. -/
theorem unsupported_type_rejected_by_filter_witness :
    (imageFile.mimetype ≠ "application/pdf" ∧ imageFile.mimetype ≠ docxMime
        ∧ imageFile.mimetype ≠ "text/plain")
      ∧ upload sampleLib sampleWorld (some imageFile) 7 20 21
        = (⟨500, .middlewareError
            "Invalid file type. Only PDF, DOCX, and TXT files are allowed."⟩, sampleWorld) :=
  ⟨by decide,
    (unsupported_type_rejected_by_filter sampleLib sampleWorld imageFile 7 20 21
      (by decide)).1⟩

/-- C20. `extractTextFromFile` dispatches on the declared MIME type alone:
for `application/pdf` the result is the text of the PDF parser with file type
`pdf`, for the DOCX type the value of the raw-text extractor with file type
`docx`, for `text/plain` the UTF-8 decoding of the bytes, unchanged, with file
type `txt`; and two files that declare the same type get the same file type,
whatever their bytes. -/
theorem extract_dispatches_on_mimetype (L : Lib) (f : UploadedFile) :
    (f.mimetype = "application/pdf" →
        extractTextFromFile L f = (L.pdfParse f.buffer).map (fun t => (t, some FileType.pdf)))
      ∧ (f.mimetype = docxMime →
          extractTextFromFile L f
            = (L.mammothExtract f.buffer).map (fun t => (t, some FileType.docx)))
      ∧ (f.mimetype = "text/plain" →
          extractTextFromFile L f = some (L.utf8Decode f.buffer, some FileType.txt))
      ∧ (∀ (g : UploadedFile) (t u : String) (ft fu : Option FileType),
          g.mimetype = f.mimetype → extractTextFromFile L f = some (t, ft) →
          extractTextFromFile L g = some (u, fu) → ft = fu) := by
  have hpdf : ∀ g : UploadedFile, g.mimetype = "application/pdf" →
      extractTextFromFile L g = (L.pdfParse g.buffer).map (fun t => (t, some FileType.pdf)) := by
    intro g h
    simp [extractTextFromFile, h]
  have hdocx : ∀ g : UploadedFile, g.mimetype = docxMime →
      extractTextFromFile L g
        = (L.mammothExtract g.buffer).map (fun t => (t, some FileType.docx)) := by
    intro g h
    have h1 : ¬ docxMime = "application/pdf" := by decide
    simp [extractTextFromFile, h, h1]
  have htxt : ∀ g : UploadedFile, g.mimetype = "text/plain" →
      extractTextFromFile L g = some (L.utf8Decode g.buffer, some FileType.txt) := by
    intro g h
    have h1 : ¬ ("text/plain" : String) = docxMime := by decide
    simp [extractTextFromFile, h, h1]
  have hother : ∀ g : UploadedFile, g.mimetype ≠ "application/pdf" → g.mimetype ≠ docxMime →
      g.mimetype ≠ "text/plain" → extractTextFromFile L g = some ("", none) := by
    intro g h1 h2 h3
    simp [extractTextFromFile, h1, h2, h3]
  refine ⟨hpdf f, hdocx f, htxt f, ?_⟩
  intro g t u ft fu hg hf hgx
  by_cases h1 : f.mimetype = "application/pdf"
  · rw [hpdf f h1, Option.map_eq_some'] at hf
    rw [hpdf g (hg.trans h1), Option.map_eq_some'] at hgx
    obtain ⟨_, _, hf⟩ := hf
    obtain ⟨_, _, hgx⟩ := hgx
    cases hf; cases hgx; rfl
  · by_cases h2 : f.mimetype = docxMime
    · rw [hdocx f h2, Option.map_eq_some'] at hf
      rw [hdocx g (hg.trans h2), Option.map_eq_some'] at hgx
      obtain ⟨_, _, hf⟩ := hf
      obtain ⟨_, _, hgx⟩ := hgx
      cases hf; cases hgx; rfl
    · by_cases h3 : f.mimetype = "text/plain"
      · rw [htxt f h3] at hf
        rw [htxt g (hg.trans h3)] at hgx
        cases hf; cases hgx; rfl
      · rw [hother f h1 h2 h3] at hf
        rw [hother g (hg ▸ h1) (hg ▸ h2) (hg ▸ h3)] at hgx
        cases hf; cases hgx; rfl

set_option maxRecDepth 1000000 in
/-- C20, on a text file whose content has white space around it: the text is
the decoding of the bytes, untrimmed. -/
theorem extract_dispatches_on_mimetype_witness :
    paddedFile.mimetype = "text/plain"
      ∧ extractTextFromFile sampleLib paddedFile = some ("  Pay on time.\n", some .txt) := by
  refine ⟨by decide, ?_⟩
  rw [(extract_dispatches_on_mimetype sampleLib paddedFile).2.2.1 (by decide)]
  decide

/-- C21. For every uploaded file that passes the middleware (an allowed MIME
type, a size within the limit) and whose extracted text is empty after
`trim()`, `POST /upload` answers 400 `Could not extract text from the
document` and the state is unchanged: no document is created. -/
theorem blank_text_upload_rejected (L : Lib) (w : World) (f : UploadedFile) (newId : ObjectId)
    (now savedAt : Timestamp) (text : String) (fileType : Option FileType)
    (hmime : f.mimetype ∈ allowedTypes) (hsize : f.buffer.length ≤ fileSizeLimit)
    (hx : extractTextFromFile L f = some (text, fileType)) (hblank : jsTrim text = "") :
    upload L w (some f) newId now savedAt
      = (⟨400, .error "Could not extract text from the document"⟩, w) := by
  have h1 : ¬ f.mimetype ∉ allowedTypes := fun h => h hmime
  have h2 : ¬ fileSizeLimit < f.buffer.length := Nat.not_lt.mpr hsize
  unfold upload
  dsimp only
  rw [if_neg h1, if_neg h2, hx]
  dsimp only
  rw [if_pos hblank]

set_option maxRecDepth 1000000 in
/-- C21, on a text file that holds white space only. -/
theorem blank_text_upload_rejected_witness :
    blankFile.mimetype ∈ allowedTypes
      ∧ blankFile.buffer.length ≤ fileSizeLimit
      ∧ extractTextFromFile sampleLib blankFile = some (" \n\t ", some .txt)
      ∧ jsTrim " \n\t " = ""
      ∧ upload sampleLib sampleWorld (some blankFile) 7 20 21
        = (⟨400, .error "Could not extract text from the document"⟩, sampleWorld) :=
  ⟨by decide, by decide, by decide, by decide,
    blank_text_upload_rejected sampleLib sampleWorld blankFile 7 20 21 " \n\t " (some .txt)
      (by decide) (by decide) (by decide) (by decide)⟩

/-- C22. In every state reachable from the empty collection by uploads,
analyses, re-analyses and deletions, every document has a content that is not
empty after `trim()` and is the text an extraction returned for an uploaded
file, with the file type of that extraction, which is `pdf`, `docx` or
`txt`. -/
theorem content_is_extracted_text (L : Lib) (E : Engine) (w : World) (hw : Reachable L E w)
    (d : Document) (hd : d ∈ w.store) :
    jsTrim d.content ≠ ""
      ∧ (∃ f : UploadedFile, extractTextFromFile L f = some (d.content, some d.fileType))
      ∧ (d.fileType = .pdf ∨ d.fileType = .docx ∨ d.fileType = .txt) := by
  have hall := reachable_all L E (ContentExtracted L)
    (by
      intro f ft text newId now savedAt hx ht
      exact ⟨ht, f, hx⟩)
    (by
      intro e v now savedAt he _
      exact he)
  obtain ⟨h1, h2⟩ := hall w hw d hd
  refine ⟨h1, h2, ?_⟩
  cases d.fileType <;> simp

set_option maxRecDepth 1000000 in
/-- C22, on the state after the sample file is uploaded and analyzed. -/
theorem content_is_extracted_text_witness :
    Reachable sampleLib (constEngine sampleFullText) analyzedWorld
      ∧ analyzedDoc ∈ analyzedWorld.store
      ∧ analyzedDoc.content = "The tenant pays."
      ∧ jsTrim analyzedDoc.content ≠ "" :=
  have hr : Reachable sampleLib (constEngine sampleFullText) analyzedWorld :=
    ⟨sampleHistory, by decide⟩
  ⟨hr, by decide, by decide,
    (content_is_extracted_text sampleLib (constEngine sampleFullText) analyzedWorld hr
      analyzedDoc (by decide)).1⟩

/-- C26. In every state reachable from the empty collection by uploads,
analyses, re-analyses and deletions, a document has `isAnalyzed = true` if and
only if its analysis has `analyzedAt` set. -/
theorem flag_agrees_with_result (L : Lib) (E : Engine) (w : World) (hw : Reachable L E w)
    (d : Document) (hd : d ∈ w.store) :
    d.isAnalyzed = true ↔ ∃ t, d.analysis.analyzedAt = .val t := by
  have hall := reachable_all L E FlagAgrees
    (by
      intro f ft text newId now savedAt _ _
      simp [FlagAgrees, newDocument, defaultAnalysis])
    (by
      intro e v now savedAt _ _
      simp [FlagAgrees, written, assigned, assignAnalysis])
  exact hall w hw d hd

set_option maxRecDepth 1000000 in
/-- C26, on the state after the sample file is uploaded and analyzed, and on
the state after the upload alone. -/
theorem flag_agrees_with_result_witness :
    Reachable sampleLib (constEngine sampleFullText) analyzedWorld
      ∧ analyzedDoc ∈ analyzedWorld.store
      ∧ analyzedDoc.isAnalyzed = true
      ∧ (∃ t, analyzedDoc.analysis.analyzedAt = .val t)
      ∧ sampleDoc.isAnalyzed = false ∧ sampleDoc.analysis.analyzedAt = .absent :=
  have hr : Reachable sampleLib (constEngine sampleFullText) analyzedWorld :=
    ⟨sampleHistory, by decide⟩
  ⟨hr, by decide, by decide,
    (flag_agrees_with_result sampleLib (constEngine sampleFullText) analyzedWorld hr
      analyzedDoc (by decide)).mp (by decide),
    by decide, by decide⟩

/-! ## The frame of the analysis routes -/

theorem find_updateFirst_ne (d : Document) (oid : ObjectId) (hd : d.id ≠ oid) :
    ∀ store : List Document,
      (updateFirst d store).find? (fun x => x.id == oid) = store.find? (fun x => x.id == oid)
  | [] => rfl
  | x :: rest => by
    by_cases hx : x.id = d.id
    · have h1 : (x.id == oid) = false := by
        simpa using fun h => hd (hx.symm.trans h)
      have h2 : (d.id == oid) = false := by simpa using hd
      rw [updateFirst, if_pos hx, List.find?_cons, List.find?_cons, h1, h2]
    · rw [updateFirst, if_neg hx, List.find?_cons, List.find?_cons,
        find_updateFirst_ne d oid hd rest]

theorem filter_updateFirst (d : Document) :
    ∀ store : List Document,
      (updateFirst d store).filter (fun x => x.id != d.id)
        = store.filter (fun x => x.id != d.id)
  | [] => rfl
  | x :: rest => by
    by_cases hx : x.id = d.id
    · have h1 : (x.id != d.id) = false := by simp [hx]
      have h2 : (d.id != d.id) = false := by simp
      rw [updateFirst, if_pos hx, List.filter_cons, List.filter_cons, h1, h2]
      rfl
    · have h1 : (x.id != d.id) = true := by simpa using hx
      rw [updateFirst, if_neg hx, List.filter_cons, List.filter_cons, h1]
      simp only [if_true]
      rw [filter_updateFirst d rest]

/-- The collection after the analysis step is the one before, or the one
before with the written document in the place of the loaded one. -/
theorem runAnalysis_store (L : Lib) (E : Engine) (w : World) (document : Document)
    (now savedAt : Timestamp) (success failure : String) :
    (runAnalysis L E w document now savedAt success failure).2.store = w.store
      ∨ ∃ v, issuesOf L document v now = []
          ∧ (runAnalysis L E w document now savedAt success failure).2.store
            = updateFirst (written L document v now savedAt) w.store := by
  cases hp : parsedReply L E w.engineCalls document.content with
  | none =>
    rw [runAnalysis_unparsed L E w document now savedAt success failure hp]
    exact Or.inl rfl
  | some v =>
    by_cases hi : issuesOf L document v now = []
    · rw [runAnalysis_accepted L E w document now savedAt success failure v hp hi]
      exact Or.inr ⟨v, hi, rfl⟩
    · rw [runAnalysis_rejected L E w document now savedAt success failure v hp hi]
      exact Or.inl rfl

/-- The collection after an analysis or a re-analysis is the one before, or
the one before with the written document in the place of the stored document
the id denotes. -/
theorem analysis_store (L : Lib) (E : Engine) (w : World) (op : Op)
    (hop : op.isAnalysis = true) :
    (step L E w op).2.store = w.store
      ∨ ∃ e v now savedAt, e ∈ w.store ∧ stored w e.id = some e
          ∧ (step L E w op).2.store = updateFirst (written L (hydrate e) v now savedAt) w.store := by
  have hfound : ∀ (oid : ObjectId) (document : Document) (now savedAt : Timestamp)
      (success failure : String), findById w.store oid = some document →
      ((runAnalysis L E w document now savedAt success failure).2.store = w.store
        ∨ ∃ e v now' savedAt', e ∈ w.store ∧ stored w e.id = some e
            ∧ (runAnalysis L E w document now savedAt success failure).2.store
              = updateFirst (written L (hydrate e) v now' savedAt') w.store) := by
    intro oid document now savedAt success failure hf
    obtain ⟨e, he, rfl, hid⟩ := findById_eq_some hf
    rcases runAnalysis_store L E w (hydrate e) now savedAt success failure with h | ⟨v, _, h⟩
    · exact Or.inl h
    · refine Or.inr ⟨e, v, now, savedAt, List.mem_of_find?_eq_some he, ?_, h⟩
      rw [hid]
      exact he
  cases op with
  | upload file newId now savedAt => cases hop
  | delete id => cases hop
  | analyze id now savedAt =>
    rw [show step L E w (Op.analyze id now savedAt) = analyze L E w id now savedAt from rfl]
    unfold analyze
    cases hc : L.castObjectId id with
    | none => exact Or.inl rfl
    | some oid =>
      dsimp only
      cases hf : findById w.store oid with
      | none => exact Or.inl rfl
      | some document =>
        dsimp only
        by_cases ha : document.isAnalyzed = true
        · rw [if_pos ha]; exact Or.inl rfl
        · rw [if_neg ha]
          exact hfound oid document now savedAt _ _ hf
  | reAnalyze id now savedAt =>
    rw [show step L E w (Op.reAnalyze id now savedAt) = reAnalyze L E w id now savedAt
      from rfl]
    unfold reAnalyze
    cases hc : L.castObjectId id with
    | none => exact Or.inl rfl
    | some oid =>
      dsimp only
      cases hf : findById w.store oid with
      | none => exact Or.inl rfl
      | some document =>
        dsimp only
        exact hfound oid document now savedAt _ _ hf

/-- An analysis or a re-analysis keeps an analyzed document analyzed. -/
theorem analysis_keeps_analyzed (L : Lib) (E : Engine) (w : World) (op : Op)
    (hop : op.isAnalysis = true) (oid : ObjectId) (d : Document)
    (hd : stored w oid = some d) (ha : d.isAnalyzed = true) :
    ∃ d', stored (step L E w op).2 oid = some d' ∧ d'.isAnalyzed = true := by
  rcases analysis_store L E w op hop with h | ⟨e, v, now, savedAt, _, hse, h⟩
  · exact ⟨d, by unfold stored; rw [h]; exact hd, ha⟩
  · by_cases hid : e.id = oid
    · refine ⟨written L (hydrate e) v now savedAt, ?_, rfl⟩
      unfold stored
      rw [h]
      exact find_updateFirst (written L (hydrate e) v now savedAt) oid hid w.store d hd
    · refine ⟨d, ?_, ha⟩
      unfold stored
      rw [h, find_updateFirst_ne (written L (hydrate e) v now savedAt) oid hid]
      exact hd

/-- C23. Over every sequence of analyses and re-analyses, whatever their ids,
their outcome and the engine, a stored document that has `isAnalyzed = true`
is still stored under its id with `isAnalyzed = true` in the state after the
sequence, hence in every later state. -/
theorem analyzed_stays_analyzed (L : Lib) (E : Engine) (ops : List Op)
    (hops : ∀ op ∈ ops, op.isAnalysis = true) (w : World) (oid : ObjectId) (d : Document)
    (hd : stored w oid = some d) (ha : d.isAnalyzed = true) :
    ∃ d', stored (run L E w ops) oid = some d' ∧ d'.isAnalyzed = true := by
  induction ops generalizing w d with
  | nil => exact ⟨d, hd, ha⟩
  | cons op rest ih =>
    obtain ⟨d₁, hd₁, ha₁⟩ := analysis_keeps_analyzed L E w op
      (hops op (List.mem_cons_self _ _)) oid d hd ha
    exact ih (fun o ho => hops o (List.mem_cons_of_mem _ ho)) _ d₁ hd₁ ha₁

set_option maxRecDepth 1000000 in
/-- C23, on the analyzed sample document: a re-analysis that the engine fails,
a re-analysis whose output is rejected and an analysis leave it analyzed. -/
theorem analyzed_stays_analyzed_witness :
    stored analyzedWorld 1 = some analyzedDoc
      ∧ analyzedDoc.isAnalyzed = true
      ∧ ∃ d', stored (run sampleLib (constEngine sampleTooHighText) analyzedWorld
            [.reAnalyze sampleId 20 21, .analyze sampleId 22 23]) 1 = some d'
          ∧ d'.isAnalyzed = true :=
  ⟨by decide, by decide,
    analyzed_stays_analyzed sampleLib (constEngine sampleTooHighText)
      [.reAnalyze sampleId 20 21, .analyze sampleId 22 23] (by decide) analyzedWorld 1
      analyzedDoc (by decide) (by decide)⟩

/-- What the analysis step on the loaded document of a stored `e` leaves in
the collection: under the id of `e`, either `e` itself or `e` with a new
analysis, flag and `updatedAt`; and the documents with another id as they
were. -/
theorem runAnalysis_frame (L : Lib) (E : Engine) (w : World) (oid : ObjectId) (e : Document)
    (now savedAt : Timestamp) (success failure : String) (he : stored w oid = some e) :
    (∃ e', stored (runAnalysis L E w (hydrate e) now savedAt success failure).2 oid = some e'
        ∧ SameUpload e e'
        ∧ (e' = e ∨ ∃ v, e' = withAnalysis e (assignAnalysis L v now).1 savedAt))
      ∧ (runAnalysis L E w (hydrate e) now savedAt success failure).2.store.filter
          (fun x => x.id != oid) = w.store.filter (fun x => x.id != oid) := by
  have hid : e.id = oid := by
    have := List.find?_some he
    simpa using this
  rcases runAnalysis_store L E w (hydrate e) now savedAt success failure with h | ⟨v, _, h⟩
  · refine ⟨⟨e, ?_, ⟨rfl, rfl, rfl, rfl, rfl, rfl, rfl⟩, Or.inl rfl⟩, by rw [h]⟩
    unfold stored
    rw [h]
    exact he
  · refine ⟨⟨written L (hydrate e) v now savedAt, ?_, ⟨rfl, rfl, rfl, rfl, rfl, rfl, rfl⟩,
      Or.inr ⟨v, rfl⟩⟩, ?_⟩
    · unfold stored
      rw [h]
      exact find_updateFirst (written L (hydrate e) v now savedAt) oid hid w.store e he
    · rw [h, ← hid]
      exact filter_updateFirst (written L (hydrate e) v now savedAt) w.store

theorem findById_of_stored (w : World) (oid : ObjectId) (e : Document)
    (he : stored w oid = some e) : findById w.store oid = some (hydrate e) := by
  unfold stored at he
  unfold findById
  rw [he]
  rfl

set_option maxRecDepth 1000000 in
/-- C24 as stated fails: an accepted `POST /:id/analyze` on the sample
document also changes its `updatedAt`, from 5 to the date of the save, 10. -/
theorem analysis_frame_counterexample :
    (stored sampleWorld 1).map (fun d => d.updatedAt) = some 5
      ∧ (stored (analyze sampleLib (constEngine sampleFullText) sampleWorld sampleId 9 10).2
          1).map (fun d => d.updatedAt) = some 10 := by
  decide

/-- C24, amended. For a stored document `e` that the id denotes,
`POST /:id/analyze` and `POST /:id/re-analyze` leave under that id either `e`
itself or `e` with a new analysis, `isAnalyzed = true` and a new `updatedAt`;
its id, file name, original name, file type, content, `uploadedAt` and
`createdAt` are the same before and after, and the documents with a different
id are the same before and after, whatever the engine returns. -/
theorem analysis_changes_result_flag_and_timestamp (L : Lib) (E : Engine) (w : World)
    (id : String) (now savedAt : Timestamp) (oid : ObjectId) (e : Document)
    (hid : L.castObjectId id = some oid) (he : stored w oid = some e) :
    ((∃ e', stored (analyze L E w id now savedAt).2 oid = some e'
          ∧ SameUpload e e'
          ∧ (e' = e ∨ ∃ v, e' = withAnalysis e (assignAnalysis L v now).1 savedAt))
        ∧ (analyze L E w id now savedAt).2.store.filter (fun x => x.id != oid)
          = w.store.filter (fun x => x.id != oid))
      ∧ ((∃ e', stored (reAnalyze L E w id now savedAt).2 oid = some e'
          ∧ SameUpload e e'
          ∧ (e' = e ∨ ∃ v, e' = withAnalysis e (assignAnalysis L v now).1 savedAt))
        ∧ (reAnalyze L E w id now savedAt).2.store.filter (fun x => x.id != oid)
          = w.store.filter (fun x => x.id != oid)) := by
  have hf := findById_of_stored w oid e he
  constructor
  · by_cases ha : (hydrate e).isAnalyzed = true
    · rw [analyze_short_circuit L E w id oid (hydrate e) now savedAt hid hf ha]
      exact ⟨⟨e, he, ⟨rfl, rfl, rfl, rfl, rfl, rfl, rfl⟩, Or.inl rfl⟩, rfl⟩
    · rw [analyze_unanalyzed L E w id oid (hydrate e) now savedAt hid hf
        (by simpa using ha)]
      exact runAnalysis_frame L E w oid e now savedAt _ _ he
  · rw [reAnalyze_found L E w id oid (hydrate e) now savedAt hid hf]
    exact runAnalysis_frame L E w oid e now savedAt _ _ he

set_option maxRecDepth 1000000 in
/-- C24 amended, on the three documents of `statsWorld`: a re-analysis of the
document with id 2 leaves the two other documents as they were. -/
theorem analysis_changes_result_flag_and_timestamp_witness :
    sampleLib.castObjectId "000000000000000000000002" = some 2
      ∧ stored statsWorld 2 = some (scoredDoc 2 20 ["medium", "high", "high"])
      ∧ (reAnalyze sampleLib (constEngine sampleFullText) statsWorld
          "000000000000000000000002" 30 31).2.store.filter (fun x => x.id != 2)
        = [sampleDoc, scoredDoc 3 80 ["medium"]] := by
  have h := (analysis_changes_result_flag_and_timestamp sampleLib (constEngine sampleFullText)
    statsWorld "000000000000000000000002" 30 31 2 (scoredDoc 2 20 ["medium", "high", "high"])
    (by decide) (by decide)).2.2
  refine ⟨by decide, by decide, ?_⟩
  rw [h]
  decide

theorem matchFence_inner (bs : List Char) (hj : bs.head? ≠ some 'j')
    (hn : bs.head? ≠ some '\n') : matchFence (fence ++ bs) = some bs := by
  cases bs with
  | nil => exact matchFence_fence
  | cons c rest =>
    have hcj : ¬ c = 'j' := fun h => hj (by simp [h])
    have hcn : ¬ c = '\n' := fun h => hn (by simp [h])
    have h1 : ('j' == c) = false := by simpa using fun h => hcj h.symm
    simp only [matchFence, fenceJson, fence, List.cons_append, List.nil_append,
      List.isPrefixOf, beq_self_eq_true, Bool.true_and, h1, Bool.false_and,
      Bool.false_eq_true, if_false, if_true, List.drop_succ_cons, List.drop_zero]
    cases rest <;> simp [dropNewline, hcn]

/-- A fence inside a text is removed like a surrounding one: between two
parts without the fence character, the second not starting with the letter j
or a line feed, the cleaning gives the trimmed concatenation of the parts. -/
theorem cleanText_inner_fence (a b : String) (ha : fenceChar ∉ a.data) (hb : fenceChar ∉ b.data)
    (hj : b.data.head? ≠ some 'j') (hn : b.data.head? ≠ some '\n') :
    cleanText (a ++ String.mk fence ++ b) = jsTrim (a ++ b) := by
  unfold cleanText jsTrim
  have hd : (a ++ String.mk fence ++ b).data = a.data ++ (fence ++ b.data) := by
    simp [String.data_append]
  have hl : (a.data ++ (fence ++ b.data)).length + 1 = ((b.data.length + 3) + 1) + a.data.length := by
    simp only [List.length_append, fence, List.length_cons, List.length_nil]
    omega
  have hf : fence ++ b.data = fenceChar :: ([fenceChar, fenceChar] ++ b.data) := rfl
  have hrest : stripFencesAux ((b.data.length + 3) + 1) (fence ++ b.data) = b.data := by
    rw [hf, stripFencesAux, ← hf, matchFence_inner b.data hj hn]
    dsimp only
    have h := stripFencesAux_append b.data [] hb 3
    rw [List.append_nil, stripFencesAux_nil, List.append_nil, Nat.add_comm] at h
    exact h
  rw [hd, hl, stripFencesAux_append a.data _ ha, hrest, String.data_append]

set_option maxRecDepth 1000000 in
/-- C27. The cleaning of line 56 removes a fence wherever it stands: between
two parts without the fence character (the second not starting with the
letter j or a line feed) the cleaned text is the trimmed concatenation of the
parts. So for the engine output `fencedSummaryText`, a JSON object whose
summary is `fencedSummary`, with a fence in it, the value `analyzeWithAI`
returns and the analysis that is stored have the summary without the fence,
which is not the summary the engine sent. -/
theorem fence_inside_summary_is_removed :
    (∀ a b : String, fenceChar ∉ a.data → fenceChar ∉ b.data →
        b.data.head? ≠ some 'j' → b.data.head? ≠ some '\n' →
        cleanText (a ++ String.mk fence ++ b) = jsTrim (a ++ b))
      ∧ sampleLib.jsonParse fencedSummaryText = some sampleFencedSent
      ∧ sampleFencedSent.get? "summary" = some (.str fencedSummary)
      ∧ fencedSummary = "See " ++ String.mk fence ++ "clause 4"
      ∧ parsedReply sampleLib (constEngine fencedSummaryText) 0 sampleDoc.content
          = some sampleFencedCleaned
      ∧ sampleFencedCleaned.get? "summary" = some (.str "See clause 4")
      ∧ "See clause 4" ≠ fencedSummary
      ∧ (stored (analyze sampleLib (constEngine fencedSummaryText) sampleWorld sampleId 9 10).2
          1).map (fun d => d.analysis.summary) = some (.val "See clause 4") :=
  ⟨cleanText_inner_fence, rfl, rfl, rfl, rfl, rfl, by decide, by decide⟩

set_option maxRecDepth 1000000 in
/-- C27, on the two parts of `fencedSummaryText`. -/
theorem fence_inside_summary_is_removed_witness :
    fenceChar ∉ fencedHead.data ∧ fenceChar ∉ fencedTail.data
      ∧ fencedTail.data.head? ≠ some 'j' ∧ fencedTail.data.head? ≠ some '\n'
      ∧ cleanText fencedSummaryText = jsTrim (fencedHead ++ fencedTail)
      ∧ jsTrim (fencedHead ++ fencedTail) = fencedHead ++ fencedTail :=
  ⟨by decide, by decide, by decide, by decide,
    fence_inside_summary_is_removed.1 fencedHead fencedTail (by decide) (by decide) (by decide)
      (by decide),
    by decide⟩

/-- C28. On an unanalyzed document with its required fields, when the text of
the engine parses to a value that is no object (`null`, a number, a string
literal), `POST /:id/analyze` answers 200 and the document is stored as
analyzed with an analysis that holds `analyzedAt` and none of the other
paths; when it is loaded again its risk score is the default 0. -/
theorem non_object_output_accepted (L : Lib) (E : Engine) (w : World) (id : String)
    (oid : ObjectId) (document : Document) (now savedAt : Timestamp) (v : JVal)
    (hid : L.castObjectId id = some oid) (hfind : findById w.store oid = some document)
    (hun : document.isAnalyzed = false)
    (hp : parsedReply L E w.engineCalls document.content = some v)
    (hreq : document.filename ≠ "" ∧ document.originalName ≠ "" ∧ document.content ≠ "")
    (hv : v = .null ∨ (∃ n, v = .num n) ∨ (∃ s, v = .str s)) :
    (analyze L E w id now savedAt).1
        = ⟨200, .analysis "Document analyzed successfully" (dateOnlyAnalysis now)⟩
      ∧ ∃ d, stored (analyze L E w id now savedAt).2 oid = some d
          ∧ d.isAnalyzed = true
          ∧ d.analysis = dateOnlyAnalysis now
          ∧ d.analysis.analyzedAt = .val now
          ∧ d.analysis.riskScore = .absent
          ∧ (hydrate d).analysis.riskScore = .val (.fin 0) := by
  have hget : ∀ key, v.get? key = none := by
    intro key
    rcases hv with rfl | ⟨n, rfl⟩ | ⟨s, rfl⟩ <;> rfl
  have ha : (assignAnalysis L v now).1 = dateOnlyAnalysis now := by
    simp [dateOnlyAnalysis, assignAnalysis, hget, castStringPath,
      castClauseArrayPath, assignClauses, castStringArrayPath, castNumberPath, orCastIssue]
  have hi : issuesOf L document v now = [] := by
    rw [issuesOf_eq_nil_iff]
    simp [otherIssues, hget, castStringPath, castClauseArrayPath, assignClauses,
      castStringArrayPath, castNumberPath, orCastIssue, requiredIssues, hreq.1, hreq.2.1, hreq.2.2, clausesIssues,
      riskScoreIssues]
  obtain ⟨hres, hst⟩ := analyze_accepted L E w id oid document now savedAt v hid hfind hun hp hi
  have hd : (written L document v now savedAt).analysis = dateOnlyAnalysis now := ha
  refine ⟨by rw [hres, ha], written L document v now savedAt, hst, rfl, hd, ?_, ?_, ?_⟩
  · rw [hd]; rfl
  · rw [hd]; rfl
  · show (hydrateAnalysis (written L document v now savedAt).analysis).riskScore = _
    rw [hd]
    rfl

set_option maxRecDepth 1000000 in
/-- C28, on the sample document and the engine outputs `null`, `42` and the
string literal `"ok"`. -/
theorem non_object_output_accepted_witness :
    sampleLib.castObjectId sampleId = some 1
      ∧ findById sampleWorld.store 1 = some sampleDoc
      ∧ sampleDoc.isAnalyzed = false
      ∧ (sampleDoc.filename ≠ "" ∧ sampleDoc.originalName ≠ "" ∧ sampleDoc.content ≠ "")
      ∧ (analyze sampleLib (constEngine "null") sampleWorld sampleId 9 10).1
          = ⟨200, .analysis "Document analyzed successfully" (dateOnlyAnalysis 9)⟩
      ∧ (analyze sampleLib (constEngine "42") sampleWorld sampleId 9 10).1
          = ⟨200, .analysis "Document analyzed successfully" (dateOnlyAnalysis 9)⟩
      ∧ (analyze sampleLib (constEngine "\"ok\"") sampleWorld sampleId 9 10).1
          = ⟨200, .analysis "Document analyzed successfully" (dateOnlyAnalysis 9)⟩ :=
  ⟨by decide, by decide, by decide, by decide,
    (non_object_output_accepted sampleLib (constEngine "null") sampleWorld sampleId 1 sampleDoc
      9 10 .null (by decide) (by decide) (by decide) rfl (by decide) (Or.inl rfl)).1,
    (non_object_output_accepted sampleLib (constEngine "42") sampleWorld sampleId 1 sampleDoc
      9 10 (.num (.fin 42)) (by decide) (by decide) (by decide) rfl (by decide)
      (Or.inr (Or.inl ⟨_, rfl⟩))).1,
    (non_object_output_accepted sampleLib (constEngine "\"ok\"") sampleWorld sampleId 1
      sampleDoc 9 10 (.str "ok") (by decide) (by decide) (by decide) rfl (by decide)
      (Or.inr (Or.inr ⟨_, rfl⟩))).1⟩

/-! ## Lemmas on requests in flight -/

/-- The three stretches of a handler, run without another request in between,
are the route `analyze`. -/
theorem advance_thrice (L : Lib) (E : Engine) (c : AnalyzeCall) (w : World) :
    advance L E c (advance L E c (advance L E c w .start).2 (advance L E c w .start).1).2
        (advance L E c (advance L E c w .start).2 (advance L E c w .start).1).1
      = (.done (analyze L E w c.id c.now c.savedAt).1, (analyze L E w c.id c.now c.savedAt).2) := by
  cases hc : L.castObjectId c.id with
  | none => simp [advance, analyze, hc]
  | some oid =>
    cases hf : findById w.store oid with
    | none => simp [advance, analyze, hc, hf]
    | some document =>
      by_cases ha : document.isAnalyzed = true
      · rw [analyze_short_circuit L E w c.id oid document c.now c.savedAt hc hf ha]
        simp [advance, hc, hf, ha]
      · have hun : document.isAnalyzed = false := by simpa using ha
        have hs : advance L E c w .start = (.loaded document, w) := by
          simp [advance, hc, hf, ha]
        rw [analyze_unanalyzed L E w c.id oid document c.now c.savedAt hc hf hun, hs]
        cases hp : parsedReply L E w.engineCalls document.content with
        | none =>
          rw [runAnalysis_unparsed L E w document c.now c.savedAt _ _ hp]
          simp [advance, analyzeWithAI_eq, hp]
        | some v =>
          have h2 : advance L E c w (.loaded document)
              = (.replied document v, { w with engineCalls := w.engineCalls + 1 }) := by
            simp [advance, analyzeWithAI_eq, hp]
          rw [h2]
          by_cases hi : issuesOf L document v c.now = []
          · rw [runAnalysis_accepted L E w document c.now c.savedAt _ _ v hp hi]
            have hi2 := hi
            unfold issuesOf assigned at hi2
            simp only [advance, save_eq, if_pos hi2]
            rfl
          · rw [runAnalysis_rejected L E w document c.now c.savedAt _ _ v hp hi]
            have hi2 := hi
            unfold issuesOf assigned at hi2
            simp only [advance, save_eq, if_neg hi2]
            rfl

/-- A stretch of a handler that has loaded its document makes an engine call
exactly when the handler was waiting to make it. -/
theorem advance_calls (L : Lib) (E : Engine) (c : AnalyzeCall) (w : World) (p : Pending)
    (hp : p.isDone = true ∨ p.callsLeft = 1 ∨ ∃ d v, p = .replied d v) :
    (advance L E c w p).2.engineCalls + (advance L E c w p).1.callsLeft
        = w.engineCalls + p.callsLeft
      ∧ ((advance L E c w p).1.isDone = true ∨ (advance L E c w p).1.callsLeft = 1
          ∨ ∃ d v, (advance L E c w p).1 = .replied d v) := by
  cases p with
  | start => simp [Pending.isDone, Pending.callsLeft] at hp
  | done r => exact ⟨rfl, Or.inl rfl⟩
  | loaded document =>
    simp only [advance, analyzeWithAI_eq]
    cases parsedReply L E w.engineCalls document.content with
    | none => exact ⟨rfl, Or.inl rfl⟩
    | some v => exact ⟨rfl, Or.inr (Or.inr ⟨document, v, rfl⟩)⟩
  | replied document v =>
    simp only [advance]
    cases save L w.store
        { document with analysis := (assignAnalysis L v c.now).1, isAnalyzed := true }
        (assignAnalysis L v c.now).2 c.savedAt with
    | error issues => exact ⟨rfl, Or.inl rfl⟩
    | ok r => exact ⟨rfl, Or.inl rfl⟩

/-- Along any interleaving of two handlers that have loaded their documents,
the engine calls made and the engine calls still to make add up to the same
number. -/
theorem runPair_calls (L : Lib) (E : Engine) (c₁ c₂ : AnalyzeCall) :
    ∀ (sched : List Bool) (s : InFlight),
      (s.first.isDone = true ∨ s.first.callsLeft = 1 ∨ ∃ d v, s.first = .replied d v) →
      (s.second.isDone = true ∨ s.second.callsLeft = 1 ∨ ∃ d v, s.second = .replied d v) →
      (runPair L E c₁ c₂ sched s).world.engineCalls
          + (runPair L E c₁ c₂ sched s).first.callsLeft
          + (runPair L E c₁ c₂ sched s).second.callsLeft
        = s.world.engineCalls + s.first.callsLeft + s.second.callsLeft
  | [], _, _, _ => rfl
  | false :: rest, s, h₁, h₂ => by
    obtain ⟨hc, hn⟩ := advance_calls L E c₁ s.world s.first h₁
    have ih := runPair_calls L E c₁ c₂ rest
      { first := (advance L E c₁ s.world s.first).1, second := s.second,
        world := (advance L E c₁ s.world s.first).2 } hn h₂
    rw [runPair, ih]
    simp only
    omega
  | true :: rest, s, h₁, h₂ => by
    obtain ⟨hc, hn⟩ := advance_calls L E c₂ s.world s.second h₂
    have ih := runPair_calls L E c₁ c₂ rest
      { first := s.first, second := (advance L E c₂ s.world s.second).1,
        world := (advance L E c₂ s.world s.second).2 } h₁ hn
    rw [runPair, ih]
    simp only
    omega

theorem callsLeft_of_isDone (p : Pending) (h : p.isDone = true) : p.callsLeft = 0 := by
  cases p with
  | done r => rfl
  | start => simp [Pending.isDone] at h
  | loaded d => simp [Pending.isDone] at h
  | replied d v => simp [Pending.isDone] at h

theorem advance_start_unanalyzed (L : Lib) (E : Engine) (c : AnalyzeCall) (w : World)
    (oid : ObjectId) (document : Document)
    (hc : L.castObjectId c.id = some oid) (hf : findById w.store oid = some document)
    (hun : document.isAnalyzed = false) :
    advance L E c w .start = (.loaded document, w) := by
  simp [advance, hc, hf, hun]

theorem advance_loaded_parsed (L : Lib) (E : Engine) (c : AnalyzeCall) (w : World)
    (document : Document) (v : JVal)
    (hp : parsedReply L E w.engineCalls document.content = some v) :
    advance L E c w (.loaded document)
      = (.replied document v, { w with engineCalls := w.engineCalls + 1 }) := by
  simp [advance, analyzeWithAI_eq, hp]

theorem advance_replied_accepted (L : Lib) (E : Engine) (c : AnalyzeCall) (w : World)
    (document : Document) (v : JVal) (hi : issuesOf L document v c.now = []) :
    advance L E c w (.replied document v)
      = (.done ⟨200, .analysis "Document analyzed successfully" (assignAnalysis L v c.now).1⟩,
          { w with store := updateFirst (written L document v c.now c.savedAt) w.store }) := by
  have hi2 := hi
  unfold issuesOf assigned at hi2
  simp only [advance, save_eq, if_pos hi2]
  rfl

/-- The interleaving in which the first handler responds before the second
starts is the sequence of the two routes. -/
theorem runPair_oneAfterTheOther (L : Lib) (E : Engine) (c₁ c₂ : AnalyzeCall) (w : World) :
    (runPair L E c₁ c₂ oneAfterTheOther (InFlight.arrived w)).first
        = .done (analyze L E w c₁.id c₁.now c₁.savedAt).1
      ∧ (runPair L E c₁ c₂ oneAfterTheOther (InFlight.arrived w)).second
        = .done (analyze L E (analyze L E w c₁.id c₁.now c₁.savedAt).2 c₂.id c₂.now
            c₂.savedAt).1
      ∧ (runPair L E c₁ c₂ oneAfterTheOther (InFlight.arrived w)).world
        = (analyze L E (analyze L E w c₁.id c₁.now c₁.savedAt).2 c₂.id c₂.now c₂.savedAt).2 := by
  have h1 := advance_thrice L E c₁ w
  have h2 := advance_thrice L E c₂ (analyze L E w c₁.id c₁.now c₁.savedAt).2
  simp only [oneAfterTheOther, runPair, InFlight.arrived, h1, h2, and_self]

/-- After an accepted analysis of an unanalyzed document, a second analysis
calls the engine no more. -/
theorem analyze_again_calls (L : Lib) (E : Engine) (w : World) (id : String) (oid : ObjectId)
    (document : Document) (now₁ saved₁ : Timestamp) (id₂ : String) (now₂ saved₂ : Timestamp)
    (hid : L.castObjectId id = some oid) (hid₂ : L.castObjectId id₂ = some oid)
    (hfind : findById w.store oid = some document) (hun : document.isAnalyzed = false)
    (hacc : (analyze L E w id now₁ saved₁).1.status = 200) :
    (analyze L E (analyze L E w id now₁ saved₁).2 id₂ now₂ saved₂).2.engineCalls
      = w.engineCalls + 1 := by
  rw [analyze_unanalyzed L E w id oid document now₁ saved₁ hid hfind hun] at hacc ⊢
  cases hp : parsedReply L E w.engineCalls document.content with
  | none =>
    rw [runAnalysis_unparsed L E w document now₁ saved₁ _ _ hp] at hacc
    simp at hacc
  | some v =>
    by_cases hi : issuesOf L document v now₁ = []
    · rw [runAnalysis_accepted L E w document now₁ saved₁ _ _ v hp hi]
      have hfind2 := findById_after_save w oid document (written L document v now₁ saved₁)
        hfind (findById_id hfind : document.id = oid)
      rw [analyze_short_circuit L E
        { store := updateFirst (written L document v now₁ saved₁) w.store,
          engineCalls := w.engineCalls + 1 } id₂ oid
        (hydrate (written L document v now₁ saved₁)) now₂ saved₂ hid₂ hfind2 rfl]
    · rw [runAnalysis_rejected L E w document now₁ saved₁ _ _ v hp hi] at hacc
      simp at hacc

set_option maxRecDepth 1000000 in
/-- C25 as stated fails: two requests for the unanalyzed sample document whose
handlers take turns both load the document before either saves; the engine is
called twice, both requests are answered 200, and the analysis of the second
reply replaces the one of the first. -/
theorem concurrent_analyze_counterexample :
    (stored sampleWorld 1).map (fun d => d.isAnalyzed) = some false
      ∧ (runPair sampleLib twoReplies firstCall secondCall alternating
          (InFlight.arrived sampleWorld)).world.engineCalls = 2
      ∧ (runPair sampleLib twoReplies firstCall secondCall alternating
          (InFlight.arrived sampleWorld)).first.response?.map (fun r => r.status) = some 200
      ∧ (runPair sampleLib twoReplies firstCall secondCall alternating
          (InFlight.arrived sampleWorld)).second.response?.map (fun r => r.status) = some 200
      ∧ (runPair sampleLib twoReplies firstCall secondCall alternating
          (InFlight.arrived sampleWorld)).world.store.map (fun d => d.analysis.summary)
        = [.val "Second opinion"] := by
  decide

/-- C25, amended. Two `POST /:id/analyze` for the same unanalyzed document:
when the first handler has responded before the second starts and its output
was accepted, the engine is called exactly once; the routes take no lock, and
in every interleaving in which both handlers load the document before
anything else happens, the engine has been called twice when both have
responded; when the handlers take turns and both outputs are accepted, both
requests are answered 200 with their own analysis and the stored analysis is
the one written last, that of the second reply. -/
theorem analyze_race_without_lock (L : Lib) (E : Engine) (c₁ c₂ : AnalyzeCall) (w : World)
    (oid : ObjectId) (document : Document)
    (h₁ : L.castObjectId c₁.id = some oid) (h₂ : L.castObjectId c₂.id = some oid)
    (hfind : findById w.store oid = some document) (hun : document.isAnalyzed = false) :
    ((analyze L E w c₁.id c₁.now c₁.savedAt).1.status = 200 →
        (runPair L E c₁ c₂ oneAfterTheOther (InFlight.arrived w)).world.engineCalls
          = w.engineCalls + 1)
      ∧ (∀ sched : List Bool,
          (runPair L E c₁ c₂ (false :: true :: sched) (InFlight.arrived w)).first.isDone = true →
          (runPair L E c₁ c₂ (false :: true :: sched) (InFlight.arrived w)).second.isDone = true →
          (runPair L E c₁ c₂ (false :: true :: sched) (InFlight.arrived w)).world.engineCalls
            = w.engineCalls + 2)
      ∧ (∀ sched : List Bool,
          (runPair L E c₁ c₂ (true :: false :: sched) (InFlight.arrived w)).first.isDone = true →
          (runPair L E c₁ c₂ (true :: false :: sched) (InFlight.arrived w)).second.isDone = true →
          (runPair L E c₁ c₂ (true :: false :: sched) (InFlight.arrived w)).world.engineCalls
            = w.engineCalls + 2)
      ∧ (∀ v₁ v₂ : JVal,
          parsedReply L E w.engineCalls document.content = some v₁ →
          parsedReply L E (w.engineCalls + 1) document.content = some v₂ →
          issuesOf L document v₁ c₁.now = [] → issuesOf L document v₂ c₂.now = [] →
          (runPair L E c₁ c₂ alternating (InFlight.arrived w)).first.response?
              = some ⟨200, .analysis "Document analyzed successfully"
                  (assignAnalysis L v₁ c₁.now).1⟩
            ∧ (runPair L E c₁ c₂ alternating (InFlight.arrived w)).second.response?
              = some ⟨200, .analysis "Document analyzed successfully"
                  (assignAnalysis L v₂ c₂.now).1⟩
            ∧ stored (runPair L E c₁ c₂ alternating (InFlight.arrived w)).world oid
              = some (written L document v₂ c₂.now c₂.savedAt)) := by
  have hs₁ := advance_start_unanalyzed L E c₁ w oid document h₁ hfind hun
  have hs₂ := advance_start_unanalyzed L E c₂ w oid document h₂ hfind hun
  have hboth : ∀ sched : List Bool, ∀ r : InFlight,
      r = runPair L E c₁ c₂ sched
        { first := .loaded document, second := .loaded document, world := w } →
      r.first.isDone = true → r.second.isDone = true →
      r.world.engineCalls = w.engineCalls + 2 := by
    intro sched r hr hd₁ hd₂
    have h := runPair_calls L E c₁ c₂ sched
      { first := .loaded document, second := .loaded document, world := w }
      (Or.inr (Or.inl rfl)) (Or.inr (Or.inl rfl))
    rw [← hr, callsLeft_of_isDone _ hd₁, callsLeft_of_isDone _ hd₂] at h
    simp only [Pending.callsLeft] at h
    omega
  refine ⟨?_, ?_, ?_, ?_⟩
  · intro hacc
    rw [(runPair_oneAfterTheOther L E c₁ c₂ w).2.2]
    exact analyze_again_calls L E w c₁.id oid document c₁.now c₁.savedAt c₂.id c₂.now
      c₂.savedAt h₁ h₂ hfind hun hacc
  · intro sched
    have hr : runPair L E c₁ c₂ (false :: true :: sched) (InFlight.arrived w)
        = runPair L E c₁ c₂ sched
            { first := .loaded document, second := .loaded document, world := w } := by
      simp only [runPair, InFlight.arrived, hs₁, hs₂]
    exact hboth sched _ hr
  · intro sched
    have hr : runPair L E c₁ c₂ (true :: false :: sched) (InFlight.arrived w)
        = runPair L E c₁ c₂ sched
            { first := .loaded document, second := .loaded document, world := w } := by
      simp only [runPair, InFlight.arrived, hs₁, hs₂]
    exact hboth sched _ hr
  · intro v₁ v₂ hp₁ hp₂ hi₁ hi₂
    have hc₁ := advance_loaded_parsed L E c₁ w document v₁ hp₁
    have hc₂ := advance_loaded_parsed L E c₂ { w with engineCalls := w.engineCalls + 1 }
      document v₂ hp₂
    have hv₁ := advance_replied_accepted L E c₁
      { store := w.store, engineCalls := w.engineCalls + 1 + 1 } document v₁ hi₁
    have hv₂ := advance_replied_accepted L E c₂
      { store := updateFirst (written L document v₁ c₁.now c₁.savedAt) w.store,
        engineCalls := w.engineCalls + 1 + 1 } document v₂ hi₂
    simp only [alternating, runPair, InFlight.arrived, hs₁, hs₂, hc₁, hc₂, hv₁, hv₂,
      Pending.response?]
    refine ⟨trivial, trivial, ?_⟩
    obtain ⟨e, he, _, _⟩ := findById_eq_some hfind
    have hw₁ : (updateFirst (written L document v₁ c₁.now c₁.savedAt) w.store).find?
        (fun x => x.id == oid) = some (written L document v₁ c₁.now c₁.savedAt) :=
      find_updateFirst (written L document v₁ c₁.now c₁.savedAt) oid
        (findById_id hfind : document.id = oid) w.store e he
    exact find_updateFirst (written L document v₂ c₂.now c₂.savedAt) oid
      (findById_id hfind : document.id = oid) _ _ hw₁

set_option maxRecDepth 1000000 in
/-- C25 amended, on two requests for the unanalyzed sample document: one
engine call when the first responds before the second starts, two when the
handlers take turns. -/
theorem analyze_race_without_lock_witness :
    sampleLib.castObjectId firstCall.id = some 1
      ∧ sampleLib.castObjectId secondCall.id = some 1
      ∧ findById sampleWorld.store 1 = some sampleDoc
      ∧ sampleDoc.isAnalyzed = false
      ∧ (runPair sampleLib twoReplies firstCall secondCall oneAfterTheOther
          (InFlight.arrived sampleWorld)).world.engineCalls = sampleWorld.engineCalls + 1
      ∧ (runPair sampleLib twoReplies firstCall secondCall alternating
          (InFlight.arrived sampleWorld)).world.engineCalls = sampleWorld.engineCalls + 2 :=
  ⟨by decide, by decide, by decide, by decide,
    (analyze_race_without_lock sampleLib twoReplies firstCall secondCall sampleWorld 1
      sampleDoc (by decide) (by decide) (by decide) (by decide)).1 (by decide),
    (analyze_race_without_lock sampleLib twoReplies firstCall secondCall sampleWorld 1
      sampleDoc (by decide) (by decide) (by decide) (by decide)).2.1
      [false, true, false, true] (by decide) (by decide)⟩

end LegalAnalyzer
